import Mathlib

/-!
# Verification of the readyq task tracker core (src/readyq.py)

This file gives a shallow embedding of the persistence + dependency-graph
subsystem of `readyq.py`:

* the markdown document codec (`generate_markdown_task`, `md_save_tasks`,
  `md_load_tasks`, `parse_task_section`), modelled at the level of character
  lists, with each regular expression of the source rendered as a bespoke
  deterministic scanner implementing exactly that expression's semantics;
* the dependency-graph operations of `cmd_update` (add/remove block edges,
  the status branch with its done-cascade) and `cmd_delete`;
* the ready-set computation of `cmd_ready`;
* id-prefix resolution (`find_task` and the first-match resolution used
  inside the edge operations);
* cycle detection (`find_circular_dependencies`).

Python strings are modelled as `List Char`; Python dicts of tasks are
modelled by the `Task` structure below (the fields the tracker reads and
writes).  Python mutates task dicts in place inside a shared list; here the
list is rebuilt by mapping over it.  The two agree whenever task ids are
distinct, which the data model requires and which the theorems below assume
where it matters.
-/

namespace ReadyQ

/-- Characters of a string literal: the working representation of Python strings. -/
def str (s : String) : List Char := s.data

/-- `isPref p s` : `p` is a leading segment of `s` (Python `s.startswith(p)` at a
given position, and the building block of every regex scanner below). -/
def isPref : List Char → List Char → Bool
  | [], _ => true
  | _ :: _, [] => false
  | c :: cs, d :: ds => c = d && isPref cs ds

/-- `containsPat p s` : `p` occurs as a contiguous segment somewhere in `s`
(Python `p in s`). -/
def containsPat (p : List Char) : List Char → Bool
  | [] => isPref p []
  | s@(_ :: t) => isPref p s || containsPat p t

/-- `endsW p s` : Python `s.endswith(p)`. -/
def endsW (p s : List Char) : Bool := isPref p.reverse s.reverse

/-- Python whitespace characters stripped by `str.strip()` (ASCII range). -/
def isWs (c : Char) : Bool :=
  c = ' ' || c = '\t' || c = '\n' || c = '\r' || c = '\x0b' || c = '\x0c'

/-- Python `s.strip()` (ASCII whitespace). -/
def pyStrip (s : List Char) : List Char :=
  ((s.dropWhile isWs).reverse.dropWhile isWs).reverse

/-- Python `s.split(sep)` for a one-character separator. -/
def splitOnChar (sep : Char) : List Char → List (List Char)
  | [] => [[]]
  | c :: t =>
    if c = sep then [] :: splitOnChar sep t
    else
      match splitOnChar sep t with
      | [] => [[c]]
      | l :: ls => (c :: l) :: ls

/-- The shortest leading segment of `s` after which `pat` starts, if `pat`
occurs at all: this is how a non-greedy `(.*?)` followed by the literal `pat`
captures in a Python regex.  `none` when `pat` never occurs. -/
def takeUntilPat (pat : List Char) : List Char → Option (List Char)
  | [] => if isPref pat [] then some [] else none
  | s@(c :: t) =>
    if isPref pat s then some []
    else (takeUntilPat pat t).map (fun g => c :: g)

/-- First line and remainder after its newline: how `(.*?)\n` captures. -/
def splitNL : List Char → Option (List Char × List Char) :=
  fun s => (takeUntilPat ['\n'] s).map (fun g => (g, s.drop (g.length + 1)))

/-- Python `s.lower()` (ASCII). -/
def pyLower (s : List Char) : List Char := s.map Char.toLower

/-- First occurrence split, Python `s.split(pat, 1)`: the part before the first
occurrence of `pat` and the part after it. -/
def splitOncePat (pat s : List Char) : Option (List Char × List Char) :=
  (takeUntilPat pat s).map (fun g => (g, s.drop (g.length + pat.length)))

/-- A session log entry `{ timestamp, log }`. -/
structure Session where
  timestamp : List Char
  log : List Char
deriving DecidableEq

/-- A task record: the fields of the task dicts that `readyq.py` reads and
writes.  A field a parsed dict would lack holds its neutral default
(`[]`), matching how every consumer reads it (`task.get(...)`). -/
structure Task where
  id : List Char := []
  title : List Char := []
  description : List Char := []
  status : List Char := []
  created_at : List Char := []
  updated_at : List Char := []
  blocks : List (List Char) := []
  blocked_by : List (List Char) := []
  sessions : List Session := []
deriving DecidableEq

/-- The guard of the metadata loop of `parse_task_section` (readyq.py:191):
`line.startswith('**') and ('**:' in line or line.endswith('**'))`. -/
def metaGuard (line : List Char) : Bool :=
  isPref (str "**") line && (containsPat (str "**:") line || endsW (str "**") line)

/-- Field name and value of a metadata line (readyq.py:193-202): split at the
first `**:` (field cleaned of `*` and stripped, value stripped), or at the
first two `**` when no `**:` occurs. -/
def metaFieldValue (line : List Char) : List Char × List Char :=
  if containsPat (str "**:") line then
    match splitOncePat (str "**:") line with
    | some (a, b) => (pyStrip (a.filter (fun c => c ≠ '*')), pyStrip b)
    | none => (pyStrip (line.filter (fun c => c ≠ '*')), [])
  else
    match splitOncePat (str "**") line with
    | some (_, r1) =>
      match splitOncePat (str "**") r1 with
      | some (f, r2) => (pyStrip f, pyStrip r2)
      | none => (pyStrip r1, [])
    | none => ([], [])

/-- Comma-separated id list field (readyq.py:218): split on commas, strip each
item, drop empties. -/
def parseCommaList (v : List Char) : List (List Char) :=
  ((splitOnChar ',' v).map pyStrip).filter (fun x => x ≠ [])

/-- Status literals used by the tracker. -/
def stOpen : List Char := str "open"

def stInProgress : List Char := str "in_progress"

def stBlocked : List Char := str "blocked"

def stDone : List Char := str "done"

/-- The status values `cmd_update --status` accepts. -/
def validStatuses : List (List Char) := [stOpen, stInProgress, stDone, stBlocked]

/-- One metadata line applied to the task under construction
(readyq.py:189-222): strip the line, and if it has the bold-field shape,
dispatch on the cleaned key.  `blocks`/`blocked_by` parse as comma lists; the
field mapping sends `created`/`updated` to the timestamp fields; keys the
tracker never reads back are dropped. -/
def applyMetaLine (t : Task) (raw : List Char) : Task :=
  let line := pyStrip raw
  if metaGuard line then
    let fv := metaFieldValue line
    let cleanKey := (pyLower fv.1).map (fun c => if c = ' ' then '_' else c)
    if cleanKey = str "blocks" then { t with blocks := parseCommaList fv.2 }
    else if cleanKey = str "blocked_by" then { t with blocked_by := parseCommaList fv.2 }
    else
      let finalKey :=
        if cleanKey = str "created" then str "created_at"
        else if cleanKey = str "updated" then str "updated_at"
        else cleanKey
      if finalKey = str "id" then { t with id := fv.2 }
      else if finalKey = str "created_at" then { t with created_at := fv.2 }
      else if finalKey = str "updated_at" then { t with updated_at := fv.2 }
      else if finalKey = str "title" then { t with title := fv.2 }
      else if finalKey = str "description" then { t with description := fv.2 }
      else t
  else t

/-- The checked-checkbox literal of `re.search(r'- \[x\] ([^\n]+)', content)`. -/
def checkboxPat : List Char := str "- [x] "

/-- Leftmost match of `- \[x\] ([^\n]+)`: at the first position where the
literal matches and at least one non-newline character follows, the greedy
group runs to the end of the line. -/
def findChecked : List Char → Option (List Char)
  | [] => none
  | s@(_ :: t) =>
    if isPref checkboxPat s then
      let g := (s.drop 6).takeWhile (fun c => c ≠ '\n')
      if g = [] then findChecked t else some g
    else findChecked t

/-- The checked-status label table (readyq.py:229-235), defaulting to `open`. -/
def statusFromText (s : List Char) : List Char :=
  if s = str "Open" then stOpen
  else if s = str "In Progress" then stInProgress
  else if s = str "Blocked" then stBlocked
  else if s = str "Done" then stDone
  else stOpen

/-- Status of a task section (readyq.py:225-237): the first checked checkbox's
stripped label through the table, `open` when nothing is checked. -/
def parseStatus (content : List Char) : List Char :=
  match findChecked content with
  | some g => statusFromText (pyStrip g)
  | none => stOpen

/-- Opener of the wrapped description block. -/
def descOpenPat : List Char := str "## Description\n\n<description>\n"

/-- Terminator the non-greedy description group stops at. -/
def descClosePat : List Char := str "\n</description>"

/-- `re.search(r'## Description\n\n<description>\n(.*?)\n</description>', DOTALL)`:
at the leftmost opener position after which the terminator occurs, the group is
everything up to the first terminator. -/
def findDescXml : List Char → Option (List Char)
  | [] => none
  | s@(_ :: t) =>
    if isPref descOpenPat s then
      match takeUntilPat descClosePat (s.drop 30) with
      | some g => some g
      | none => findDescXml t
    else findDescXml t

/-- The zero-width stop `(?=\n##|\n---|$)` of the legacy description pattern
(`$` also matches just before a trailing final newline). -/
def legacyStop (s : List Char) : Bool :=
  isPref (str "\n##") s || isPref (str "\n---") s || s = [] || s = ['\n']

/-- Shortest leading segment ending where `legacyStop` holds (it always holds
at the end of the input). -/
def takeToLegacyStop : List Char → List Char
  | [] => []
  | s@(c :: t) => if legacyStop s then [] else c :: takeToLegacyStop t

/-- Opener of the legacy (unwrapped) description block. -/
def legacyDescPat : List Char := str "## Description\n\n"

/-- `re.search(r'## Description\n\n(.*?)(?=\n##|\n---|$)', DOTALL)`. -/
def findDescLegacy : List Char → Option (List Char)
  | [] => none
  | s@(_ :: t) =>
    if isPref legacyDescPat s then some (takeToLegacyStop (s.drop 16))
    else findDescLegacy t

/-- The 15 character classes of `### \d{4}-\d{2}-\d{2}T`. -/
def sessHeaderSlots : List (Char → Bool) :=
  [fun c => c = '#', fun c => c = '#', fun c => c = '#', fun c => c = ' ',
   Char.isDigit, Char.isDigit, Char.isDigit, Char.isDigit, fun c => c = '-',
   Char.isDigit, Char.isDigit, fun c => c = '-', Char.isDigit, Char.isDigit,
   fun c => c = 'T']

/-- A list of character classes matching at the head of `s`. -/
def shapeAt : List (Char → Bool) → List Char → Bool
  | [], _ => true
  | _ :: _, [] => false
  | p :: ps, c :: cs => p c && shapeAt ps cs

/-- The session header shape `### \d{4}-\d{2}-\d{2}T` at the head of `s`. -/
def sessHeaderAt (s : List Char) : Bool := shapeAt sessHeaderSlots s

/-- Opener consumed after the timestamp group of a session log. -/
def logOpenPat : List Char := str "\n<log>\n"

/-- Terminator the non-greedy log group stops at. -/
def logClosePat : List Char := str "\n</log>"

/-- finditer of `### (\d{4}-\d{2}-\d{2}T.*?)\n<log>\n(.*?)\n</log>` (DOTALL,
readyq.py:252-255): at each position matching the header shape, the timestamp
group runs to the first `\n<log>\n` and the log group to the first `\n</log>`
(with both groups minimal, a later `\n<log>\n` cannot succeed when the first
finds no later `\n</log>`, so this is exactly the backtracking result); the
scan resumes after the consumed match.  `fuel` only bounds the recursion and
is never exhausted for `fuel ≥ length`. -/
def sessionsXml : Nat → List Char → List Session
  | 0, _ => []
  | _, [] => []
  | fuel + 1, s@(_ :: t) =>
    if sessHeaderAt s then
      match takeUntilPat logOpenPat (s.drop 15) with
      | some g1 =>
        let afterOpen := (s.drop 15).drop (g1.length + 7)
        match takeUntilPat logClosePat afterOpen with
        | some g2 =>
          { timestamp := (s.drop 4).take (11 + g1.length), log := pyStrip g2 }
            :: sessionsXml fuel (afterOpen.drop (g2.length + 7))
        | none => sessionsXml fuel t
      | none => sessionsXml fuel t
    else sessionsXml fuel t

/-- The zero-width stop `(?=\n###|\n---|$)` of the legacy session pattern. -/
def legacySessStop (s : List Char) : Bool :=
  isPref (str "\n###") s || isPref (str "\n---") s || s = [] || s = ['\n']

/-- Shortest leading segment ending where `legacySessStop` holds. -/
def takeToLegacySessStop : List Char → List Char
  | [] => []
  | s@(c :: t) => if legacySessStop s then [] else c :: takeToLegacySessStop t

/-- finditer of `### (\d{4}-\d{2}-\d{2}T.*?)\n(.*?)(?=\n###|\n---|$)` (DOTALL,
readyq.py:259-262): the legacy unwrapped session format, attempted only when
the wrapped scan finds nothing. -/
def sessionsLegacy : Nat → List Char → List Session
  | 0, _ => []
  | _, [] => []
  | fuel + 1, s@(_ :: t) =>
    if sessHeaderAt s then
      match takeUntilPat ['\n'] (s.drop 15) with
      | some g1 =>
        let afterNL := (s.drop 15).drop (g1.length + 1)
        let g2 := takeToLegacySessStop afterNL
        { timestamp := (s.drop 4).take (11 + g1.length), log := pyStrip g2 }
          :: sessionsLegacy fuel (afterNL.drop g2.length)
      | none => sessionsLegacy fuel t
    else sessionsLegacy fuel t

/-- `parse_task_section(content)` (readyq.py:184-267): metadata lines folded in
order, then the checkbox status, the description (wrapped format first, legacy
fallback), and the session logs (wrapped scan, legacy fallback when empty). -/
def parse_task_section (content : List Char) : Task :=
  let t1 := (splitOnChar '\n' content).foldl applyMetaLine {}
  let t2 := { t1 with status := parseStatus content }
  let t3 :=
    match findDescXml content with
    | some g => { t2 with description := pyStrip g }
    | none =>
      match findDescLegacy content with
      | some g => { t2 with description := pyStrip g }
      | none => t2
  let xs := sessionsXml (content.length + 1) content
  let ss := if xs = [] then sessionsLegacy (content.length + 1) content else xs
  if ss = [] then t3 else { t3 with sessions := ss }

/-- Header literal of a task section. -/
def headerPat : List Char := str "# Task: "

/-- First alternative of the body lookahead: a blank-line-padded rule followed
by the next header. -/
def sepStop1 : List Char := str "\n---\n\n# Task:"

/-- Second alternative: the next header on its own. -/
def sepStop2 : List Char := str "\n# Task:"

/-- The zero-width stop `(?=\n---\n\n# Task:|\n# Task:|$)` of the section
pattern (`$` also matches just before a trailing final newline). -/
def bodyStop (s : List Char) : Bool :=
  isPref sepStop1 s || isPref sepStop2 s || s = [] || s = ['\n']

/-- Body group and remainder: shortest leading segment ending where `bodyStop`
holds. -/
def takeBody : List Char → List Char × List Char
  | [] => ([], [])
  | s@(c :: t) =>
    if bodyStop s then ([], s)
    else
      let p := takeBody t
      (c :: p.1, p.2)

/-- finditer of `# Task: (.*?)\n(.*?)(?=\n---\n\n# Task:|\n# Task:|$)` (DOTALL,
readyq.py:172): at each position where the header literal matches and a newline
follows, the title group runs to that first newline and the body group to the
first stop; the scan resumes at the (zero-width) stop.  `fuel ≥ length` is
never exhausted. -/
def findSections : Nat → List Char → List (List Char × List Char)
  | 0, _ => []
  | _, [] => []
  | fuel + 1, s@(_ :: t) =>
    if isPref headerPat s then
      match splitNL (s.drop 8) with
      | some (ttl, rest1) =>
        let p := takeBody rest1
        (ttl, p.1) :: findSections fuel p.2
      | none => findSections fuel t
    else findSections fuel t

/-- `md_load_tasks` on document text (readyq.py:157-182): each section parsed,
with its stripped title.  (The `if task:` guard always passes: the parsed dict
always carries a status.) -/
def md_load_tasks (content : List Char) : List Task :=
  (findSections (content.length + 1) content).map
    (fun sec => { parse_task_section sec.2 with title := pyStrip sec.1 })

/-- `', '.join(...)`. -/
def joinComma : List (List Char) → List Char
  | [] => []
  | [x] => x
  | x :: y :: xs => x ++ str ", " ++ joinComma (y :: xs)

/-- The four checklist lines of the status section, in source order. -/
def statusChoices : List (List Char × List Char) :=
  [(stOpen, str "Open"), (stInProgress, str "In Progress"),
   (stBlocked, str "Blocked"), (stDone, str "Done")]

/-- One checklist line: checked exactly for the task's current status. -/
def checkboxLine (cur : List Char) (p : List Char × List Char) : List Char :=
  (if cur = p.1 then str "- [x] " else str "- [ ] ") ++ p.2 ++ [Char.ofNat 10]

/-- `generate_markdown_task(task)` (readyq.py:269-311). -/
def generate_markdown_task (t : Task) : List Char :=
  str "# Task: " ++ t.title ++ str "\n\n" ++
  str "**ID**: " ++ t.id ++ str "\n" ++
  str "**Created**: " ++ t.created_at ++ str "\n" ++
  str "**Updated**: " ++ t.updated_at ++ str "\n" ++
  (if t.blocks ≠ [] then str "**Blocks**: " ++ joinComma t.blocks ++ str "\n"
   else str "**Blocks**: \n") ++
  (if t.blocked_by ≠ [] then str "**Blocked By**: " ++ joinComma t.blocked_by ++ str "\n"
   else str "**Blocked By**: \n") ++
  str "\n## Status\n\n" ++
  (statusChoices.map (checkboxLine t.status)).flatten ++
  str "\n## Description\n\n<description>\n" ++ t.description ++ str "\n</description>\n" ++
  (if t.sessions ≠ [] then
    str "\n## Session Logs\n\n" ++
    (t.sessions.map (fun s =>
      str "### " ++ s.timestamp ++ str "\n<log>\n" ++ s.log ++ str "\n</log>\n\n")).flatten
   else [])

/-- The separator `md_save_tasks` writes between consecutive tasks. -/
def sepText : List Char := str "\n---\n\n"

/-- `md_save_tasks(tasks)` (readyq.py:313-323): the rendered tasks joined by
the separator. -/
def md_save_tasks : List Task → List Char
  | [] => []
  | [t] => generate_markdown_task t
  | t :: u :: ts => generate_markdown_task t ++ sepText ++ md_save_tasks (u :: ts)

/-- Rebuild the collection, transforming the tasks whose id is `tid`.  Python
mutates the (unique, by the data model) dict with this id in place. -/
def updateById (tid : List Char) (f : Task → Task) (tasks : List Task) : List Task :=
  tasks.map (fun t => if t.id = tid then f t else t)

/-- Python's `{t['id']: t for t in tasks}` lookup: the last task with the id
wins, absent ids give `none`. -/
def dictGet (tasks : List Task) (tid : List Char) : Option Task :=
  tasks.foldl (fun acc t => if t.id = tid then some t else acc) none

/-- `next((t for t in tasks if t['id'].startswith(p)), None)`: the first-match
prefix resolution the edge-operation branches of `cmd_update` use. -/
def firstMatch (p : List Char) (tasks : List Task) : Option Task :=
  tasks.find? (fun t => isPref p t.id)

/-- Outcome of `find_task`: the unique match, or the reported failure.  The
source signals `ambiguous`/`notFound` by printing to stderr and returning
`None`; the constructor payload records what is reported. -/
inductive FindResult where
  | found (t : Task)
  | ambiguous (ms : List Task)
  | notFound
  | emptyQuery
deriving DecidableEq

/-- `find_task(task_id_prefix)` (readyq.py:467-484): unique-prefix resolution
over the loaded collection.  A unique match is returned; several matches are
an ambiguity (reported with the full candidate list); zero matches are a
not-found condition. -/
def find_task (p : List Char) (tasks : List Task) : FindResult :=
  if p = [] then FindResult.emptyQuery
  else
    match tasks.filter (fun t => isPref p t.id) with
    | [t] => FindResult.found t
    | [] => FindResult.notFound
    | ms => FindResult.ambiguous ms

/-- `cmd_ready`'s readiness test (readyq.py:880-905): status not done, and every
entry of `blocked_by` resolves (via the id dict) to a done task. -/
def isReady (tasks : List Task) (t : Task) : Bool :=
  if t.status = stDone then false
  else
    t.blocked_by.all (fun bid =>
      match dictGet tasks bid with
      | some b => b.status = stDone
      | none => false)

/-- `cmd_ready` (readyq.py:880-908): the tasks passing `isReady`, in order. -/
def cmd_ready (tasks : List Task) : List Task := tasks.filter (isReady tasks)

/-- One iteration of the `--add-blocks` loop of `cmd_update`
(readyq.py:962-983), for the already-resolved target id `tid` and one
comma-separated prefix: resolve the blocked task by first match; append to the
target's `blocks` if absent; append to the blocked task's `blocked_by` if
absent, and in that case bump its `updated_at` and set it `blocked` unless it
is `done` or already `blocked`. -/
def addBlocksStep (now tid p : List Char) (tasks : List Task) : List Task :=
  match firstMatch p tasks with
  | none => tasks
  | some blocked =>
    let ts1 := updateById tid (fun u =>
      if blocked.id ∈ u.blocks then u
      else { u with blocks := u.blocks ++ [blocked.id] }) tasks
    updateById blocked.id (fun u =>
      if tid ∈ u.blocked_by then u
      else
        { u with blocked_by := u.blocked_by ++ [tid],
                 updated_at := now,
                 status := if u.status = stDone ∨ u.status = stBlocked then u.status else stBlocked }) ts1

/-- One iteration of the `--add-blocked-by` loop of `cmd_update`
(readyq.py:989-1010): resolve the blocker by first match; append to the
target's `blocked_by` if absent and in that case set the target `blocked`
unless `done` or already `blocked`; append to the blocker's `blocks` if absent
and in that case bump the blocker's `updated_at`. -/
def addBlockedByStep (now tid p : List Char) (tasks : List Task) : List Task :=
  match firstMatch p tasks with
  | none => tasks
  | some blocker =>
    let ts1 := updateById tid (fun u =>
      if blocker.id ∈ u.blocked_by then u
      else
        { u with blocked_by := u.blocked_by ++ [blocker.id],
                 status := if u.status = stDone ∨ u.status = stBlocked then u.status else stBlocked }) tasks
    updateById blocker.id (fun u =>
      if tid ∈ u.blocks then u
      else { u with blocks := u.blocks ++ [tid], updated_at := now }) ts1

/-- One iteration of the `--remove-blocks` loop of `cmd_update`
(readyq.py:1016-1035): remove the edge from the target's `blocks` and, if
present there, from the blocked task's `blocked_by`, bumping its `updated_at`
and opening it when its last blocker goes away while it was `blocked`. -/
def removeBlocksStep (now tid p : List Char) (tasks : List Task) : List Task :=
  match firstMatch p tasks with
  | none => tasks
  | some blocked =>
    let ts1 := updateById tid (fun u =>
      if blocked.id ∈ u.blocks then { u with blocks := u.blocks.erase blocked.id } else u) tasks
    updateById blocked.id (fun u =>
      if tid ∈ u.blocked_by then
        let bb := u.blocked_by.erase tid
        { u with blocked_by := bb,
                 updated_at := now,
                 status := if bb = [] ∧ u.status = stBlocked then stOpen else u.status }
      else u) ts1

/-- One iteration of the `--remove-blocked-by` loop of `cmd_update`
(readyq.py:1041-1060): mirror image of `removeBlocksStep` with the target as
the blocked side. -/
def removeBlockedByStep (now tid p : List Char) (tasks : List Task) : List Task :=
  match firstMatch p tasks with
  | none => tasks
  | some blocker =>
    let ts1 := updateById tid (fun u =>
      if blocker.id ∈ u.blocked_by then
        let bb := u.blocked_by.erase blocker.id
        { u with blocked_by := bb,
                 status := if bb = [] ∧ u.status = stBlocked then stOpen else u.status }
      else u) tasks
    updateById blocker.id (fun u =>
      if tid ∈ u.blocks then { u with blocks := u.blocks.erase tid, updated_at := now } else u) ts1

/-- The automatic dependency-graph update run when a task is set `done`
(readyq.py:1072-1087): for each id in the completed task's `blocks` list that
resolves in the id dict, remove the completed id from that task's
`blocked_by`; where a removal happened, bump `updated_at` and open the task if
its `blocked_by` emptied while it was `blocked`. -/
def completeCascade (now tid : List Char) (blocksList : List (List Char)) (tasks : List Task) :
    List Task :=
  blocksList.foldl (fun acc bid =>
    if (dictGet acc bid).isSome then
      updateById bid (fun u =>
        if tid ∈ u.blocked_by then
          let bb := u.blocked_by.erase tid
          { u with blocked_by := bb,
                   updated_at := now,
                   status := if bb = [] ∧ u.status = stBlocked then stOpen else u.status }
        else u) acc
    else acc) tasks

/-- The `--status` branch of `cmd_update` (readyq.py:910-917 and 1062-1087):
resolve the target by unique prefix, bump its `updated_at`, set the status if
valid, and when the new status is `done` run the cascade over the target's
`blocks`. -/
def cmd_update_status (now stat p : List Char) (tasks : List Task) : List Task :=
  match find_task p tasks with
  | FindResult.found t =>
    if stat ∈ validStatuses then
      let ts1 := updateById t.id (fun u => { u with updated_at := now }) tasks
      let ts2 := updateById t.id (fun u => { u with status := stat }) ts1
      if stat = stDone ∧ t.blocks ≠ [] then completeCascade now t.id t.blocks ts2 else ts2
    else tasks
  | _ => tasks

/-- `cmd_update` invoked with a single `--add-blocked-by` prefix
(readyq.py:910-917 and 986-1010): target resolved by unique prefix, its
`updated_at` bumped, then one `addBlockedByStep`. -/
def cmd_update_addBlockedBy (now p blockerP : List Char) (tasks : List Task) : List Task :=
  match find_task p tasks with
  | FindResult.found t =>
    addBlockedByStep now t.id blockerP (updateById t.id (fun u => { u with updated_at := now }) tasks)
  | _ => tasks

/-- `cmd_update` invoked with a single `--add-blocks` prefix. -/
def cmd_update_addBlocks (now p blockedP : List Char) (tasks : List Task) : List Task :=
  match find_task p tasks with
  | FindResult.found t =>
    addBlocksStep now t.id blockedP (updateById t.id (fun u => { u with updated_at := now }) tasks)
  | _ => tasks

/-- `cmd_update` invoked with a single `--remove-blocks` prefix. -/
def cmd_update_removeBlocks (now p blockedP : List Char) (tasks : List Task) : List Task :=
  match find_task p tasks with
  | FindResult.found t =>
    removeBlocksStep now t.id blockedP (updateById t.id (fun u => { u with updated_at := now }) tasks)
  | _ => tasks

/-- `cmd_update` invoked with a single `--remove-blocked-by` prefix. -/
def cmd_update_removeBlockedBy (now p blockerP : List Char) (tasks : List Task) : List Task :=
  match find_task p tasks with
  | FindResult.found t =>
    removeBlockedByStep now t.id blockerP (updateById t.id (fun u => { u with updated_at := now }) tasks)
  | _ => tasks

/-- `cmd_delete` (readyq.py:1132-1166): resolve the target by unique prefix;
strip its id from every other task's `blocks` and `blocked_by` (bumping
`updated_at` on each removal, and opening a task whose `blocked_by` empties
while it was `blocked`); drop the task itself. -/
def cmd_delete_op (now p : List Char) (tasks : List Task) : List Task :=
  match find_task p tasks with
  | FindResult.found t =>
    let tid := t.id
    let ts1 := tasks.map (fun u =>
      if u.id = tid then u
      else
        let u1 := if tid ∈ u.blocks then { u with blocks := u.blocks.erase tid, updated_at := now } else u
        if tid ∈ u1.blocked_by then
          let bb := u1.blocked_by.erase tid
          { u1 with blocked_by := bb,
                    updated_at := now,
                    status := if bb = [] ∧ u1.status = stBlocked then stOpen else u1.status }
        else u1)
    ts1.filter (fun u => u.id ≠ tid)
  | _ => tasks

/-- Successor function of the dependency graph walked by
`find_circular_dependencies`: `task_dict.get(task_id, {}).get('blocked_by', [])`. -/
def succOf (tasks : List Task) (tid : List Char) : List (List Char) :=
  match dictGet tasks tid with
  | some t => t.blocked_by
  | none => []

/-- Keys of `{t['id']: t for t in tasks}` in insertion order (first occurrence). -/
def dictKeys (tasks : List Task) : List (List Char) :=
  tasks.foldl (fun ks t => if t.id ∈ ks then ks else ks ++ [t.id]) []

/-- One level of the recursive `has_cycle` of `find_circular_dependencies`
(readyq.py:589-606), rendered as a scanner over the list of pending children
`cs`: a child already in `visited` is skipped unless it sits on the current
recursion stack, in which case the slice of `path` from its first occurrence,
closed with the child itself, is returned as the cycle; an unvisited child is
expanded through `deeper`, which pushes it on `visited`, the stack and the
path and scans its successors (returning `none` when the depth fuel below is
exhausted). -/
def dfsRun (succ : List Char → List (List Char))
    (deeper : List Char → List (List Char) → List (List Char) → List (List Char) →
      Option (Option (List (List Char)) × List (List Char))) :
    List (List Char) → List (List Char) → List (List Char) → List (List Char) →
    Option (List (List Char)) × List (List Char)
  | [], visited, _, _ => (none, visited)
  | w :: ws, visited, recStack, path =>
    if w ∈ visited then
      if w ∈ recStack then
        (some (path.drop (path.indexOf w) ++ [w]), visited)
      else dfsRun succ deeper ws visited recStack path
    else
      match deeper w visited recStack path with
      | none => (none, visited)
      | some (some cyc, vis') => (some cyc, vis')
      | some (none, vis') => dfsRun succ deeper ws vis' recStack path

/-- Expanding one unvisited node `w` with the given remaining depth
(`has_cycle(w, ...)` itself): push `w` on the visited set, the recursion
stack and the path, then scan its `blocked_by` successors. -/
def dfsFuel (succ : List Char → List (List Char)) :
    Nat → List Char → List (List Char) → List (List Char) → List (List Char) →
    Option (Option (List (List Char)) × List (List Char))
  | 0, _, _, _, _ => none
  | fuel' + 1, w, visited, recStack, path =>
    some (dfsRun succ (dfsFuel succ fuel') (succ w) (w :: visited) (w :: recStack)
      (path ++ [w]))

/-- The child scan at a given expansion depth.  `fuel` bounds the depth; each
expansion is of a node not yet in `visited`, so the bound chosen in
`find_circular_dependencies` below is never exhausted. -/
def dfsChildren (succ : List Char → List (List Char)) (fuel : Nat)
    (cs visited recStack path : List (List Char)) :
    Option (List (List Char)) × List (List Char) :=
  dfsRun succ (dfsFuel succ fuel) cs visited recStack path

/-- Fuel that `find_circular_dependencies` can never exhaust: more than the
number of ids that can ever become visited. -/
def fuelBound (tasks : List Task) : Nat :=
  tasks.length + (tasks.map (fun t => t.blocked_by.length)).sum + 1

/-- `find_circular_dependencies(tasks)` (readyq.py:587-621): run the DFS from
every unvisited key of the id dict, returning the first cycle found. -/
def find_circular_dependencies (tasks : List Task) : Option (List (List Char)) :=
  ((dictKeys tasks).foldl (fun st tid =>
    match st with
    | (some cyc, vis) => (some cyc, vis)
    | (none, vis) =>
      if tid ∈ vis then (none, vis)
      else dfsChildren (succOf tasks) (fuelBound tasks) [tid] vis [] []) (none, [])).1

/-- Specification-side enumeration for C10: every checked-checkbox group of a
section in order of occurrence; the source's `re.search` keeps only the first. -/
def checkedGroups : List Char → List (List Char)
  | [] => []
  | s@(_ :: t) =>
    if isPref checkboxPat s then
      let g := (s.drop 6).takeWhile (fun c => c ≠ '\n')
      if g = [] then checkedGroups t else g :: checkedGroups t
    else checkedGroups t

/-- The graph invariant of the data model (§3): task A's `blocks` contains B's
id exactly when B's `blocked_by` contains A's id. -/
def EdgeSym (tasks : List Task) : Prop :=
  ∀ a ∈ tasks, ∀ b ∈ tasks, (b.id ∈ a.blocks ↔ a.id ∈ b.blocked_by)

/-- The edge-list discipline of the data model: globally distinct ids and
duplicate-free edge lists. -/
def EdgeWF (tasks : List Task) : Prop :=
  (tasks.map Task.id).Nodup ∧ ∀ t ∈ tasks, t.blocks.Nodup ∧ t.blocked_by.Nodup

/-- A task in `blocked` status has at least one recorded blocker. -/
def SafeStatus (u : Task) : Prop := u.status = stBlocked → u.blocked_by ≠ []

/-- The automatic-transition invariant of §3 restricted to the half the code
maintains: no task with an empty `blocked_by` sits in `blocked` status. -/
def NoEmptyBlocked (tasks : List Task) : Prop := ∀ t ∈ tasks, SafeStatus t

instance (u : Task) : Decidable (SafeStatus u) := by
  unfold SafeStatus; infer_instance

instance (tasks : List Task) : Decidable (NoEmptyBlocked tasks) := by
  unfold NoEmptyBlocked; infer_instance

instance (tasks : List Task) : Decidable (EdgeSym tasks) := by
  unfold EdgeSym; infer_instance

instance (tasks : List Task) : Decidable (EdgeWF tasks) := by
  unfold EdgeWF; infer_instance

/-- A cycle of the directed graph given by a successor function: at least two
entries, first equal to last, consecutive entries related by the successor
relation (an edge `a → b` meaning `b ∈ succ a`). -/
def IsCycle (succ : List Char → List (List Char)) (c : List (List Char)) : Prop :=
  2 ≤ c.length ∧ c.head? = c.getLast? ∧ List.Chain' (fun a b => b ∈ succ a) c

instance (succ : List Char → List (List Char)) (c : List (List Char)) :
    Decidable (IsCycle succ c) := by
  unfold IsCycle; infer_instance

/-- A node lying on some cycle of the successor graph. -/
def OnCycle (succ : List Char → List (List Char)) (u : List Char) : Prop :=
  ∃ c, IsCycle succ c ∧ u ∈ c

/-! ## Well-formedness of task data, and decompositions of the rendered body -/

/-- Characters the tracker's machine-written fields (ids, timestamps) are made
of: everything that cannot collide with the document's structural markup. -/
def plainChar (c : Char) : Bool :=
  c.isAlphanum || c = '-' || c = ':' || c = '.' || c = '_' || c = '+'

def plainStr (s : List Char) : Bool := s.all plainChar

/-- A session-header shape occurring anywhere in `s` (fully inside it). -/
def containsSessHeader : List Char → Bool
  | [] => false
  | s@(_ :: t) => sessHeaderAt s || containsSessHeader t

/-- No line of `s` strips to a bold-metadata-looking line. -/
def noMetaLine (s : List Char) : Bool :=
  (splitOnChar '\n' s).all (fun l => !(isPref (str "**") (pyStrip l)))

/-- Free-text (description / log) hygiene: no line re-parses as metadata, no
embedded task header, no embedded session header shape. -/
def FreeOk (s : List Char) : Prop :=
  noMetaLine s = true ∧ containsPat (str "\n# Task:") s = false ∧
  isPref (str "# Task:") s = false ∧ containsSessHeader s = false

/-- The timestamp slots after the `### ` literal. -/
def tsSlots : List (Char → Bool) := sessHeaderSlots.drop 4

/-- Timestamp hygiene: the ISO date shape the session regex requires, and no
newline. -/
def TsOk (ts : List Char) : Prop :=
  shapeAt tsSlots ts = true ∧ '\n' ∉ ts

/-- Well-formedness of one task: the conditions under which the renderer's
output re-parses to the same record. -/
def WFtask (t : Task) : Prop :=
  pyStrip t.title = t.title ∧ '\n' ∉ t.title ∧
  plainStr t.id = true ∧ plainStr t.created_at = true ∧ plainStr t.updated_at = true ∧
  (∀ b ∈ t.blocks, plainStr b = true ∧ b ≠ []) ∧
  (∀ b ∈ t.blocked_by, plainStr b = true ∧ b ≠ []) ∧
  t.status ∈ validStatuses ∧
  FreeOk t.description ∧ containsPat descClosePat t.description = false ∧
  pyStrip t.description = t.description ∧
  ∀ s ∈ t.sessions, TsOk s.timestamp ∧ FreeOk s.log ∧
    containsPat logClosePat s.log = false ∧ pyStrip s.log = s.log

instance (t : Task) : Decidable (WFtask t) := by
  unfold WFtask FreeOk TsOk
  infer_instance

/-! ## Generic facts about the string primitives -/

/-- `NoCross p s rest`: no occurrence of `p` starts inside `s` when `rest`
follows it. -/
def NoCross (p s rest : List Char) : Prop :=
  ∀ i, i < s.length → isPref p (s.drop i ++ rest) = false

/-- Matching `p` at some position of `x` fails strictly inside `x`. -/
def patDiesWithin : List Char → List Char → Bool
  | [], _ => false
  | _ :: _, [] => false
  | c :: p, d :: x => !(decide (c = d)) || patDiesWithin p x

def patDiesIn (p s : List Char) : Bool :=
  (List.range s.length).all (fun i => patDiesWithin p (s.drop i))

def shapeDiesWithin : List (Char → Bool) → List Char → Bool
  | [], _ => false
  | _ :: _, [] => false
  | p :: ps, c :: x => !(p c) || shapeDiesWithin ps x

def noShapeIn (s : List Char) : Bool :=
  (List.range s.length).all (fun i => shapeDiesWithin sessHeaderSlots (s.drop i))

def NoShapeCross (s rest : List Char) : Prop :=
  ∀ i, i < s.length → sessHeaderAt (s.drop i ++ rest) = false

/-- One rendered session entry. -/
def renderSess (s : Session) : List Char :=
  str "### " ++ s.timestamp ++ str "\n<log>\n" ++ s.log ++ str "\n</log>\n\n"

/-- One rendered session entry with the final blank line's newline dropped. -/
def sessRender1 (s : Session) : List Char :=
  str "### " ++ (s.timestamp ++ (str "\n<log>\n" ++ (s.log ++ str "\n</log>\n")))

/-- The rendered session list with the very last newline dropped. -/
def sessFlat1 : List Session → List Char
  | [] => []
  | [s] => sessRender1 s
  | s :: ss => renderSess s ++ sessFlat1 ss

/-- The session section as it sits inside a task body whose final newline has
been cut off by the section scanner. -/
def sessCore (ss : List Session) : List Char :=
  match ss with
  | [] => []
  | _ :: _ => str "\n\n## Session Logs\n\n" ++ sessFlat1 ss

/-- The body group captured for a rendered task: everything of
`generate_markdown_task` after the title's newline, except the final newline. -/
def bodyCore (t : Task) : List Char :=
  Char.ofNat 10 :: (str "**ID**: " ++ (t.id ++ (Char.ofNat 10 :: (str "**Created**: " ++ (t.created_at ++ (Char.ofNat 10 :: (str "**Updated**: " ++ (t.updated_at ++ (Char.ofNat 10 :: (str "**Blocks**: " ++ (joinComma t.blocks ++ (Char.ofNat 10 :: (str "**Blocked By**: " ++ (joinComma t.blocked_by ++ (Char.ofNat 10 :: ((str "\n## Status\n\n" ++ ((statusChoices.map (checkboxLine t.status)).flatten ++ str "\n## Description\n\n<description>")) ++ (Char.ofNat 10 :: (t.description ++ ((str "\n</description>" ++ sessCore t.sessions))))))))))))))))))))

def metaPre (t : Task) : List Char :=
  [Char.ofNat 10] ++ (str "**ID**: " ++ (t.id ++ ([Char.ofNat 10] ++ (str "**Created**: " ++ (t.created_at ++ ([Char.ofNat 10] ++ (str "**Updated**: " ++ (t.updated_at ++ ([Char.ofNat 10] ++ (str "**Blocks**: " ++ (joinComma t.blocks ++ ([Char.ofNat 10] ++ (str "**Blocked By**: " ++ (joinComma t.blocked_by ++ [Char.ofNat 10]))))))))))))))

def bodyRest (t : Task) (tailC : List Char) : List Char :=
  str "\n## Status\n\n" ++ ((statusChoices.map (checkboxLine t.status)).flatten ++
    (str "\n## Description\n\n<description>" ++ (Char.ofNat 10 :: (t.description ++
      (str "\n</description>" ++ (sessCore t.sessions ++ tailC))))))

def hasSepLine (s : List Char) : Bool :=
  (splitOnChar '\n' s).any (fun l => l = str "---")

/-! ## Lemmas about the model's primitives -/

theorem dictGet_go_some {bid : List Char} (tasks : List Task) (acc : Option Task) (u : Task)
    (h : tasks.foldl (fun a t => if t.id = bid then some t else a) acc = some u) :
    (u ∈ tasks ∧ u.id = bid) ∨ acc = some u := by
  induction tasks generalizing acc with
  | nil => exact Or.inr h
  | cons t ts ih =>
    rw [List.foldl_cons] at h
    rcases ih _ h with h1 | h2
    · exact Or.inl ⟨List.mem_cons_of_mem _ h1.1, h1.2⟩
    · by_cases ht : t.id = bid
      · rw [if_pos ht] at h2
        injection h2 with h2
        exact Or.inl ⟨h2 ▸ List.mem_cons_self t ts, h2 ▸ ht⟩
      · rw [if_neg ht] at h2
        exact Or.inr h2

theorem dictGet_some_mem {tasks : List Task} {bid : List Char} {u : Task}
    (h : dictGet tasks bid = some u) : u ∈ tasks ∧ u.id = bid := by
  rcases dictGet_go_some tasks none u h with h1 | h2
  · exact h1
  · exact absurd h2 (by simp)

theorem dictGet_go_none {bid : List Char} (tasks : List Task) (acc : Option Task) :
    tasks.foldl (fun a t => if t.id = bid then some t else a) acc = none ↔
      (acc = none ∧ ∀ u ∈ tasks, u.id ≠ bid) := by
  induction tasks generalizing acc with
  | nil => simp
  | cons t ts ih =>
    rw [List.foldl_cons, ih]
    by_cases ht : t.id = bid
    · simp [ht]
    · simp only [if_neg ht]
      constructor
      · rintro ⟨h1, h2⟩
        refine ⟨h1, ?_⟩
        intro u hu
        rcases List.mem_cons.1 hu with rfl | hu
        · exact ht
        · exact h2 u hu
      · rintro ⟨h1, h2⟩
        exact ⟨h1, fun u hu => h2 u (List.mem_cons_of_mem _ hu)⟩

theorem dictGet_none_iff {tasks : List Task} {bid : List Char} :
    dictGet tasks bid = none ↔ ∀ u ∈ tasks, u.id ≠ bid := by
  unfold dictGet
  rw [dictGet_go_none]
  simp

/-- Tasks of an id-distinct collection are determined by their ids. -/
theorem eq_of_mem_of_id_eq {tasks : List Task} (h : (tasks.map Task.id).Nodup)
    {u v : Task} (hu : u ∈ tasks) (hv : v ∈ tasks) (hid : u.id = v.id) : u = v :=
  List.inj_on_of_nodup_map h hu hv hid

theorem dictGet_eq_some_iff {tasks : List Task} (h : (tasks.map Task.id).Nodup)
    {bid : List Char} {u : Task} :
    dictGet tasks bid = some u ↔ (u ∈ tasks ∧ u.id = bid) := by
  constructor
  · exact dictGet_some_mem
  · rintro ⟨hu, hid⟩
    cases hd : dictGet tasks bid with
    | none => exact absurd hid (dictGet_none_iff.1 hd u hu)
    | some w =>
      obtain ⟨hw, hwid⟩ := dictGet_some_mem hd
      exact congrArg some (eq_of_mem_of_id_eq h hw hu (hwid.trans hid.symm))

/-! ## C6: the ready set -/

/-- C6: `cmd_ready` returns exactly the tasks whose status is not `done` and
whose `blocked_by` entries all name existing tasks with status `done`; an entry
naming no existing task makes the task not ready. -/
theorem claim_C6_ready_set (tasks : List Task) (hids : (tasks.map Task.id).Nodup) (t : Task) :
    t ∈ cmd_ready tasks ↔
      t ∈ tasks ∧ t.status ≠ stDone ∧
        ∀ b ∈ t.blocked_by, ∃ u ∈ tasks, u.id = b ∧ u.status = stDone := by
  unfold cmd_ready
  rw [List.mem_filter]
  constructor
  · rintro ⟨hm, hr⟩
    unfold isReady at hr
    by_cases hs : t.status = stDone
    · rw [if_pos hs] at hr; exact absurd hr (by simp)
    · rw [if_neg hs] at hr
      refine ⟨hm, hs, ?_⟩
      intro b hb
      have := List.all_eq_true.1 hr b hb
      cases hd : dictGet tasks b with
      | none => rw [hd] at this; exact absurd this (by simp)
      | some u =>
        rw [hd] at this
        obtain ⟨hu, hub⟩ := dictGet_some_mem hd
        exact ⟨u, hu, hub, by simpa using this⟩
  · rintro ⟨hm, hs, hall⟩
    refine ⟨hm, ?_⟩
    unfold isReady
    rw [if_neg hs]
    refine List.all_eq_true.2 ?_
    intro b hb
    obtain ⟨u, hu, hub, hust⟩ := hall b hb
    rw [dictGet_eq_some_iff hids |>.2 ⟨hu, hub⟩]
    simpa using hust

/-- Witness for C6 at a concrete collection: B (blocked by done A) and C
(blocked by the nonexistent `zzzz`) — B is ready, C is not. -/
theorem claim_C6_ready_set_witness :
    (({ id := str "bbbb", status := stOpen, blocked_by := [str "aaaa"] } : Task) ∈
      cmd_ready [{ id := str "aaaa", status := stDone },
        { id := str "bbbb", status := stOpen, blocked_by := [str "aaaa"] },
        { id := str "cccc", status := stOpen, blocked_by := [str "zzzz"] }]) ∧
    (({ id := str "cccc", status := stOpen, blocked_by := [str "zzzz"] } : Task) ∉
      cmd_ready [{ id := str "aaaa", status := stDone },
        { id := str "bbbb", status := stOpen, blocked_by := [str "aaaa"] },
        { id := str "cccc", status := stOpen, blocked_by := [str "zzzz"] }]) := by
  constructor
  · exact (claim_C6_ready_set _ (by decide) _).2 (by decide)
  · intro hmem
    have := (claim_C6_ready_set _ (by decide) _).1 hmem
    revert this
    decide

/-! ## C9: id-prefix resolution -/

/-- C9 (amended): `find_task` itself does resolve by unique prefix — zero
matches is a not-found outcome, a unique match is returned (and is the only
matching task), several matches yield an ambiguity outcome carrying exactly
the matching candidates, never silently the first.  (The resolution inside the
edge operations is first-match instead; see the counterexample.) -/
theorem claim_C9_find_task_unique (p : List Char) (tasks : List Task)
    (hp : p ≠ []) (hids : (tasks.map Task.id).Nodup) :
    (find_task p tasks = FindResult.notFound ↔ ∀ u ∈ tasks, isPref p u.id = false) ∧
    (∀ t, find_task p tasks = FindResult.found t ↔
      (t ∈ tasks ∧ isPref p t.id = true ∧ ∀ u ∈ tasks, isPref p u.id = true → u = t)) ∧
    (∀ ms, find_task p tasks = FindResult.ambiguous ms →
      2 ≤ ms.length ∧ ∀ u, (u ∈ ms ↔ u ∈ tasks ∧ isPref p u.id = true)) ∧
    (∀ u v, u ∈ tasks → v ∈ tasks → u ≠ v → isPref p u.id = true → isPref p v.id = true →
      ∃ ms, find_task p tasks = FindResult.ambiguous ms ∧ u ∈ ms ∧ v ∈ ms) := by
  have hmemF : ∀ u, u ∈ tasks.filter (fun t => isPref p t.id) ↔
      (u ∈ tasks ∧ isPref p u.id = true) := by
    intro u; rw [List.mem_filter]
  have hft : find_task p tasks =
      (match tasks.filter (fun t => isPref p t.id) with
        | [t] => FindResult.found t
        | [] => FindResult.notFound
        | ms => FindResult.ambiguous ms) := by
    unfold find_task
    rw [if_neg hp]
  rcases hF : tasks.filter (fun t => isPref p t.id) with _ | ⟨t1, _ | ⟨t2, rest⟩⟩
  · rw [hF] at hft hmemF
    refine ⟨?_, ?_, ?_, ?_⟩
    · simp only [hft, true_iff]
      intro u hu
      by_contra hmatch
      exact absurd ((hmemF u).2 ⟨hu, by simpa using hmatch⟩) (by simp)
    · intro t
      simp only [hft]
      constructor
      · intro h; exact absurd h (by simp)
      · rintro ⟨ht, hmt, -⟩
        exact absurd ((hmemF t).2 ⟨ht, hmt⟩) (by simp)
    · intro ms h; rw [hft] at h; exact absurd h (by simp)
    · intro u v hu hv huv hmu hmv
      exact absurd ((hmemF u).2 ⟨hu, hmu⟩) (by simp)
  · rw [hF] at hft hmemF
    have ht1 : t1 ∈ tasks ∧ isPref p t1.id = true := (hmemF t1).1 (by simp)
    refine ⟨?_, ?_, ?_, ?_⟩
    · simp only [hft]
      constructor
      · intro h; exact absurd h (by simp)
      · intro hall
        exact absurd (hall t1 ht1.1) (by simp [ht1.2])
    · intro t
      simp only [hft]
      constructor
      · intro h
        have hteq : t1 = t := by
          have := FindResult.found.injEq t1 t ▸ h
          simpa using h
        subst hteq
        refine ⟨ht1.1, ht1.2, ?_⟩
        intro u hu hmu
        have : u ∈ [t1] := (hmemF u).2 ⟨hu, hmu⟩
        simpa using this
      · rintro ⟨ht, hmt, huniq⟩
        have := huniq t1 ht1.1 ht1.2
        rw [this]
    · intro ms h; rw [hft] at h; exact absurd h (by simp)
    · intro u v hu hv huv hmu hmv
      have h1 : u ∈ [t1] := (hmemF u).2 ⟨hu, hmu⟩
      have h2 : v ∈ [t1] := (hmemF v).2 ⟨hv, hmv⟩
      simp only [List.mem_singleton] at h1 h2
      exact absurd (h1.trans h2.symm) huv
  · rw [hF] at hft hmemF
    refine ⟨?_, ?_, ?_, ?_⟩
    · simp only [hft]
      constructor
      · intro h; exact absurd h (by simp)
      · intro hall
        have ht1 := (hmemF t1).1 (by simp)
        exact absurd (hall t1 ht1.1) (by simp [ht1.2])
    · intro t
      simp only [hft]
      constructor
      · intro h; exact absurd h (by simp)
      · rintro ⟨ht, hmt, huniq⟩
        have ht1 := (hmemF t1).1 (by simp)
        have ht2 := (hmemF t2).1 (by simp)
        have e1 := huniq t1 ht1.1 ht1.2
        have e2 := huniq t2 ht2.1 ht2.2
        have : (tasks.filter (fun t => isPref p t.id)).Nodup :=
          List.Nodup.filter _ (List.Nodup.of_map _ hids)
        rw [hF] at this
        rw [e1.trans e2.symm] at this
        simp at this
    · intro ms h
      rw [hft] at h
      have hms : ms = t1 :: t2 :: rest := by
        have := FindResult.ambiguous.injEq (t1 :: t2 :: rest) ms ▸ h
        simpa using h.symm
      subst hms
      refine ⟨by simp, ?_⟩
      intro u
      rw [← hmemF u]
    · intro u v hu hv huv hmu hmv
      refine ⟨t1 :: t2 :: rest, hft, ?_, ?_⟩
      · exact (hmemF u).2 ⟨hu, hmu⟩
      · exact (hmemF v).2 ⟨hv, hmv⟩

/-- Witness for C9 at a concrete collection: a unique-prefix query resolves,
an ambiguous one reports both candidates, a missing one reports not-found. -/
theorem claim_C9_find_task_unique_witness :
    find_task (str "bb") [({ id := str "ab12" } : Task), { id := str "ab34" }] =
        FindResult.notFound ∧
    find_task (str "ab1") [({ id := str "ab12" } : Task), { id := str "ab34" }] =
        FindResult.found { id := str "ab12" } ∧
    (∃ ms, find_task (str "ab") [({ id := str "ab12" } : Task), { id := str "ab34" }] =
        FindResult.ambiguous ms ∧ ({ id := str "ab12" } : Task) ∈ ms ∧
        ({ id := str "ab34" } : Task) ∈ ms) := by
  refine ⟨?_, ?_, ?_⟩
  · exact (claim_C9_find_task_unique (str "bb") _ (by decide) (by decide)).1.2 (by decide)
  · exact ((claim_C9_find_task_unique (str "ab1") _ (by decide) (by decide)).2.1 _).2
      (by refine ⟨by decide, by decide, ?_⟩; decide)
  · exact (claim_C9_find_task_unique (str "ab") _ (by decide) (by decide)).2.2.2 _ _
      (by decide) (by decide) (by decide) (by decide) (by decide)

/-- Counterexample to C9 as stated: the prefix resolution inside the edge
operations is `next(...)` over `startswith`, which silently picks the first of
several matches.  With two tasks matching the prefix `aa`, adding a blocker by
that prefix to `tttt` silently installs an edge to the first match instead of
reporting an ambiguity. -/
theorem claim_C9_counterexample :
    (isPref (str "aa") (str "aa12") = true ∧ isPref (str "aa") (str "aa34") = true) ∧
    cmd_update_addBlockedBy (str "NOW") (str "tttt") (str "aa")
        [{ id := str "aa12", status := stOpen }, { id := str "aa34", status := stOpen },
         { id := str "tttt", status := stOpen }] =
      [{ id := str "aa12", status := stOpen, blocks := [str "tttt"], updated_at := str "NOW" },
       { id := str "aa34", status := stOpen },
       { id := str "tttt", status := stBlocked, blocked_by := [str "aa12"],
         updated_at := str "NOW" }] := by
  constructor
  · constructor <;> decide
  · decide

/-! ## C10: status parsing -/

/-- C10: the status `parse_task_section` yields is always one of the four
statuses; it is `open` when no checkbox is checked; the first checked group
determines it; and an unrecognised first label falls back to `open`. -/
theorem claim_C10_parse_status (content : List Char) :
    parseStatus content ∈ validStatuses ∧
    parseStatus content =
      (match (checkedGroups content).head? with
        | none => stOpen
        | some g => statusFromText (pyStrip g)) ∧
    (∀ g, (checkedGroups content).head? = some g →
      pyStrip g ≠ str "Open" → pyStrip g ≠ str "In Progress" →
      pyStrip g ≠ str "Blocked" → pyStrip g ≠ str "Done" →
      parseStatus content = stOpen) := by
  have hfc : findChecked content = (checkedGroups content).head? := by
    induction content with
    | nil => rfl
    | cons c t ih =>
      show findChecked (c :: t) = (checkedGroups (c :: t)).head?
      rw [findChecked, checkedGroups]
      by_cases h1 : isPref checkboxPat (c :: t)
      · rw [if_pos h1, if_pos h1]
        by_cases h2 : ((c :: t).drop 6).takeWhile (fun c => c ≠ '\n') = []
        · simp only [h2, if_pos rfl]
          exact ih
        · simp only [if_neg h2]
          rfl
      · rw [if_neg h1, if_neg h1]
        exact ih
  have hmem : ∀ s, statusFromText s ∈ validStatuses := by
    intro s
    unfold statusFromText
    split_ifs <;> decide
  refine ⟨?_, ?_, ?_⟩
  · unfold parseStatus
    rw [hfc]
    cases (checkedGroups content).head? with
    | none => decide
    | some g => exact hmem (pyStrip g)
  · unfold parseStatus
    rw [hfc]
    cases (checkedGroups content).head? <;> rfl
  · intro g hg h1 h2 h3 h4
    unfold parseStatus
    rw [hfc, hg]
    show statusFromText (pyStrip g) = stOpen
    unfold statusFromText
    rw [if_neg h1, if_neg h2, if_neg h3, if_neg h4]

/-- Witness for C10: two boxes checked, the first with an unknown label — the
first checked line wins and the unknown label falls back to `open`. -/
theorem claim_C10_parse_status_witness :
    (checkedGroups (str "- [x] Weird\n- [x] Done\n")).head? = some (str "Weird") ∧
    parseStatus (str "- [x] Weird\n- [x] Done\n") = stOpen := by
  refine ⟨by decide, ?_⟩
  exact (claim_C10_parse_status (str "- [x] Weird\n- [x] Done\n")).2.2 (str "Weird")
    (by decide) (by decide) (by decide) (by decide) (by decide)

/-! ## Lemmas about `updateById` and `firstMatch` -/

theorem updateById_mem_image (tid : List Char) (f : Task → Task) {ts : List Task} {u : Task}
    (hu : u ∈ ts) : (if u.id = tid then f u else u) ∈ updateById tid f ts :=
  List.mem_map_of_mem (fun t => if t.id = tid then f t else t) hu

theorem mem_updateById_of_ne {tid : List Char} {f : Task → Task} {ts : List Task} {u : Task}
    (hu : u ∈ ts) (hne : u.id ≠ tid) : u ∈ updateById tid f ts := by
  have := updateById_mem_image tid f hu
  rwa [if_neg hne] at this

theorem mem_updateById_self {tid : List Char} {f : Task → Task} {ts : List Task} {u : Task}
    (hu : u ∈ ts) (heq : u.id = tid) : f u ∈ updateById tid f ts := by
  have := updateById_mem_image tid f hu
  rwa [if_pos heq] at this

theorem firstMatch_updateById (bp tid : List Char) (f : Task → Task) (ts : List Task)
    (hf : ∀ v, (f v).id = v.id) :
    firstMatch bp (updateById tid f ts) =
      (firstMatch bp ts).map (fun u => if u.id = tid then f u else u) := by
  unfold firstMatch updateById
  induction ts with
  | nil => rfl
  | cons t ts ih =>
    rw [List.map_cons, List.find?_cons, List.find?_cons]
    have hid : (if t.id = tid then f t else t).id = t.id := by
      by_cases h : t.id = tid
      · rw [if_pos h, hf]
      · rw [if_neg h]
    rw [hid]
    cases hm : isPref bp t.id with
    | false => exact ih
    | true => rfl

/-! ## C3: adding a block edge -/

/-- C3 (amended): `addBlockEdge(blocker, blocked)` — realised by the
`--add-blocked-by` path of `cmd_update` — is idempotent on both edge lists
(no duplicate ids introduced); it sets the blocked task's status to `blocked`
exactly when the `blocked_by` entry is new and the status is not already
`done` or `blocked`; it bumps `updated_at` on the blocked (target) task
unconditionally, and on the blocker only when the `blocks` entry was actually
new.  Every task other than the two endpoints is untouched. -/
theorem claim_C3_add_block_edge (now p bp : List Char) (tasks : List Task) (t k : Task)
    (hids : (tasks.map Task.id).Nodup)
    (hfind : find_task p tasks = FindResult.found t)
    (hk : firstMatch bp tasks = some k)
    (hkt : k.id ≠ t.id)
    (hbbn : t.blocked_by.Nodup) (hkb : k.blocks.Nodup) :
    (∃ t' ∈ cmd_update_addBlockedBy now p bp tasks, t'.id = t.id ∧
      t'.blocked_by = (if k.id ∈ t.blocked_by then t.blocked_by else t.blocked_by ++ [k.id]) ∧
      t'.blocked_by.Nodup ∧
      t'.updated_at = now ∧
      t'.status = (if k.id ∉ t.blocked_by ∧ t.status ≠ stDone ∧ t.status ≠ stBlocked
        then stBlocked else t.status) ∧
      t'.blocks = t.blocks) ∧
    (∃ k' ∈ cmd_update_addBlockedBy now p bp tasks, k'.id = k.id ∧
      k'.blocks = (if t.id ∈ k.blocks then k.blocks else k.blocks ++ [t.id]) ∧
      k'.blocks.Nodup ∧
      k'.updated_at = (if t.id ∈ k.blocks then k.updated_at else now) ∧
      k'.status = k.status ∧ k'.blocked_by = k.blocked_by) ∧
    (∀ u ∈ tasks, u.id ≠ t.id → u.id ≠ k.id → u ∈ cmd_update_addBlockedBy now p bp tasks) := by
  have ht : t ∈ tasks := by
    have := (((claim_C9_find_task_unique p tasks
      (by intro hp; rw [hp] at hfind; exact absurd hfind (by unfold find_task; simp)) hids).2.1) t).1 hfind
    exact this.1
  have hop : cmd_update_addBlockedBy now p bp tasks =
      addBlockedByStep now t.id bp (updateById t.id (fun u => { u with updated_at := now }) tasks) := by
    unfold cmd_update_addBlockedBy
    rw [hfind]
  have hfm : firstMatch bp (updateById t.id (fun u => { u with updated_at := now }) tasks) =
      some k := by
    rw [firstMatch_updateById bp t.id (fun u => { u with updated_at := now }) tasks
      (fun v => rfl), hk]
    simp only [Option.map_some']
    rw [if_neg hkt]
  have hstep : addBlockedByStep now t.id bp
      (updateById t.id (fun u => { u with updated_at := now }) tasks) =
      updateById k.id (fun u =>
        if t.id ∈ u.blocks then u
        else { u with blocks := u.blocks ++ [t.id], updated_at := now })
        (updateById t.id (fun u =>
          if k.id ∈ u.blocked_by then u
          else
            { u with blocked_by := u.blocked_by ++ [k.id],
                     status := if u.status = stDone ∨ u.status = stBlocked then u.status
                       else stBlocked })
          (updateById t.id (fun u => { u with updated_at := now }) tasks)) := by
    unfold addBlockedByStep
    rw [hfm]
  rw [hop, hstep]
  refine ⟨?_, ?_, ?_⟩
  · -- the target (blocked) task
    have h1 : ({ t with updated_at := now } : Task) ∈
        updateById t.id (fun u => { u with updated_at := now }) tasks :=
      mem_updateById_self ht rfl
    have h2 := mem_updateById_self (f := fun u =>
      if k.id ∈ u.blocked_by then u
      else
        { u with blocked_by := u.blocked_by ++ [k.id],
                 status := if u.status = stDone ∨ u.status = stBlocked then u.status
                   else stBlocked }) h1 rfl
    dsimp only at h2
    by_cases hin : k.id ∈ t.blocked_by
    · rw [if_pos hin] at h2
      refine ⟨_, mem_updateById_of_ne h2 (by simpa using hkt.symm),
        rfl, ?_, ?_, rfl, ?_, rfl⟩
      · rw [if_pos hin]
      · exact hbbn
      · rw [if_neg (by simp [hin])]
    · rw [if_neg hin] at h2
      refine ⟨_, mem_updateById_of_ne h2 (by simpa using hkt.symm), rfl, ?_, ?_, rfl, ?_, rfl⟩
      · rw [if_neg hin]
      · show (t.blocked_by ++ [k.id]).Nodup
        simpa [List.nodup_append] using ⟨hbbn, hin⟩
      · show (if t.status = stDone ∨ t.status = stBlocked then t.status else stBlocked) = _
        by_cases hd : t.status = stDone
        · rw [if_pos (Or.inl hd), if_neg (by simp [hd])]
        · by_cases hb : t.status = stBlocked
          · rw [if_pos (Or.inr hb), if_neg (by simp [hb])]
          · rw [if_neg (by simp [hd, hb]), if_pos ⟨hin, hd, hb⟩]
  · -- the blocker task
    have hkmem : k ∈ tasks := List.mem_of_find?_eq_some hk
    have h1 : k ∈ updateById t.id (fun u => { u with updated_at := now }) tasks :=
      mem_updateById_of_ne hkmem hkt
    have h2 : k ∈ updateById t.id (fun u =>
        if k.id ∈ u.blocked_by then u
        else
          { u with blocked_by := u.blocked_by ++ [k.id],
                   status := if u.status = stDone ∨ u.status = stBlocked then u.status
                     else stBlocked })
        (updateById t.id (fun u => { u with updated_at := now }) tasks) :=
      mem_updateById_of_ne h1 hkt
    have h3 := mem_updateById_self (f := fun u =>
      if t.id ∈ u.blocks then u
      else { u with blocks := u.blocks ++ [t.id], updated_at := now }) h2 rfl
    dsimp only at h3
    by_cases hin : t.id ∈ k.blocks
    · rw [if_pos hin] at h3
      exact ⟨k, h3, rfl, by rw [if_pos hin], hkb, by rw [if_pos hin], rfl, rfl⟩
    · rw [if_neg hin] at h3
      refine ⟨_, h3, rfl, by rw [if_neg hin], ?_, by rw [if_neg hin], rfl, rfl⟩
      show (k.blocks ++ [t.id]).Nodup
      simpa [List.nodup_append] using ⟨hkb, hin⟩
  · -- everything else untouched
    intro u hu hut huk
    exact mem_updateById_of_ne (mem_updateById_of_ne (mem_updateById_of_ne hu hut) hut) huk

/-- Witness for C3 at a concrete pair: adding a fresh blocker edge installs
both sides, blocks the target and stamps it. -/
theorem claim_C3_add_block_edge_witness :
    ∃ u ∈ cmd_update_addBlockedBy (str "NOW") (str "tt") (str "kk")
        [{ id := str "kkkk", status := stOpen }, { id := str "tttt", status := stOpen }],
      u.id = str "tttt" ∧ u.blocked_by = [str "kkkk"] ∧ u.status = stBlocked ∧
        u.updated_at = str "NOW" := by
  obtain ⟨⟨u, hmem, hid, hbb, -, hup, hst, -⟩, -, -⟩ :=
    claim_C3_add_block_edge (str "NOW") (str "tt") (str "kk")
      [{ id := str "kkkk", status := stOpen }, { id := str "tttt", status := stOpen }]
      { id := str "tttt", status := stOpen } { id := str "kkkk", status := stOpen }
      (by decide) (by decide) (by decide) (by decide) (by decide) (by decide)
  refine ⟨u, hmem, hid, ?_, ?_, hup⟩
  · rw [hbb]; decide
  · rw [hst]; decide

/-- Counterexample to C3 as stated: when the edge is already present but the
blocked task's status is `open` (not `done`, not `blocked`), the operation
does not set it to `blocked` — the status update is guarded by edge newness,
so "exactly when its status is not already done or blocked" fails. -/
theorem claim_C3_counterexample :
    (stOpen ≠ stDone ∧ stOpen ≠ stBlocked) ∧
    (∃ u ∈ [({ id := str "kkkk", status := stOpen, blocks := [str "tttt"] } : Task),
        { id := str "tttt", status := stOpen, blocked_by := [str "kkkk"] }],
      u.id = str "tttt" ∧ u.status = stOpen) ∧
    (∃ u ∈ cmd_update_addBlockedBy (str "NOW") (str "tt") (str "kk")
        [({ id := str "kkkk", status := stOpen, blocks := [str "tttt"] } : Task),
         { id := str "tttt", status := stOpen, blocked_by := [str "kkkk"] }],
      u.id = str "tttt" ∧ u.status = stOpen ∧ u.status ≠ stBlocked) := by
  refine ⟨by decide, by decide, ?_⟩
  decide

/-! ## C2: edge symmetry under the graph operations -/

theorem updateById_comp (a b : List Char) (f g : Task → Task) (ts : List Task)
    (hg : ∀ v, (g v).id = v.id) :
    updateById a f (updateById b g ts) =
      ts.map (fun u =>
        if u.id = b then (if u.id = a then f (g u) else g u)
        else (if u.id = a then f u else u)) := by
  unfold updateById
  rw [List.map_map]
  congr 1
  funext u
  dsimp only [Function.comp]
  by_cases hbu : u.id = b
  · simp only [if_pos hbu]
    by_cases hau : u.id = a
    · simp only [if_pos ((hg u).trans hau), if_pos hau]
    · simp only [if_neg (fun h => hau ((hg u).symm.trans h)), if_neg hau]
  · simp only [if_neg hbu]

theorem edgeSym_map_add (c1 c2 : List Char) (G : Task → Task) (tasks : List Task)
    (hid : ∀ u, (G u).id = u.id)
    (hb : ∀ u ∈ tasks, ∀ x, x ∈ (G u).blocks ↔ (x ∈ u.blocks ∨ (u.id = c1 ∧ x = c2)))
    (hbb : ∀ u ∈ tasks, ∀ x, x ∈ (G u).blocked_by ↔ (x ∈ u.blocked_by ∨ (u.id = c2 ∧ x = c1)))
    (hsym : EdgeSym tasks) : EdgeSym (tasks.map G) := by
  intro a' ha' b' hb'
  obtain ⟨a, ha, rfl⟩ := List.mem_map.1 ha'
  obtain ⟨b, hbm, rfl⟩ := List.mem_map.1 hb'
  rw [hid, hid, hb a ha, hbb b hbm]
  constructor
  · rintro (h | ⟨h1, h2⟩)
    · exact Or.inl ((hsym a ha b hbm).1 h)
    · exact Or.inr ⟨h2, h1⟩
  · rintro (h | ⟨h1, h2⟩)
    · exact Or.inl ((hsym a ha b hbm).2 h)
    · exact Or.inr ⟨h2, h1⟩

theorem edgeSym_map_remove (c1 c2 : List Char) (G : Task → Task) (tasks : List Task)
    (hid : ∀ u, (G u).id = u.id)
    (hb : ∀ u ∈ tasks, ∀ x, x ∈ (G u).blocks ↔ (x ∈ u.blocks ∧ ¬(u.id = c1 ∧ x = c2)))
    (hbb : ∀ u ∈ tasks, ∀ x, x ∈ (G u).blocked_by ↔ (x ∈ u.blocked_by ∧ ¬(u.id = c2 ∧ x = c1)))
    (hsym : EdgeSym tasks) : EdgeSym (tasks.map G) := by
  intro a' ha' b' hb'
  obtain ⟨a, ha, rfl⟩ := List.mem_map.1 ha'
  obtain ⟨b, hbm, rfl⟩ := List.mem_map.1 hb'
  rw [hid, hid, hb a ha, hbb b hbm]
  constructor
  · rintro ⟨h, hn⟩
    exact ⟨(hsym a ha b hbm).1 h, fun ⟨x1, x2⟩ => hn ⟨x2, x1⟩⟩
  · rintro ⟨h, hn⟩
    exact ⟨(hsym a ha b hbm).2 h, fun ⟨x1, x2⟩ => hn ⟨x2, x1⟩⟩

theorem edgeSym_addBlocksStep (now tid p : List Char) (tasks : List Task)
    (hsym : EdgeSym tasks) : EdgeSym (addBlocksStep now tid p tasks) := by
  cases hm : firstMatch p tasks with
  | none =>
    have he : addBlocksStep now tid p tasks = tasks := by
      unfold addBlocksStep; rw [hm]
    rwa [he]
  | some k =>
    have he : addBlocksStep now tid p tasks =
        updateById k.id (fun u =>
          if tid ∈ u.blocked_by then u
          else
            { u with blocked_by := u.blocked_by ++ [tid],
                     updated_at := now,
                     status := if u.status = stDone ∨ u.status = stBlocked then u.status
                       else stBlocked })
          (updateById tid (fun u =>
            if k.id ∈ u.blocks then u
            else { u with blocks := u.blocks ++ [k.id] }) tasks) := by
      unfold addBlocksStep; rw [hm]
    rw [he, updateById_comp k.id tid _ _ tasks (fun v => by split <;> rfl)]
    refine edgeSym_map_add tid k.id _ tasks ?_ ?_ ?_ hsym
    · intro u
      dsimp only
      split_ifs <;> rfl
    · intro u _ x
      dsimp only
      split_ifs <;> simp_all [List.mem_append]
    · intro u _ x
      dsimp only
      split_ifs <;> simp_all [List.mem_append]

theorem edgeSym_addBlockedByStep (now tid p : List Char) (tasks : List Task)
    (hsym : EdgeSym tasks) : EdgeSym (addBlockedByStep now tid p tasks) := by
  cases hm : firstMatch p tasks with
  | none =>
    have he : addBlockedByStep now tid p tasks = tasks := by
      unfold addBlockedByStep; rw [hm]
    rwa [he]
  | some k =>
    have he : addBlockedByStep now tid p tasks =
        updateById k.id (fun u =>
          if tid ∈ u.blocks then u
          else { u with blocks := u.blocks ++ [tid], updated_at := now })
          (updateById tid (fun u =>
            if k.id ∈ u.blocked_by then u
            else
              { u with blocked_by := u.blocked_by ++ [k.id],
                       status := if u.status = stDone ∨ u.status = stBlocked then u.status
                         else stBlocked }) tasks) := by
      unfold addBlockedByStep; rw [hm]
    rw [he, updateById_comp k.id tid _ _ tasks (fun v => by split <;> rfl)]
    refine edgeSym_map_add k.id tid _ tasks ?_ ?_ ?_ hsym
    · intro u
      dsimp only
      split_ifs <;> rfl
    · intro u _ x
      dsimp only
      split_ifs <;> simp_all [List.mem_append]
    · intro u _ x
      dsimp only
      split_ifs <;> simp_all [List.mem_append]

theorem edgeSym_removeBlocksStep (now tid p : List Char) (tasks : List Task)
    (hwf : EdgeWF tasks) (hsym : EdgeSym tasks) :
    EdgeSym (removeBlocksStep now tid p tasks) := by
  cases hm : firstMatch p tasks with
  | none =>
    have he : removeBlocksStep now tid p tasks = tasks := by
      unfold removeBlocksStep; rw [hm]
    rwa [he]
  | some k =>
    have he : removeBlocksStep now tid p tasks =
        updateById k.id (fun u =>
          if tid ∈ u.blocked_by then
            { u with blocked_by := u.blocked_by.erase tid,
                     updated_at := now,
                     status := if u.blocked_by.erase tid = [] ∧ u.status = stBlocked then stOpen
                       else u.status }
          else u)
          (updateById tid (fun u =>
            if k.id ∈ u.blocks then { u with blocks := u.blocks.erase k.id } else u) tasks) := by
      unfold removeBlocksStep; rw [hm]
    rw [he, updateById_comp k.id tid _ _ tasks (fun v => by split <;> rfl)]
    refine edgeSym_map_remove tid k.id _ tasks ?_ ?_ ?_ hsym
    · intro u
      dsimp only
      split_ifs <;> rfl
    · intro u hu x
      have hnd : u.blocks.Nodup := ((hwf.2 u hu).1)
      try dsimp only
      try simp only [apply_ite Task.blocks]
      try dsimp only
      split_ifs <;> simp_all [hnd.mem_erase_iff] <;> aesop
    · intro u hu x
      have hnd : u.blocked_by.Nodup := ((hwf.2 u hu).2)
      try dsimp only
      try simp only [apply_ite Task.blocked_by]
      try dsimp only
      split_ifs <;> simp_all [hnd.mem_erase_iff] <;> aesop

theorem edgeSym_removeBlockedByStep (now tid p : List Char) (tasks : List Task)
    (hwf : EdgeWF tasks) (hsym : EdgeSym tasks) :
    EdgeSym (removeBlockedByStep now tid p tasks) := by
  cases hm : firstMatch p tasks with
  | none =>
    have he : removeBlockedByStep now tid p tasks = tasks := by
      unfold removeBlockedByStep; rw [hm]
    rwa [he]
  | some k =>
    have he : removeBlockedByStep now tid p tasks =
        updateById k.id (fun u =>
          if tid ∈ u.blocks then { u with blocks := u.blocks.erase tid, updated_at := now }
          else u)
          (updateById tid (fun u =>
            if k.id ∈ u.blocked_by then
              { u with blocked_by := u.blocked_by.erase k.id,
                       status := if u.blocked_by.erase k.id = [] ∧ u.status = stBlocked then stOpen
                         else u.status }
            else u) tasks) := by
      unfold removeBlockedByStep; rw [hm]
    rw [he, updateById_comp k.id tid _ _ tasks (fun v => by split <;> rfl)]
    refine edgeSym_map_remove k.id tid _ tasks ?_ ?_ ?_ hsym
    · intro u
      dsimp only
      split_ifs <;> rfl
    · intro u hu x
      have hnd : u.blocks.Nodup := ((hwf.2 u hu).1)
      try dsimp only
      try simp only [apply_ite Task.blocks]
      try dsimp only
      split_ifs <;> simp_all [hnd.mem_erase_iff] <;> aesop
    · intro u hu x
      have hnd : u.blocked_by.Nodup := ((hwf.2 u hu).2)
      try dsimp only
      try simp only [apply_ite Task.blocked_by]
      try dsimp only
      split_ifs <;> simp_all [hnd.mem_erase_iff] <;> aesop

/-- An update that touches neither ids nor edge lists preserves symmetry. -/
theorem edgeSym_updateById_neutral (tid : List Char) (f : Task → Task) (tasks : List Task)
    (hid : ∀ u, (f u).id = u.id) (hb : ∀ u, (f u).blocks = u.blocks)
    (hbb : ∀ u, (f u).blocked_by = u.blocked_by)
    (hsym : EdgeSym tasks) : EdgeSym (updateById tid f tasks) := by
  intro a' ha' b' hb'
  obtain ⟨a, ha, rfl⟩ := List.mem_map.1 ha'
  obtain ⟨b, hbm, rfl⟩ := List.mem_map.1 hb'
  have ida : (if a.id = tid then f a else a).id = a.id := by split <;> simp [hid]
  have idb : (if b.id = tid then f b else b).id = b.id := by split <;> simp [hid]
  have bla : (if a.id = tid then f a else a).blocks = a.blocks := by split <;> simp [hb]
  have blb : (if b.id = tid then f b else b).blocked_by = b.blocked_by := by
    split <;> simp [hbb]
  rw [ida, idb, bla, blb]
  exact hsym a ha b hbm

/-- `updateById` with an id-preserving function leaves the id multiset alone. -/
theorem ids_updateById (tid : List Char) (f : Task → Task) (tasks : List Task)
    (hid : ∀ u, (f u).id = u.id) :
    (updateById tid f tasks).map Task.id = tasks.map Task.id := by
  unfold updateById
  rw [List.map_map]
  apply List.map_congr_left
  intro u _
  dsimp only [Function.comp]
  split <;> simp [hid]

/-- The timestamp bump at the top of `cmd_update` preserves the edge-list
discipline. -/
theorem edgeWF_bump (now tid : List Char) (tasks : List Task) (hwf : EdgeWF tasks) :
    EdgeWF (updateById tid (fun u => { u with updated_at := now }) tasks) := by
  refine ⟨by rw [ids_updateById tid (fun u => { u with updated_at := now }) tasks (fun u => rfl)]; exact hwf.1, ?_⟩
  intro t ht
  obtain ⟨u, hu, rfl⟩ := List.mem_map.1 ht
  have := hwf.2 u hu
  split <;> simpa using this

theorem edgeSym_filter_map (tid : List Char) (G : Task → Task) (tasks : List Task)
    (hid : ∀ u, (G u).id = u.id)
    (hb : ∀ u ∈ tasks, u.id ≠ tid → ∀ x, x ∈ (G u).blocks ↔ (x ∈ u.blocks ∧ x ≠ tid))
    (hbb : ∀ u ∈ tasks, u.id ≠ tid → ∀ x, x ∈ (G u).blocked_by ↔ (x ∈ u.blocked_by ∧ x ≠ tid))
    (hsym : EdgeSym tasks) :
    EdgeSym ((tasks.map G).filter (fun u => u.id ≠ tid)) := by
  intro a' ha' b' hb'
  rw [List.mem_filter] at ha' hb'
  obtain ⟨a, ha, rfl⟩ := List.mem_map.1 ha'.1
  obtain ⟨b, hbm, rfl⟩ := List.mem_map.1 hb'.1
  have hna : a.id ≠ tid := by
    have h := ha'.2
    rw [hid] at h
    simpa using h
  have hnb : b.id ≠ tid := by
    have h := hb'.2
    rw [hid] at h
    simpa using h
  rw [hid, hid, hb a ha hna, hbb b hbm hnb]
  constructor
  · rintro ⟨h, -⟩
    exact ⟨(hsym a ha b hbm).1 h, hna⟩
  · rintro ⟨h, -⟩
    exact ⟨(hsym a ha b hbm).2 h, hnb⟩

theorem edgeSym_delete (now p : List Char) (tasks : List Task)
    (hwf : EdgeWF tasks) (hsym : EdgeSym tasks) :
    EdgeSym (cmd_delete_op now p tasks) := by
  cases hf : find_task p tasks with
  | found t =>
    have he : cmd_delete_op now p tasks =
        (tasks.map (fun u =>
          if u.id = t.id then u
          else
            let u1 := if t.id ∈ u.blocks then
              { u with blocks := u.blocks.erase t.id, updated_at := now } else u
            if t.id ∈ u1.blocked_by then
              { u1 with blocked_by := u1.blocked_by.erase t.id,
                        updated_at := now,
                        status := if u1.blocked_by.erase t.id = [] ∧ u1.status = stBlocked
                          then stOpen else u1.status }
            else u1)).filter (fun u => u.id ≠ t.id) := by
      unfold cmd_delete_op; rw [hf]
    rw [he]
    refine edgeSym_filter_map t.id _ tasks ?_ ?_ ?_ hsym
    · intro u
      dsimp only
      split_ifs <;> rfl
    · intro u hu hune x
      have hnd : u.blocks.Nodup := (hwf.2 u hu).1
      try dsimp only
      try simp only [apply_ite Task.blocks]
      try dsimp only
      split_ifs <;> simp_all [hnd.mem_erase_iff] <;> aesop
    · intro u hu hune x
      have hnd : u.blocked_by.Nodup := (hwf.2 u hu).2
      try dsimp only
      try simp only [apply_ite Task.blocked_by]
      try dsimp only
      split_ifs <;> simp_all [hnd.mem_erase_iff] <;> aesop
  | notFound =>
    have he : cmd_delete_op now p tasks = tasks := by unfold cmd_delete_op; rw [hf]
    rwa [he]
  | ambiguous ms =>
    have he : cmd_delete_op now p tasks = tasks := by unfold cmd_delete_op; rw [hf]
    rwa [he]
  | emptyQuery =>
    have he : cmd_delete_op now p tasks = tasks := by unfold cmd_delete_op; rw [hf]
    rwa [he]

/-- C2 (amended): for a collection with distinct ids, duplicate-free edge
lists and symmetric edges, adding a block edge (either direction), removing a
block edge (either direction) and deleting a task all yield a collection that
still satisfies edge symmetry, both sides being updated within the same
in-memory rewrite.  (Completing a task does not: see the counterexample — the
done task keeps its `blocks` entries while the blocked tasks lose the
corresponding `blocked_by` entries.) -/
theorem claim_C2_edge_symmetry (now p q : List Char) (tasks : List Task)
    (hwf : EdgeWF tasks) (hsym : EdgeSym tasks) :
    EdgeSym (cmd_update_addBlocks now p q tasks) ∧
    EdgeSym (cmd_update_addBlockedBy now p q tasks) ∧
    EdgeSym (cmd_update_removeBlocks now p q tasks) ∧
    EdgeSym (cmd_update_removeBlockedBy now p q tasks) ∧
    EdgeSym (cmd_delete_op now p tasks) := by
  have hbump : ∀ tid, EdgeSym (updateById tid (fun u => { u with updated_at := now }) tasks) :=
    fun tid => edgeSym_updateById_neutral tid _ tasks (fun u => rfl) (fun u => rfl)
      (fun u => rfl) hsym
  have hbwf : ∀ tid, EdgeWF (updateById tid (fun u => { u with updated_at := now }) tasks) :=
    fun tid => edgeWF_bump now tid tasks hwf
  refine ⟨?_, ?_, ?_, ?_, edgeSym_delete now p tasks hwf hsym⟩
  · cases hf : find_task p tasks with
    | found t =>
      have he : cmd_update_addBlocks now p q tasks = addBlocksStep now t.id q
          (updateById t.id (fun u => { u with updated_at := now }) tasks) := by
        unfold cmd_update_addBlocks; rw [hf]
      rw [he]
      exact edgeSym_addBlocksStep now t.id q _ (hbump t.id)
    | notFound =>
      have he : cmd_update_addBlocks now p q tasks = tasks := by
        unfold cmd_update_addBlocks; rw [hf]
      rwa [he]
    | ambiguous ms =>
      have he : cmd_update_addBlocks now p q tasks = tasks := by
        unfold cmd_update_addBlocks; rw [hf]
      rwa [he]
    | emptyQuery =>
      have he : cmd_update_addBlocks now p q tasks = tasks := by
        unfold cmd_update_addBlocks; rw [hf]
      rwa [he]
  · cases hf : find_task p tasks with
    | found t =>
      have he : cmd_update_addBlockedBy now p q tasks = addBlockedByStep now t.id q
          (updateById t.id (fun u => { u with updated_at := now }) tasks) := by
        unfold cmd_update_addBlockedBy; rw [hf]
      rw [he]
      exact edgeSym_addBlockedByStep now t.id q _ (hbump t.id)
    | notFound =>
      have he : cmd_update_addBlockedBy now p q tasks = tasks := by
        unfold cmd_update_addBlockedBy; rw [hf]
      rwa [he]
    | ambiguous ms =>
      have he : cmd_update_addBlockedBy now p q tasks = tasks := by
        unfold cmd_update_addBlockedBy; rw [hf]
      rwa [he]
    | emptyQuery =>
      have he : cmd_update_addBlockedBy now p q tasks = tasks := by
        unfold cmd_update_addBlockedBy; rw [hf]
      rwa [he]
  · cases hf : find_task p tasks with
    | found t =>
      have he : cmd_update_removeBlocks now p q tasks = removeBlocksStep now t.id q
          (updateById t.id (fun u => { u with updated_at := now }) tasks) := by
        unfold cmd_update_removeBlocks; rw [hf]
      rw [he]
      exact edgeSym_removeBlocksStep now t.id q _ (hbwf t.id) (hbump t.id)
    | notFound =>
      have he : cmd_update_removeBlocks now p q tasks = tasks := by
        unfold cmd_update_removeBlocks; rw [hf]
      rwa [he]
    | ambiguous ms =>
      have he : cmd_update_removeBlocks now p q tasks = tasks := by
        unfold cmd_update_removeBlocks; rw [hf]
      rwa [he]
    | emptyQuery =>
      have he : cmd_update_removeBlocks now p q tasks = tasks := by
        unfold cmd_update_removeBlocks; rw [hf]
      rwa [he]
  · cases hf : find_task p tasks with
    | found t =>
      have he : cmd_update_removeBlockedBy now p q tasks = removeBlockedByStep now t.id q
          (updateById t.id (fun u => { u with updated_at := now }) tasks) := by
        unfold cmd_update_removeBlockedBy; rw [hf]
      rw [he]
      exact edgeSym_removeBlockedByStep now t.id q _ (hbwf t.id) (hbump t.id)
    | notFound =>
      have he : cmd_update_removeBlockedBy now p q tasks = tasks := by
        unfold cmd_update_removeBlockedBy; rw [hf]
      rwa [he]
    | ambiguous ms =>
      have he : cmd_update_removeBlockedBy now p q tasks = tasks := by
        unfold cmd_update_removeBlockedBy; rw [hf]
      rwa [he]
    | emptyQuery =>
      have he : cmd_update_removeBlockedBy now p q tasks = tasks := by
        unfold cmd_update_removeBlockedBy; rw [hf]
      rwa [he]

/-- Witness for C2 at a concrete symmetric two-task collection. -/
theorem claim_C2_edge_symmetry_witness :
    EdgeSym (cmd_update_addBlocks (str "NOW") (str "aa") (str "bb")
      [{ id := str "aaaa", status := stOpen, blocks := [str "bbbb"] },
       { id := str "bbbb", status := stBlocked, blocked_by := [str "aaaa"] }]) ∧
    EdgeSym (cmd_update_addBlockedBy (str "NOW") (str "aa") (str "bb")
      [{ id := str "aaaa", status := stOpen, blocks := [str "bbbb"] },
       { id := str "bbbb", status := stBlocked, blocked_by := [str "aaaa"] }]) ∧
    EdgeSym (cmd_update_removeBlocks (str "NOW") (str "aa") (str "bb")
      [{ id := str "aaaa", status := stOpen, blocks := [str "bbbb"] },
       { id := str "bbbb", status := stBlocked, blocked_by := [str "aaaa"] }]) ∧
    EdgeSym (cmd_update_removeBlockedBy (str "NOW") (str "aa") (str "bb")
      [{ id := str "aaaa", status := stOpen, blocks := [str "bbbb"] },
       { id := str "bbbb", status := stBlocked, blocked_by := [str "aaaa"] }]) ∧
    EdgeSym (cmd_delete_op (str "NOW") (str "aa")
      [{ id := str "aaaa", status := stOpen, blocks := [str "bbbb"] },
       { id := str "bbbb", status := stBlocked, blocked_by := [str "aaaa"] }]) :=
  claim_C2_edge_symmetry (str "NOW") (str "aa") (str "bb")
    [{ id := str "aaaa", status := stOpen, blocks := [str "bbbb"] },
     { id := str "bbbb", status := stBlocked, blocked_by := [str "aaaa"] }]
    (by decide) (by decide)

/-- Counterexample to C2 as stated: completing a task breaks edge symmetry.
`A blocks B` is symmetric; setting A's status to `done` removes A from B's
`blocked_by` but leaves B in A's `blocks`. -/
theorem claim_C2_counterexample :
    EdgeWF [({ id := str "aaaa", status := stOpen, blocks := [str "bbbb"] } : Task),
      { id := str "bbbb", status := stBlocked, blocked_by := [str "aaaa"] }] ∧
    EdgeSym [({ id := str "aaaa", status := stOpen, blocks := [str "bbbb"] } : Task),
      { id := str "bbbb", status := stBlocked, blocked_by := [str "aaaa"] }] ∧
    ¬ EdgeSym (cmd_update_status (str "NOW") stDone (str "aaaa")
      [({ id := str "aaaa", status := stOpen, blocks := [str "bbbb"] } : Task),
       { id := str "bbbb", status := stBlocked, blocked_by := [str "aaaa"] }]) := by
  refine ⟨by decide, by decide, ?_⟩
  decide

/-! ## C4: no task is left blocked with an empty blocked_by -/

theorem noEmpty_updateById (tid : List Char) (f : Task → Task) (tasks : List Task)
    (hinv : NoEmptyBlocked tasks) (hf : ∀ u, SafeStatus u → SafeStatus (f u)) :
    NoEmptyBlocked (updateById tid f tasks) := by
  intro t ht
  obtain ⟨u, hu, rfl⟩ := List.mem_map.1 ht
  have hsu := hinv u hu
  split
  · exact hf u hsu
  · exact hsu

/-- The unblock-on-removal shape shared by the remove branches, the
done-cascade and deletion preserves `SafeStatus`. -/
theorem safeStatus_unblock (x y : List Char) (u : Task) (hsu : SafeStatus u) :
    SafeStatus (if x ∈ u.blocked_by then
      { u with blocked_by := u.blocked_by.erase x, updated_at := y,
               status := if u.blocked_by.erase x = [] ∧ u.status = stBlocked then stOpen
                 else u.status } else u) := by
  have hob : stOpen ≠ stBlocked := by decide
  unfold SafeStatus at *
  split_ifs with h1 h2 <;> intro hb
  · exact absurd hb hob
  · dsimp only at hb ⊢
    intro he
    exact h2 ⟨he, hb⟩
  · exact hsu hb

/-- The add-blocker shape of `--add-blocked-by` preserves `SafeStatus`. -/
theorem safeStatus_addBB (x : List Char) (u : Task) (hsu : SafeStatus u) :
    SafeStatus (if x ∈ u.blocked_by then u
      else
        { u with blocked_by := u.blocked_by ++ [x],
                 status := if u.status = stDone ∨ u.status = stBlocked then u.status
                   else stBlocked }) := by
  unfold SafeStatus at *
  split_ifs with h1 h2
  · exact hsu
  · intro hb
    simp
  · intro hb
    simp

/-- The add-blocked shape of `--add-blocks` (blocked side) preserves
`SafeStatus`. -/
theorem safeStatus_addBlocked (x y : List Char) (u : Task) (hsu : SafeStatus u) :
    SafeStatus (if x ∈ u.blocked_by then u
      else
        { u with blocked_by := u.blocked_by ++ [x],
                 updated_at := y,
                 status := if u.status = stDone ∨ u.status = stBlocked then u.status
                   else stBlocked }) := by
  unfold SafeStatus at *
  split_ifs with h1 h2
  · exact hsu
  · intro hb
    simp
  · intro hb
    simp

/-- Shapes that leave status and blocked_by alone preserve `SafeStatus`. -/
theorem safeStatus_of_same (u v : Task) (hst : v.status = u.status)
    (hbb : v.blocked_by = u.blocked_by) (hsu : SafeStatus u) : SafeStatus v := by
  unfold SafeStatus at *
  rw [hst, hbb]
  exact hsu

theorem noEmpty_completeCascade (now tid : List Char) (bl : List (List Char)) :
    ∀ tasks : List Task, NoEmptyBlocked tasks →
      NoEmptyBlocked (completeCascade now tid bl tasks) := by
  unfold completeCascade
  induction bl with
  | nil =>
    intro tasks hinv
    simpa using hinv
  | cons b bs ih =>
    intro tasks hinv
    rw [List.foldl_cons]
    apply ih
    by_cases hc : (dictGet tasks b).isSome
    · rw [if_pos hc]
      exact noEmpty_updateById b _ tasks hinv (fun u hsu => safeStatus_unblock tid now u hsu)
    · rw [if_neg hc]
      exact hinv

/-- C4 (amended): after any of the graph operations — adding a block edge
(either direction), removing a block edge (either direction), completing a
task, deleting a task — no task with an empty `blocked_by` list remains in
status `blocked`.  (The stronger half of the claim — that a task whose
blockers are all `done` is never left `blocked` — fails: see the
counterexample, where adding an already-`done` blocker blocks the target.) -/
theorem claim_C4_no_empty_blocked (now p q : List Char) (tasks : List Task)
    (hinv : NoEmptyBlocked tasks) :
    NoEmptyBlocked (cmd_update_addBlocks now p q tasks) ∧
    NoEmptyBlocked (cmd_update_addBlockedBy now p q tasks) ∧
    NoEmptyBlocked (cmd_update_removeBlocks now p q tasks) ∧
    NoEmptyBlocked (cmd_update_removeBlockedBy now p q tasks) ∧
    NoEmptyBlocked (cmd_update_status now stDone p tasks) ∧
    NoEmptyBlocked (cmd_delete_op now p tasks) := by
  have hbump : ∀ tid, NoEmptyBlocked (updateById tid
      (fun u => { u with updated_at := now }) tasks) :=
    fun tid => noEmpty_updateById tid _ tasks hinv (fun u hsu => safeStatus_of_same u _ rfl rfl hsu)
  refine ⟨?_, ?_, ?_, ?_, ?_, ?_⟩
  · cases hf : find_task p tasks with
    | found t =>
      have he : cmd_update_addBlocks now p q tasks = addBlocksStep now t.id q
          (updateById t.id (fun u => { u with updated_at := now }) tasks) := by
        unfold cmd_update_addBlocks; rw [hf]
      rw [he]
      cases hm : firstMatch q (updateById t.id (fun u => { u with updated_at := now }) tasks) with
      | none =>
        have h2 : addBlocksStep now t.id q
            (updateById t.id (fun u => { u with updated_at := now }) tasks) =
            updateById t.id (fun u => { u with updated_at := now }) tasks := by
          unfold addBlocksStep; rw [hm]
        rw [h2]; exact hbump t.id
      | some k =>
        have h2 : addBlocksStep now t.id q
            (updateById t.id (fun u => { u with updated_at := now }) tasks) =
            updateById k.id (fun u =>
              if t.id ∈ u.blocked_by then u
              else
                { u with blocked_by := u.blocked_by ++ [t.id],
                         updated_at := now,
                         status := if u.status = stDone ∨ u.status = stBlocked then u.status
                           else stBlocked })
              (updateById t.id (fun u =>
                if k.id ∈ u.blocks then u
                else { u with blocks := u.blocks ++ [k.id] })
                (updateById t.id (fun u => { u with updated_at := now }) tasks)) := by
          unfold addBlocksStep; rw [hm]
        rw [h2]
        refine noEmpty_updateById _ _ _ (noEmpty_updateById _ _ _ (hbump t.id) ?_) ?_
        · intro u hsu
          exact safeStatus_of_same u _ (by split <;> rfl) (by split <;> rfl) hsu
        · intro u hsu
          exact safeStatus_addBlocked t.id now u hsu
    | notFound =>
      have he : cmd_update_addBlocks now p q tasks = tasks := by
        unfold cmd_update_addBlocks; rw [hf]
      rwa [he]
    | ambiguous ms =>
      have he : cmd_update_addBlocks now p q tasks = tasks := by
        unfold cmd_update_addBlocks; rw [hf]
      rwa [he]
    | emptyQuery =>
      have he : cmd_update_addBlocks now p q tasks = tasks := by
        unfold cmd_update_addBlocks; rw [hf]
      rwa [he]
  · cases hf : find_task p tasks with
    | found t =>
      have he : cmd_update_addBlockedBy now p q tasks = addBlockedByStep now t.id q
          (updateById t.id (fun u => { u with updated_at := now }) tasks) := by
        unfold cmd_update_addBlockedBy; rw [hf]
      rw [he]
      cases hm : firstMatch q (updateById t.id (fun u => { u with updated_at := now }) tasks) with
      | none =>
        have h2 : addBlockedByStep now t.id q
            (updateById t.id (fun u => { u with updated_at := now }) tasks) =
            updateById t.id (fun u => { u with updated_at := now }) tasks := by
          unfold addBlockedByStep; rw [hm]
        rw [h2]; exact hbump t.id
      | some k =>
        have h2 : addBlockedByStep now t.id q
            (updateById t.id (fun u => { u with updated_at := now }) tasks) =
            updateById k.id (fun u =>
              if t.id ∈ u.blocks then u
              else { u with blocks := u.blocks ++ [t.id], updated_at := now })
              (updateById t.id (fun u =>
                if k.id ∈ u.blocked_by then u
                else
                  { u with blocked_by := u.blocked_by ++ [k.id],
                           status := if u.status = stDone ∨ u.status = stBlocked then u.status
                             else stBlocked })
                (updateById t.id (fun u => { u with updated_at := now }) tasks)) := by
          unfold addBlockedByStep; rw [hm]
        rw [h2]
        refine noEmpty_updateById _ _ _ (noEmpty_updateById _ _ _ (hbump t.id) ?_) ?_
        · intro u hsu
          exact safeStatus_addBB k.id u hsu
        · intro u hsu
          exact safeStatus_of_same u _ (by split <;> rfl) (by split <;> rfl) hsu
    | notFound =>
      have he : cmd_update_addBlockedBy now p q tasks = tasks := by
        unfold cmd_update_addBlockedBy; rw [hf]
      rwa [he]
    | ambiguous ms =>
      have he : cmd_update_addBlockedBy now p q tasks = tasks := by
        unfold cmd_update_addBlockedBy; rw [hf]
      rwa [he]
    | emptyQuery =>
      have he : cmd_update_addBlockedBy now p q tasks = tasks := by
        unfold cmd_update_addBlockedBy; rw [hf]
      rwa [he]
  · cases hf : find_task p tasks with
    | found t =>
      have he : cmd_update_removeBlocks now p q tasks = removeBlocksStep now t.id q
          (updateById t.id (fun u => { u with updated_at := now }) tasks) := by
        unfold cmd_update_removeBlocks; rw [hf]
      rw [he]
      cases hm : firstMatch q (updateById t.id (fun u => { u with updated_at := now }) tasks) with
      | none =>
        have h2 : removeBlocksStep now t.id q
            (updateById t.id (fun u => { u with updated_at := now }) tasks) =
            updateById t.id (fun u => { u with updated_at := now }) tasks := by
          unfold removeBlocksStep; rw [hm]
        rw [h2]; exact hbump t.id
      | some k =>
        have h2 : removeBlocksStep now t.id q
            (updateById t.id (fun u => { u with updated_at := now }) tasks) =
            updateById k.id (fun u =>
              if t.id ∈ u.blocked_by then
                { u with blocked_by := u.blocked_by.erase t.id,
                         updated_at := now,
                         status := if u.blocked_by.erase t.id = [] ∧ u.status = stBlocked
                           then stOpen else u.status }
              else u)
              (updateById t.id (fun u =>
                if k.id ∈ u.blocks then { u with blocks := u.blocks.erase k.id } else u)
                (updateById t.id (fun u => { u with updated_at := now }) tasks)) := by
          unfold removeBlocksStep; rw [hm]
        rw [h2]
        refine noEmpty_updateById _ _ _ (noEmpty_updateById _ _ _ (hbump t.id) ?_) ?_
        · intro u hsu
          exact safeStatus_of_same u _ (by split <;> rfl) (by split <;> rfl) hsu
        · intro u hsu
          exact safeStatus_unblock t.id now u hsu
    | notFound =>
      have he : cmd_update_removeBlocks now p q tasks = tasks := by
        unfold cmd_update_removeBlocks; rw [hf]
      rwa [he]
    | ambiguous ms =>
      have he : cmd_update_removeBlocks now p q tasks = tasks := by
        unfold cmd_update_removeBlocks; rw [hf]
      rwa [he]
    | emptyQuery =>
      have he : cmd_update_removeBlocks now p q tasks = tasks := by
        unfold cmd_update_removeBlocks; rw [hf]
      rwa [he]
  · cases hf : find_task p tasks with
    | found t =>
      have he : cmd_update_removeBlockedBy now p q tasks = removeBlockedByStep now t.id q
          (updateById t.id (fun u => { u with updated_at := now }) tasks) := by
        unfold cmd_update_removeBlockedBy; rw [hf]
      rw [he]
      cases hm : firstMatch q (updateById t.id (fun u => { u with updated_at := now }) tasks) with
      | none =>
        have h2 : removeBlockedByStep now t.id q
            (updateById t.id (fun u => { u with updated_at := now }) tasks) =
            updateById t.id (fun u => { u with updated_at := now }) tasks := by
          unfold removeBlockedByStep; rw [hm]
        rw [h2]; exact hbump t.id
      | some k =>
        have h2 : removeBlockedByStep now t.id q
            (updateById t.id (fun u => { u with updated_at := now }) tasks) =
            updateById k.id (fun u =>
              if t.id ∈ u.blocks then { u with blocks := u.blocks.erase t.id, updated_at := now }
              else u)
              (updateById t.id (fun u =>
                if k.id ∈ u.blocked_by then
                  { u with blocked_by := u.blocked_by.erase k.id,
                           status := if u.blocked_by.erase k.id = [] ∧ u.status = stBlocked
                             then stOpen else u.status }
                else u)
                (updateById t.id (fun u => { u with updated_at := now }) tasks)) := by
          unfold removeBlockedByStep; rw [hm]
        rw [h2]
        refine noEmpty_updateById _ _ _ (noEmpty_updateById _ _ _ (hbump t.id) ?_) ?_
        · intro u hsu
          have hob : stOpen ≠ stBlocked := by decide
          unfold SafeStatus at *
          split_ifs with h1 h2 <;> intro hb
          · exact absurd hb hob
          · dsimp only at hb ⊢
            intro he2
            exact h2 ⟨he2, hb⟩
          · exact hsu hb
        · intro u hsu
          exact safeStatus_of_same u _ (by split <;> rfl) (by split <;> rfl) hsu
    | notFound =>
      have he : cmd_update_removeBlockedBy now p q tasks = tasks := by
        unfold cmd_update_removeBlockedBy; rw [hf]
      rwa [he]
    | ambiguous ms =>
      have he : cmd_update_removeBlockedBy now p q tasks = tasks := by
        unfold cmd_update_removeBlockedBy; rw [hf]
      rwa [he]
    | emptyQuery =>
      have he : cmd_update_removeBlockedBy now p q tasks = tasks := by
        unfold cmd_update_removeBlockedBy; rw [hf]
      rwa [he]
  · cases hf : find_task p tasks with
    | found t =>
      have hvalid : stDone ∈ validStatuses := by decide
      have he : cmd_update_status now stDone p tasks =
          (if stDone ∈ validStatuses then
            (if stDone = stDone ∧ t.blocks ≠ [] then
              completeCascade now t.id t.blocks
                (updateById t.id (fun u => { u with status := stDone })
                  (updateById t.id (fun u => { u with updated_at := now }) tasks))
            else
              updateById t.id (fun u => { u with status := stDone })
                (updateById t.id (fun u => { u with updated_at := now }) tasks))
          else tasks) := by
        unfold cmd_update_status
        rw [hf]
      rw [he, if_pos hvalid]
      have hset : NoEmptyBlocked (updateById t.id (fun u => { u with status := stDone })
          (updateById t.id (fun u => { u with updated_at := now }) tasks)) := by
        refine noEmpty_updateById _ _ _ (hbump t.id) ?_
        intro u hsu
        have hdb : stDone ≠ stBlocked := by decide
        unfold SafeStatus
        intro hb
        exact absurd hb hdb
      split
      · exact noEmpty_completeCascade now t.id t.blocks _ hset
      · exact hset
    | notFound =>
      have he : cmd_update_status now stDone p tasks = tasks := by
        unfold cmd_update_status; rw [hf]
      rwa [he]
    | ambiguous ms =>
      have he : cmd_update_status now stDone p tasks = tasks := by
        unfold cmd_update_status; rw [hf]
      rwa [he]
    | emptyQuery =>
      have he : cmd_update_status now stDone p tasks = tasks := by
        unfold cmd_update_status; rw [hf]
      rwa [he]
  · cases hf : find_task p tasks with
    | found t =>
      have he : cmd_delete_op now p tasks =
          (tasks.map (fun u =>
            if u.id = t.id then u
            else
              let u1 := if t.id ∈ u.blocks then
                { u with blocks := u.blocks.erase t.id, updated_at := now } else u
              if t.id ∈ u1.blocked_by then
                { u1 with blocked_by := u1.blocked_by.erase t.id,
                          updated_at := now,
                          status := if u1.blocked_by.erase t.id = [] ∧ u1.status = stBlocked
                            then stOpen else u1.status }
              else u1)).filter (fun u => u.id ≠ t.id) := by
        unfold cmd_delete_op; rw [hf]
      rw [he]
      intro v hv
      rw [List.mem_filter] at hv
      obtain ⟨u, hu, rfl⟩ := List.mem_map.1 hv.1
      have hsu := hinv u hu
      dsimp only
      split
      · exact hsu
      · refine safeStatus_unblock t.id now _ ?_
        exact safeStatus_of_same u _ (by split <;> rfl) (by split <;> rfl) hsu
    | notFound =>
      have he : cmd_delete_op now p tasks = tasks := by
        unfold cmd_delete_op; rw [hf]
      rwa [he]
    | ambiguous ms =>
      have he : cmd_delete_op now p tasks = tasks := by
        unfold cmd_delete_op; rw [hf]
      rwa [he]
    | emptyQuery =>
      have he : cmd_delete_op now p tasks = tasks := by
        unfold cmd_delete_op; rw [hf]
      rwa [he]

/-- Witness for C4 at a concrete collection: removing the only blocker opens
the blocked task, and none of the operations strand an empty-blocked task. -/
theorem claim_C4_no_empty_blocked_witness :
    NoEmptyBlocked (cmd_update_removeBlockedBy (str "NOW") (str "bb") (str "aa")
      [{ id := str "aaaa", status := stOpen, blocks := [str "bbbb"] },
       { id := str "bbbb", status := stBlocked, blocked_by := [str "aaaa"] }]) ∧
    NoEmptyBlocked (cmd_update_status (str "NOW") stDone (str "aa")
      [{ id := str "aaaa", status := stOpen, blocks := [str "bbbb"] },
       { id := str "bbbb", status := stBlocked, blocked_by := [str "aaaa"] }]) := by
  constructor
  · exact (claim_C4_no_empty_blocked (str "NOW") (str "bb") (str "aa")
      [{ id := str "aaaa", status := stOpen, blocks := [str "bbbb"] },
       { id := str "bbbb", status := stBlocked, blocked_by := [str "aaaa"] }]
      (by decide)).2.2.2.1
  · exact (claim_C4_no_empty_blocked (str "NOW") (str "aa") (str "bb")
      [{ id := str "aaaa", status := stOpen, blocks := [str "bbbb"] },
       { id := str "bbbb", status := stBlocked, blocked_by := [str "aaaa"] }]
      (by decide)).2.2.2.2.1

/-- Counterexample to C4 as stated: adding an already-`done` blocker leaves
the target in `blocked` status although its only referenced blocker is
`done`. -/
theorem claim_C4_counterexample :
    ∃ u ∈ cmd_update_addBlockedBy (str "NOW") (str "tt") (str "kk")
        [({ id := str "kkkk", status := stDone } : Task), { id := str "tttt", status := stOpen }],
      u.id = str "tttt" ∧ u.status = stBlocked ∧ u.blocked_by = [str "kkkk"] ∧
        (∀ v ∈ cmd_update_addBlockedBy (str "NOW") (str "tt") (str "kk")
            [({ id := str "kkkk", status := stDone } : Task),
             { id := str "tttt", status := stOpen }],
          v.id ∈ u.blocked_by → v.status = stDone) := by
  decide

/-! ## C5: completing a task -/

theorem dictGet_isSome_of_mem {ts : List Task} {u : Task} (hu : u ∈ ts) :
    (dictGet ts u.id).isSome := by
  cases hd : dictGet ts u.id with
  | some w => rfl
  | none => exact absurd rfl (dictGet_none_iff.1 hd u hu)

theorem cascade_not_in (now tid : List Char) (bl : List (List Char)) :
    ∀ (ts : List Task) (u : Task), u ∈ ts → (∀ b ∈ bl, u.id ≠ b) →
      u ∈ completeCascade now tid bl ts := by
  unfold completeCascade
  induction bl with
  | nil =>
    intro ts u hu _
    simpa using hu
  | cons b bs ih =>
    intro ts u hu hne
    rw [List.foldl_cons]
    refine ih _ u ?_ (fun c hc => hne c (List.mem_cons_of_mem _ hc))
    by_cases hc : (dictGet ts b).isSome
    · rw [if_pos hc]
      exact mem_updateById_of_ne hu (hne b (List.mem_cons_self b bs))
    · rw [if_neg hc]
      exact hu

theorem cascade_in (now tid : List Char) (bl : List (List Char)) :
    ∀ (ts : List Task) (u : Task), u ∈ ts → bl.Nodup → u.id ∈ bl →
      (if tid ∈ u.blocked_by then
        { u with blocked_by := u.blocked_by.erase tid, updated_at := now,
                 status := if u.blocked_by.erase tid = [] ∧ u.status = stBlocked then stOpen
                   else u.status } else u) ∈ completeCascade now tid bl ts := by
  unfold completeCascade
  induction bl with
  | nil =>
    intro ts u _ _ hm
    exact absurd hm (by simp)
  | cons b bs ih =>
    intro ts u hu hnd hm
    rw [List.foldl_cons]
    by_cases hub : u.id = b
    · have hsome : (dictGet ts b).isSome := by
        rw [← hub]
        exact dictGet_isSome_of_mem hu
      rw [if_pos hsome]
      have himg := mem_updateById_self (f := fun v =>
        if tid ∈ v.blocked_by then
          { v with blocked_by := v.blocked_by.erase tid, updated_at := now,
                   status := if v.blocked_by.erase tid = [] ∧ v.status = stBlocked then stOpen
                     else v.status }
        else v) hu hub
      dsimp only at himg
      refine cascade_not_in now tid bs _ _ himg ?_
      intro c hc
      have hids : (if tid ∈ u.blocked_by then
          ({ u with blocked_by := u.blocked_by.erase tid, updated_at := now,
                    status := if u.blocked_by.erase tid = [] ∧ u.status = stBlocked then stOpen
                      else u.status } : Task)
          else u).id = u.id := by
        split <;> rfl
      rw [hids, hub]
      intro hbc
      rw [hbc] at hnd
      exact (List.nodup_cons.1 hnd).1 hc
    · have hm2 : u.id ∈ bs := by
        rcases List.mem_cons.1 hm with h | h
        · exact absurd h hub
        · exact h
      refine ih _ u ?_ (List.nodup_cons.1 hnd).2 hm2
      by_cases hc : (dictGet ts b).isSome
      · rw [if_pos hc]
        exact mem_updateById_of_ne hu hub
      · rw [if_neg hc]
        exact hu

/-- C5: setting a task's status to `done` removes its id from the
`blocked_by` of every task in its `blocks` list, transitions any such task to
`open` when its `blocked_by` empties while it was `blocked`, and reaches only
one hop: tasks that are neither the target nor in its `blocks` list are
untouched. -/
theorem claim_C5_complete_task (now p : List Char) (tasks : List Task) (t : Task)
    (hids : (tasks.map Task.id).Nodup)
    (hfind : find_task p tasks = FindResult.found t)
    (hbl : t.blocks.Nodup)
    (hbbn : ∀ u ∈ tasks, u.blocked_by.Nodup) :
    (∀ u ∈ tasks, u.id ≠ t.id → u.id ∉ t.blocks →
      u ∈ cmd_update_status now stDone p tasks) ∧
    (∀ u ∈ tasks, u.id ≠ t.id → u.id ∈ t.blocks →
      ∃ u' ∈ cmd_update_status now stDone p tasks, u'.id = u.id ∧
        u'.blocked_by = u.blocked_by.erase t.id ∧
        t.id ∉ u'.blocked_by ∧
        u'.status = (if t.id ∈ u.blocked_by ∧ u.blocked_by.erase t.id = [] ∧
          u.status = stBlocked then stOpen else u.status) ∧
        u'.blocks = u.blocks ∧
        u'.updated_at = (if t.id ∈ u.blocked_by then now else u.updated_at)) ∧
    (∃ t' ∈ cmd_update_status now stDone p tasks, t'.id = t.id ∧ t'.status = stDone ∧
      t'.blocks = t.blocks) := by
  have ht : t ∈ tasks := by
    have := (((claim_C9_find_task_unique p tasks
      (by intro hp; rw [hp] at hfind; exact absurd hfind (by unfold find_task; simp)) hids).2.1) t).1
      hfind
    exact this.1
  have hvalid : stDone ∈ validStatuses := by decide
  have he : cmd_update_status now stDone p tasks =
      (if stDone ∈ validStatuses then
        (if stDone = stDone ∧ t.blocks ≠ [] then
          completeCascade now t.id t.blocks
            (updateById t.id (fun u => { u with status := stDone })
              (updateById t.id (fun u => { u with updated_at := now }) tasks))
        else
          updateById t.id (fun u => { u with status := stDone })
            (updateById t.id (fun u => { u with updated_at := now }) tasks))
      else tasks) := by
    unfold cmd_update_status
    rw [hfind]
  rw [he, if_pos hvalid]
  refine ⟨?_, ?_, ?_⟩
  · intro u hu hne hnb
    have h2 : u ∈ updateById t.id (fun u => { u with status := stDone })
        (updateById t.id (fun u => { u with updated_at := now }) tasks) :=
      mem_updateById_of_ne (mem_updateById_of_ne hu hne) hne
    split
    · exact cascade_not_in now t.id t.blocks _ u h2 (fun b hb hc => hnb (hc ▸ hb))
    · exact h2
  · intro u hu hne hmb
    have h2 : u ∈ updateById t.id (fun u => { u with status := stDone })
        (updateById t.id (fun u => { u with updated_at := now }) tasks) :=
      mem_updateById_of_ne (mem_updateById_of_ne hu hne) hne
    have hnd : u.blocked_by.Nodup := hbbn u hu
    split
    · refine ⟨_, cascade_in now t.id t.blocks _ u h2 hbl hmb, ?_, ?_, ?_, ?_, ?_, ?_⟩
      · split <;> rfl
      · by_cases hin : t.id ∈ u.blocked_by
        · rw [if_pos hin]
        · rw [if_neg hin]
          try dsimp only
          exact (List.erase_of_not_mem hin).symm
      · by_cases hin : t.id ∈ u.blocked_by
        · rw [if_pos hin]
          try dsimp only
          intro hc
          exact absurd (hnd.mem_erase_iff.1 hc).1 (by simp)
        · rw [if_neg hin]
          exact hin
      · by_cases hin : t.id ∈ u.blocked_by
        · rw [if_pos hin]
          try dsimp only
          by_cases hc : u.blocked_by.erase t.id = [] ∧ u.status = stBlocked
          · rw [if_pos hc, if_pos ⟨hin, hc.1, hc.2⟩]
          · rw [if_neg hc, if_neg (fun h => hc ⟨h.2.1, h.2.2⟩)]
        · rw [if_neg hin, if_neg (fun h => hin h.1)]
      · split <;> rfl
      · by_cases hin : t.id ∈ u.blocked_by
        · rw [if_pos hin, if_pos hin]
        · rw [if_neg hin, if_neg hin]
    · rename_i hcond
      have hbe : t.blocks = [] := by
        by_contra hne2
        exact hcond ⟨rfl, hne2⟩
      rw [hbe] at hmb
      exact absurd hmb (by simp)
  · have h1 : ({ t with updated_at := now } : Task) ∈
        updateById t.id (fun u => { u with updated_at := now }) tasks :=
      mem_updateById_self ht rfl
    have h2 := mem_updateById_self (f := fun u => { u with status := stDone }) h1 rfl
    dsimp only at h2
    split
    · by_cases hmb : t.id ∈ t.blocks
      · have := cascade_in now t.id t.blocks _ _ h2 hbl (by simpa using hmb)
        refine ⟨_, this, ?_, ?_, ?_⟩
        · split <;> rfl
        · split
          · dsimp only
            split
            · rename_i hcc
              exact absurd hcc.2 (by decide)
            · rfl
          · rfl
        · split <;> rfl
      · refine ⟨_, cascade_not_in now t.id t.blocks _ _ h2 ?_, rfl, rfl, rfl⟩
        intro b hb hc
        exact hmb (by simpa using hc ▸ hb)
    · exact ⟨_, h2, rfl, rfl, rfl⟩

/-- Witness for C5 at the spec's chain A blocks B blocks C: completing A
opens B, leaves C blocked, and the ready set moves from {A} to {B}. -/
theorem claim_C5_complete_task_witness :
    (∃ u ∈ cmd_update_status (str "NOW") stDone (str "aa")
        [({ id := str "aaaa", status := stOpen, blocks := [str "bbbb"] } : Task),
         { id := str "bbbb", status := stBlocked, blocked_by := [str "aaaa"],
           blocks := [str "cccc"] },
         { id := str "cccc", status := stBlocked, blocked_by := [str "bbbb"] }],
      u.id = str "bbbb" ∧ u.status = stOpen ∧ u.blocked_by = []) ∧
    (({ id := str "cccc", status := stBlocked, blocked_by := [str "bbbb"] } : Task) ∈
      cmd_update_status (str "NOW") stDone (str "aa")
        [({ id := str "aaaa", status := stOpen, blocks := [str "bbbb"] } : Task),
         { id := str "bbbb", status := stBlocked, blocked_by := [str "aaaa"],
           blocks := [str "cccc"] },
         { id := str "cccc", status := stBlocked, blocked_by := [str "bbbb"] }]) := by
  obtain ⟨hout, hin, -⟩ :=
    claim_C5_complete_task (str "NOW") (str "aa")
      [({ id := str "aaaa", status := stOpen, blocks := [str "bbbb"] } : Task),
       { id := str "bbbb", status := stBlocked, blocked_by := [str "aaaa"],
         blocks := [str "cccc"] },
       { id := str "cccc", status := stBlocked, blocked_by := [str "bbbb"] }]
      { id := str "aaaa", status := stOpen, blocks := [str "bbbb"] }
      (by decide) (by decide) (by decide) (by decide)
  constructor
  · obtain ⟨u', hm, hid, hbb, -, hst, -, -⟩ :=
      hin { id := str "bbbb", status := stBlocked, blocked_by := [str "aaaa"],
            blocks := [str "cccc"] } (by decide) (by decide) (by decide)
    refine ⟨u', hm, hid, ?_, ?_⟩
    · rw [hst]; decide
    · rw [hbb]; decide
  · exact hout { id := str "cccc", status := stBlocked, blocked_by := [str "bbbb"] }
      (by decide) (by decide) (by decide)

/-! ## C7: cycle detection -/

theorem dfsRun_cons (succ : List Char → List (List Char))
    (deeper : List Char → List (List Char) → List (List Char) → List (List Char) →
      Option (Option (List (List Char)) × List (List Char)))
    (w : List Char) (ws visited recStack path : List (List Char)) :
    dfsRun succ deeper (w :: ws) visited recStack path =
      if w ∈ visited then
        if w ∈ recStack then
          (some (path.drop (path.indexOf w) ++ [w]), visited)
        else dfsRun succ deeper ws visited recStack path
      else
        match deeper w visited recStack path with
        | none => (none, visited)
        | some (some cyc, vis') => (some cyc, vis')
        | some (none, vis') => dfsRun succ deeper ws vis' recStack path := rfl

theorem dfsChildren_nil (succ : List Char → List (List Char)) (fuel : Nat)
    (visited recStack path : List (List Char)) :
    dfsChildren succ fuel [] visited recStack path = (none, visited) := rfl

theorem dfsChildren_stack (succ : List Char → List (List Char)) (fuel : Nat)
    (w : List Char) (ws visited recStack path : List (List Char))
    (hv : w ∈ visited) (hs : w ∈ recStack) :
    dfsChildren succ fuel (w :: ws) visited recStack path =
      (some (path.drop (path.indexOf w) ++ [w]), visited) := by
  show dfsRun succ (dfsFuel succ fuel) (w :: ws) visited recStack path = _
  rw [dfsRun_cons, if_pos hv, if_pos hs]

theorem dfsChildren_skip (succ : List Char → List (List Char)) (fuel : Nat)
    (w : List Char) (ws visited recStack path : List (List Char))
    (hv : w ∈ visited) (hs : w ∉ recStack) :
    dfsChildren succ fuel (w :: ws) visited recStack path =
      dfsChildren succ fuel ws visited recStack path := by
  show dfsRun succ (dfsFuel succ fuel) (w :: ws) visited recStack path =
    dfsRun succ (dfsFuel succ fuel) ws visited recStack path
  rw [dfsRun_cons, if_pos hv, if_neg hs]

theorem dfsChildren_zero (succ : List Char → List (List Char))
    (w : List Char) (ws visited recStack path : List (List Char))
    (hv : w ∉ visited) :
    dfsChildren succ 0 (w :: ws) visited recStack path = (none, visited) := by
  show dfsRun succ (dfsFuel succ 0) (w :: ws) visited recStack path = _
  rw [dfsRun_cons, if_neg hv]
  rw [show dfsFuel succ 0 w visited recStack path = none from rfl]

theorem dfsChildren_found (succ : List Char → List (List Char)) (fuel' : Nat)
    (w : List Char) (ws visited recStack path cyc vis' : List (List Char))
    (hv : w ∉ visited)
    (hsub : dfsChildren succ fuel' (succ w) (w :: visited) (w :: recStack) (path ++ [w]) =
      (some cyc, vis')) :
    dfsChildren succ (fuel' + 1) (w :: ws) visited recStack path = (some cyc, vis') := by
  have hsub2 : dfsRun succ (dfsFuel succ fuel') (succ w) (w :: visited) (w :: recStack)
      (path ++ [w]) = (some cyc, vis') := hsub
  show dfsRun succ (dfsFuel succ (fuel' + 1)) (w :: ws) visited recStack path = _
  rw [dfsRun_cons, if_neg hv]
  rw [show dfsFuel succ (fuel' + 1) w visited recStack path =
    some (dfsRun succ (dfsFuel succ fuel') (succ w) (w :: visited) (w :: recStack)
      (path ++ [w])) from rfl]
  rw [hsub2]

theorem dfsChildren_miss (succ : List Char → List (List Char)) (fuel' : Nat)
    (w : List Char) (ws visited recStack path vis' : List (List Char))
    (hv : w ∉ visited)
    (hsub : dfsChildren succ fuel' (succ w) (w :: visited) (w :: recStack) (path ++ [w]) =
      (none, vis')) :
    dfsChildren succ (fuel' + 1) (w :: ws) visited recStack path =
      dfsChildren succ (fuel' + 1) ws vis' recStack path := by
  have hsub2 : dfsRun succ (dfsFuel succ fuel') (succ w) (w :: visited) (w :: recStack)
      (path ++ [w]) = (none, vis') := hsub
  show dfsRun succ (dfsFuel succ (fuel' + 1)) (w :: ws) visited recStack path =
    dfsRun succ (dfsFuel succ (fuel' + 1)) ws vis' recStack path
  rw [dfsRun_cons, if_neg hv]
  rw [show dfsFuel succ (fuel' + 1) w visited recStack path =
    some (dfsRun succ (dfsFuel succ fuel') (succ w) (w :: visited) (w :: recStack)
      (path ++ [w])) from rfl]
  rw [hsub2]

theorem indexOf_lt_len : ∀ {path : List (List Char)} {w : List Char}, w ∈ path →
    path.indexOf w < path.length := by
  intro path
  induction path with
  | nil => intro w h; exact absurd h (List.not_mem_nil _)
  | cons a t ih =>
    intro w h
    rw [List.indexOf_cons]
    cases hba : a == w with
    | true => simp
    | false =>
      have hwt : w ∈ t := by
        rcases List.mem_cons.1 h with rfl | hwt
        · simp at hba
        · exact hwt
      have h2 := ih hwt
      simp only [cond_false, List.length_cons]
      omega

theorem getElem_indexOf_self : ∀ {path : List (List Char)} {w : List Char}
    (h : path.indexOf w < path.length), path.get ⟨path.indexOf w, h⟩ = w := by
  intro path
  induction path with
  | nil => intro w h; simp at h
  | cons a t ih =>
    intro w h
    rcases hba : a == w with - | -
    · have h2 : (a :: t).indexOf w = t.indexOf w + 1 := by
        rw [List.indexOf_cons, hba, cond_false]
      have h3 : t.indexOf w < t.length := by
        rw [h2] at h
        simp only [List.length_cons] at h
        omega
      have h4 := ih h3
      simp only [List.get_eq_getElem] at h4 ⊢
      rw [List.getElem_of_eq rfl h]
      simp only [h2, List.getElem_cons_succ]
      exact h4
    · have h2 : (a :: t).indexOf w = 0 := by
        rw [List.indexOf_cons, hba, cond_true]
      have haw : a = w := by simpa using hba
      simp only [List.get_eq_getElem]
      rw [List.getElem_of_eq rfl h]
      simp only [h2, List.getElem_cons_zero]
      exact haw

theorem isCycle_exit {succ : List Char → List (List Char)} {c : List (List Char)}
    (hc : IsCycle succ c) {v : List Char} (hv : v ∈ c) : ∃ w ∈ succ v, w ∈ c := by
  obtain ⟨hlen, hhl, hch⟩ := hc
  rw [List.chain'_iff_get] at hch
  obtain ⟨i, hi, hgi⟩ := List.mem_iff_getElem.1 hv
  by_cases hlt : i < c.length - 1
  · refine ⟨c.get ⟨i + 1, by omega⟩, ?_, List.get_mem _ _ _⟩
    have h1 := hch i hlt
    simp only [List.get_eq_getElem] at h1
    rw [hgi] at h1
    simpa using h1
  · have hieq : i = c.length - 1 := by omega
    subst hieq
    have h0 : c.get ⟨0, by omega⟩ = v := by
      have hh : c.head? = some (c.get ⟨0, by omega⟩) := by
        rw [List.head?_eq_getElem?]
        simp [List.getElem?_eq_getElem (by omega : 0 < c.length)]
      have hl : c.getLast? = some (c.get ⟨c.length - 1, by omega⟩) := by
        rw [List.getLast?_eq_getElem?]
        simp [List.getElem?_eq_getElem (by omega : c.length - 1 < c.length)]
      rw [hh, hl] at hhl
      have h2 := Option.some.inj hhl
      rw [h2]
      simp only [List.get_eq_getElem]
      exact hgi
    refine ⟨c.get ⟨1, by omega⟩, ?_, List.get_mem _ _ _⟩
    have h1 := hch 0 (by omega)
    rw [h0] at h1
    simpa using h1

theorem dfs_sound (succ : List Char → List (List Char)) :
    ∀ (fuel : Nat) (cs : List (List Char)), ∀ visited recStack path c visited',
      dfsChildren succ fuel cs visited recStack path = (some c, visited') →
      List.Chain' (fun a b => b ∈ succ a) path →
      (∀ x ∈ cs, (path = [] ∧ recStack = []) ∨
        ∃ l, path.getLast? = some l ∧ x ∈ succ l) →
      (∀ x ∈ recStack, x ∈ path) →
      IsCycle succ c := by
  intro fuel
  induction fuel using Nat.strong_induction_on with
  | _ fuel ihf =>
    intro cs
    induction cs with
    | nil =>
      intro visited recStack path c visited' hrun
      rw [dfsChildren_nil] at hrun
      exact absurd hrun (by simp)
    | cons w ws ihc =>
      intro visited recStack path c visited' hrun hch hsucc hstack
      by_cases hv : w ∈ visited
      · by_cases hs : w ∈ recStack
        · rw [dfsChildren_stack succ fuel w ws visited recStack path hv hs] at hrun
          injection hrun with hc1 hc2
          injection hc1 with hc1
          subst hc1
          -- the returned slice of the path closed with `w` is a cycle
          have hwp : w ∈ path := hstack w hs
          have hidx : path.indexOf w < path.length := indexOf_lt_len hwp
          have hgetw : path.get ⟨path.indexOf w, hidx⟩ = w := getElem_indexOf_self hidx
          have hdr : (path.drop (path.indexOf w)).length = path.length - path.indexOf w :=
            List.length_drop _ _
          have hdnn : path.drop (path.indexOf w) ≠ [] := by
            intro hne
            rw [← List.length_eq_zero] at hne
            omega
          rcases hsucc w (List.mem_cons_self w ws) with ⟨hpe, hre⟩ | ⟨l, hl, hwl⟩
          · rw [hre] at hs
            exact absurd hs (List.not_mem_nil w)
          refine ⟨?_, ?_, ?_⟩
          · have h1 : 1 ≤ (path.drop (path.indexOf w)).length := by
              rw [hdr]; omega
            simp only [List.length_append, List.length_cons, List.length_nil]
            omega
          · have hhead : (path.drop (path.indexOf w) ++ [w]).head? = some w := by
              rw [List.head?_append_of_ne_nil _ hdnn]
              rw [List.head?_eq_getElem?]
              rw [List.getElem?_drop]
              simp only [Nat.add_zero]
              rw [List.getElem?_eq_getElem hidx]
              simp only [List.get_eq_getElem] at hgetw
              rw [hgetw]
            have hlast : (path.drop (path.indexOf w) ++ [w]).getLast? = some w := by
              rw [List.getLast?_append_of_ne_nil _ (by simp)]
              rfl
            rw [hhead, hlast]
          · rw [List.chain'_append]
            refine ⟨hch.drop _, List.chain'_singleton w, ?_⟩
            intro x hx y hy
            simp only [List.head?_cons, Option.mem_def, Option.some.injEq] at hy
            subst hy
            have hgl : (path.drop (path.indexOf w)).getLast? = path.getLast? := by
              conv_rhs => rw [← List.take_append_drop (path.indexOf w) path]
              rw [List.getLast?_append_of_ne_nil _ hdnn]
            rw [hgl, hl] at hx
            simp only [Option.mem_def, Option.some.injEq] at hx
            subst hx
            exact hwl
        · rw [dfsChildren_skip succ fuel w ws visited recStack path hv hs] at hrun
          exact ihc visited recStack path c visited' hrun hch
            (fun x hx => hsucc x (List.mem_cons_of_mem _ hx)) hstack
      · cases fuel with
        | zero =>
          rw [dfsChildren_zero succ w ws visited recStack path hv] at hrun
          exact absurd hrun (by simp)
        | succ fuel' =>
          have hchw : List.Chain' (fun a b => b ∈ succ a) (path ++ [w]) := by
            rcases hsucc w (List.mem_cons_self w ws) with ⟨hpe, hre⟩ | ⟨l, hl, hwl⟩
            · rw [hpe]
              simpa using List.chain'_singleton w
            · rw [List.chain'_append]
              refine ⟨hch, List.chain'_singleton w, ?_⟩
              intro x hx y hy
              simp only [List.head?_cons, Option.mem_def, Option.some.injEq] at hy
              subst hy
              rw [hl] at hx
              simp only [Option.mem_def, Option.some.injEq] at hx
              subst hx
              exact hwl
          have hsuccw : ∀ x ∈ succ w, (path ++ [w] = [] ∧ w :: recStack = []) ∨
              ∃ m, (path ++ [w]).getLast? = some m ∧ x ∈ succ m := by
            intro x hx
            exact Or.inr ⟨w, by rw [List.getLast?_append_of_ne_nil _ (by simp)]; rfl, hx⟩
          have hstackw : ∀ x ∈ w :: recStack, x ∈ path ++ [w] := by
            intro x hx
            rcases List.mem_cons.1 hx with rfl | hx
            · simp
            · exact List.mem_append_left _ (hstack x hx)
          cases hsub : dfsChildren succ fuel' (succ w) (w :: visited) (w :: recStack)
              (path ++ [w]) with
          | mk oc vis' =>
            cases oc with
            | some cyc =>
              rw [dfsChildren_found succ fuel' w ws visited recStack path cyc vis' hv hsub]
                at hrun
              injection hrun with h1 h2
              injection h1 with h1
              subst h1
              exact ihf fuel' (by omega) (succ w) (w :: visited) (w :: recStack) (path ++ [w])
                _ vis' hsub hchw hsuccw hstackw
            | none =>
              rw [dfsChildren_miss succ fuel' w ws visited recStack path vis' hv hsub] at hrun
              exact ihc vis' recStack path c visited' hrun hch
                (fun x hx => hsucc x (List.mem_cons_of_mem _ hx)) hstack

theorem sdiff_insert_card {univ vt : Finset (List Char)} {w : List Char}
    (hw : w ∈ univ) (hnv : w ∉ vt) :
    (univ \ insert w vt).card + 1 = (univ \ vt).card := by
  have h1 : univ \ insert w vt = (univ \ vt).erase w := by
    ext x
    simp only [Finset.mem_sdiff, Finset.mem_erase, Finset.mem_insert]
    tauto
  rw [h1, Finset.card_erase_of_mem (Finset.mem_sdiff.2 ⟨hw, hnv⟩)]
  have h2 : 1 ≤ (univ \ vt).card :=
    Finset.card_pos.2 ⟨w, Finset.mem_sdiff.2 ⟨hw, hnv⟩⟩
  omega

theorem sdiff_card_mono {univ : Finset (List Char)} {v1 v2 : List (List Char)}
    (h : ∀ x ∈ v1, x ∈ v2) :
    (univ \ v2.toFinset).card ≤ (univ \ v1.toFinset).card := by
  apply Finset.card_le_card
  apply Finset.sdiff_subset_sdiff (Finset.Subset.refl univ)
  intro x hx
  rw [List.mem_toFinset] at hx ⊢
  exact h x hx

theorem dfs_complete (succ : List Char → List (List Char)) (univ : Finset (List Char))
    (hcl : ∀ x y, y ∈ succ x → y ∈ univ) :
    ∀ (fuel : Nat) (cs : List (List Char)), ∀ visited recStack path visited',
      dfsChildren succ fuel cs visited recStack path = (none, visited') →
      (∀ x ∈ cs, x ∈ univ) →
      (∀ x ∈ recStack, x ∈ visited) →
      (∀ u ∈ visited, u ∉ recStack → ∀ c, IsCycle succ c → u ∉ c) →
      (univ \ visited.toFinset).card < fuel →
      (∀ u ∈ visited, u ∈ visited') ∧
      (∀ x ∈ cs, x ∈ visited' ∧ x ∉ recStack) ∧
      (∀ u ∈ visited', u ∉ recStack → ∀ c, IsCycle succ c → u ∉ c) := by
  intro fuel
  induction fuel using Nat.strong_induction_on with
  | _ fuel ihf =>
    intro cs
    induction cs with
    | nil =>
      intro visited recStack path visited' hrun huniv hrv hblack hfuel
      rw [dfsChildren_nil] at hrun
      injection hrun with h1 h2
      subst h2
      exact ⟨fun u hu => hu, by simp, hblack⟩
    | cons w ws ihc =>
      intro visited recStack path visited' hrun huniv hrv hblack hfuel
      by_cases hv : w ∈ visited
      · by_cases hs : w ∈ recStack
        · rw [dfsChildren_stack succ fuel w ws visited recStack path hv hs] at hrun
          exact absurd hrun (by simp)
        · rw [dfsChildren_skip succ fuel w ws visited recStack path hv hs] at hrun
          obtain ⟨k1, k2, k3⟩ := ihc visited recStack path visited' hrun
            (fun x hx => huniv x (List.mem_cons_of_mem _ hx)) hrv hblack hfuel
          refine ⟨k1, ?_, k3⟩
          intro x hx
          rcases List.mem_cons.1 hx with rfl | hx
          · exact ⟨k1 x hv, hs⟩
          · exact k2 x hx
      · cases fuel with
        | zero => exact absurd hfuel (by omega)
        | succ fuel' =>
          have hwu : w ∈ univ := huniv w (List.mem_cons_self w ws)
          have hcard : (univ \ (w :: visited).toFinset).card + 1 =
              (univ \ visited.toFinset).card := by
            simp only [List.toFinset_cons]
            exact sdiff_insert_card hwu (by rw [List.mem_toFinset]; exact hv)
          cases hsub : dfsChildren succ fuel' (succ w) (w :: visited) (w :: recStack)
              (path ++ [w]) with
          | mk oc vis' =>
            cases oc with
            | some cyc =>
              rw [dfsChildren_found succ fuel' w ws visited recStack path cyc vis' hv hsub]
                at hrun
              exact absurd hrun (by simp)
            | none =>
              rw [dfsChildren_miss succ fuel' w ws visited recStack path vis' hv hsub] at hrun
              obtain ⟨k1, k2, k3⟩ := ihf fuel' (by omega) (succ w) (w :: visited)
                (w :: recStack) (path ++ [w]) vis' hsub
                (fun x hx => hcl w x hx)
                (fun x hx => by
                  rcases List.mem_cons.1 hx with rfl | hx
                  · exact List.mem_cons_self _ _
                  · exact List.mem_cons_of_mem _ (hrv x hx))
                (fun u hu hun c hc huc => by
                  rcases List.mem_cons.1 hu with rfl | hu
                  · exact absurd (List.mem_cons_self _ _) hun
                  · exact hblack u hu (fun hur => hun (List.mem_cons_of_mem _ hur)) c hc huc)
                (by omega)
              have hsafew : ∀ c, IsCycle succ c → w ∉ c := by
                intro c hc hwc
                obtain ⟨x, hxs, hxc⟩ := isCycle_exit hc hwc
                obtain ⟨hxv, hxns⟩ := k2 x hxs
                exact k3 x hxv hxns c hc hxc
              obtain ⟨m1, m2, m3⟩ := ihc vis' recStack path visited' hrun
                (fun x hx => huniv x (List.mem_cons_of_mem _ hx))
                (fun x hx => k1 x (List.mem_cons_of_mem _ (hrv x hx)))
                (fun u hu hun => by
                  by_cases huw : u = w
                  · subst huw
                    exact hsafew
                  · exact k3 u hu (fun hins => by
                      rcases List.mem_cons.1 hins with h | h
                      · exact huw h
                      · exact hun h))
                (by
                  have hmono := @sdiff_card_mono univ (w :: visited) vis' k1
                  omega)
              refine ⟨?_, ?_, m3⟩
              · intro u hu
                exact m1 u (k1 u (List.mem_cons_of_mem _ hu))
              · intro x hx
                rcases List.mem_cons.1 hx with rfl | hx
                · exact ⟨m1 x (k1 x (List.mem_cons_self _ _)), fun hxr => hv (hrv x hxr)⟩
                · exact m2 x hx

theorem dictKeys_go_mem : ∀ (tasks : List Task) (acc : List (List Char)) (x : List Char),
    x ∈ acc ∨ (∃ t ∈ tasks, t.id = x) →
    x ∈ tasks.foldl (fun ks t => if t.id ∈ ks then ks else ks ++ [t.id]) acc := by
  intro tasks
  induction tasks with
  | nil =>
    intro acc x h
    rcases h with h | ⟨t, ht, -⟩
    · exact h
    · exact absurd ht (List.not_mem_nil t)
  | cons t ts ih =>
    intro acc x h
    rw [List.foldl_cons]
    apply ih
    dsimp only
    by_cases hin : t.id ∈ acc
    · rw [if_pos hin]
      rcases h with h | ⟨u, hu, hux⟩
      · exact Or.inl h
      · rcases List.mem_cons.1 hu with rfl | hu
        · exact Or.inl (hux ▸ hin)
        · exact Or.inr ⟨u, hu, hux⟩
    · rw [if_neg hin]
      rcases h with h | ⟨u, hu, hux⟩
      · exact Or.inl (List.mem_append_left _ h)
      · rcases List.mem_cons.1 hu with rfl | hu
        · exact Or.inl (List.mem_append_right _ (by simp [hux]))
        · exact Or.inr ⟨u, hu, hux⟩

theorem dictKeys_mem {tasks : List Task} {t : Task} (h : t ∈ tasks) :
    t.id ∈ dictKeys tasks :=
  dictKeys_go_mem tasks [] t.id (Or.inr ⟨t, h, rfl⟩)

theorem dictKeys_go_sub : ∀ (tasks : List Task) (acc : List (List Char)) (x : List Char),
    x ∈ tasks.foldl (fun ks t => if t.id ∈ ks then ks else ks ++ [t.id]) acc →
    x ∈ acc ∨ ∃ t ∈ tasks, t.id = x := by
  intro tasks
  induction tasks with
  | nil => intro acc x h; exact Or.inl h
  | cons t ts ih =>
    intro acc x h
    rw [List.foldl_cons] at h
    try dsimp only at h
    by_cases hin : t.id ∈ acc
    · rw [if_pos hin] at h
      rcases ih acc x h with h | ⟨u, hu, hux⟩
      · exact Or.inl h
      · exact Or.inr ⟨u, List.mem_cons_of_mem _ hu, hux⟩
    · rw [if_neg hin] at h
      rcases ih (acc ++ [t.id]) x h with h | ⟨u, hu, hux⟩
      · rcases List.mem_append.1 h with h | h
        · exact Or.inl h
        · exact Or.inr ⟨t, List.mem_cons_self _ _, (List.mem_singleton.1 h).symm⟩
      · exact Or.inr ⟨u, List.mem_cons_of_mem _ hu, hux⟩

theorem fcd_fold_some (succ : List Char → List (List Char)) (fb : Nat) :
    ∀ (ks : List (List Char)) (cyc vis : List (List Char)),
      ks.foldl (fun st tid =>
        match st with
        | (some cyc, vis) => (some cyc, vis)
        | (none, vis) =>
          if tid ∈ vis then (none, vis)
          else dfsChildren succ fb [tid] vis [] []) (some cyc, vis) = (some cyc, vis) := by
  intro ks
  induction ks with
  | nil => intro cyc vis; rfl
  | cons k ks ih =>
    intro cyc vis
    rw [List.foldl_cons]
    exact ih cyc vis

theorem fcd_fold_sound (succ : List Char → List (List Char)) (fb : Nat) :
    ∀ (ks : List (List Char)) (vis cyc visF : List (List Char)),
      ks.foldl (fun st tid =>
        match st with
        | (some cyc, vis) => (some cyc, vis)
        | (none, vis) =>
          if tid ∈ vis then (none, vis)
          else dfsChildren succ fb [tid] vis [] []) (none, vis) = (some cyc, visF) →
      IsCycle succ cyc := by
  intro ks
  induction ks with
  | nil =>
    intro vis cyc visF h
    simp only [List.foldl_nil] at h
    exact absurd h (by simp)
  | cons k ks ih =>
    intro vis cyc visF h
    rw [List.foldl_cons] at h
    try dsimp only at h
    by_cases hk : k ∈ vis
    · rw [if_pos hk] at h
      exact ih vis cyc visF h
    · rw [if_neg hk] at h
      cases hd : dfsChildren succ fb [k] vis [] [] with
      | mk oc vis2 =>
        rw [hd] at h
        cases oc with
        | some c =>
          rw [fcd_fold_some] at h
          injection h with h1 h2
          injection h1 with h1
          subst h1
          exact dfs_sound succ fb [k] vis [] [] _ vis2 hd List.chain'_nil
            (fun x hx => Or.inl ⟨rfl, rfl⟩)
            (fun x hx => absurd hx (List.not_mem_nil x))
        | none => exact ih vis2 cyc visF h

theorem fcd_fold_none (succ : List Char → List (List Char)) (univ : Finset (List Char))
    (fb : Nat) (hcl : ∀ x y, y ∈ succ x → y ∈ univ) (hfb : univ.card < fb) :
    ∀ (ks : List (List Char)) (vis visF : List (List Char)),
      ks.foldl (fun st tid =>
        match st with
        | (some cyc, vis) => (some cyc, vis)
        | (none, vis) =>
          if tid ∈ vis then (none, vis)
          else dfsChildren succ fb [tid] vis [] []) (none, vis) = (none, visF) →
      (∀ k ∈ ks, k ∈ univ) →
      (∀ u ∈ vis, ∀ c, IsCycle succ c → u ∉ c) →
      (∀ u ∈ vis, u ∈ visF) ∧ (∀ k ∈ ks, k ∈ visF) ∧
      (∀ u ∈ visF, ∀ c, IsCycle succ c → u ∉ c) := by
  intro ks
  induction ks with
  | nil =>
    intro vis visF h hku hsafe
    simp only [List.foldl_nil] at h
    injection h with h1 h2
    subst h2
    exact ⟨fun u hu => hu, by simp, hsafe⟩
  | cons k ks ih =>
    intro vis visF h hku hsafe
    rw [List.foldl_cons] at h
    try dsimp only at h
    by_cases hk : k ∈ vis
    · rw [if_pos hk] at h
      obtain ⟨m1, m2, m3⟩ := ih vis visF h (fun x hx => hku x (List.mem_cons_of_mem _ hx)) hsafe
      refine ⟨m1, ?_, m3⟩
      intro x hx
      rcases List.mem_cons.1 hx with rfl | hx
      · exact m1 x hk
      · exact m2 x hx
    · rw [if_neg hk] at h
      cases hd : dfsChildren succ fb [k] vis [] [] with
      | mk oc vis2 =>
        rw [hd] at h
        cases oc with
        | some c =>
          rw [fcd_fold_some] at h
          exact absurd h (by simp)
        | none =>
          obtain ⟨k1, k2, k3⟩ := dfs_complete succ univ hcl fb [k] vis [] [] vis2 hd
            (fun x hx => by
              rcases List.mem_singleton.1 hx with rfl
              exact hku x (List.mem_cons_self _ _))
            (fun x hx => absurd hx (List.not_mem_nil x))
            (fun u hu hun => hsafe u hu)
            (lt_of_le_of_lt (Finset.card_le_card Finset.sdiff_subset) hfb)
          obtain ⟨m1, m2, m3⟩ := ih vis2 visF h (fun x hx => hku x (List.mem_cons_of_mem _ hx))
            (fun u hu => k3 u hu (List.not_mem_nil u))
          refine ⟨fun u hu => m1 u (k1 u hu), ?_, m3⟩
          intro x hx
          rcases List.mem_cons.1 hx with rfl | hx
          · exact m1 x (k2 x (List.mem_singleton_self x)).1
          · exact m2 x hx

/-- C7: `find_circular_dependencies` is a sound and complete cycle detector
for the `blocked_by` graph: any returned value is a non-empty ordered cycle
of the successor relation (consecutive entries are edges, first entry equal
to last), and when it returns nothing the graph has no cycle at all -- every
start key of every component is tried, and references to missing ids
contribute no edges and are skipped harmlessly. -/
theorem claim_C7 (tasks : List Task) :
    (∀ cyc, find_circular_dependencies tasks = some cyc →
      cyc ≠ [] ∧ IsCycle (succOf tasks) cyc) ∧
    (find_circular_dependencies tasks = none →
      ∀ cyc, ¬ IsCycle (succOf tasks) cyc) := by
  constructor
  · intro cyc hf
    unfold find_circular_dependencies at hf
    cases hst : (dictKeys tasks).foldl (fun st tid =>
      match st with
      | (some cyc, vis) => (some cyc, vis)
      | (none, vis) =>
        if tid ∈ vis then (none, vis)
        else dfsChildren (succOf tasks) (fuelBound tasks) [tid] vis [] []) (none, []) with
    | mk oc visF =>
      rw [hst] at hf
      have hoc : oc = some cyc := hf
      subst hoc
      have hic := fcd_fold_sound (succOf tasks) (fuelBound tasks) (dictKeys tasks)
        [] cyc visF hst
      refine ⟨?_, hic⟩
      intro hnil
      have hlen := hic.1
      rw [hnil] at hlen
      simp at hlen
  · intro hf cyc hic
    unfold find_circular_dependencies at hf
    cases hst : (dictKeys tasks).foldl (fun st tid =>
      match st with
      | (some cyc, vis) => (some cyc, vis)
      | (none, vis) =>
        if tid ∈ vis then (none, vis)
        else dfsChildren (succOf tasks) (fuelBound tasks) [tid] vis [] []) (none, []) with
    | mk oc visF =>
      rw [hst] at hf
      have hoc : oc = none := hf
      subst hoc
      have hcl : ∀ x y, y ∈ succOf tasks x →
          y ∈ (tasks.map Task.id ++ (tasks.map Task.blocked_by).flatten).toFinset := by
        intro x y hy
        unfold succOf at hy
        cases hd : dictGet tasks x with
        | none => rw [hd] at hy; exact absurd hy (List.not_mem_nil y)
        | some t =>
          rw [hd] at hy
          obtain ⟨htm, -⟩ := dictGet_some_mem hd
          rw [List.mem_toFinset]
          refine List.mem_append_right _ ?_
          rw [List.mem_flatten]
          exact ⟨t.blocked_by, List.mem_map_of_mem _ htm, hy⟩
      have hfb : (tasks.map Task.id ++ (tasks.map Task.blocked_by).flatten).toFinset.card <
          fuelBound tasks := by
        have h1 := List.toFinset_card_le
          (tasks.map Task.id ++ (tasks.map Task.blocked_by).flatten)
        rw [List.length_append, List.length_map, List.length_flatten] at h1
        have h2 : ((tasks.map Task.blocked_by).map List.length).sum =
            (tasks.map (fun t => t.blocked_by.length)).sum := by
          rw [List.map_map]
          rfl
        rw [h2] at h1
        unfold fuelBound
        omega
      have hkeys : ∀ k ∈ dictKeys tasks,
          k ∈ (tasks.map Task.id ++ (tasks.map Task.blocked_by).flatten).toFinset := by
        intro k hk
        rcases dictKeys_go_sub tasks [] k hk with h | ⟨t, ht, hti⟩
        · exact absurd h (List.not_mem_nil k)
        · rw [List.mem_toFinset]
          refine List.mem_append_left _ ?_
          rw [List.mem_map]
          exact ⟨t, ht, hti⟩
      obtain ⟨h1, h2, h3⟩ := fcd_fold_none (succOf tasks)
        (tasks.map Task.id ++ (tasks.map Task.blocked_by).flatten).toFinset
        (fuelBound tasks) hcl hfb (dictKeys tasks) [] visF hst hkeys
        (fun u hu => absurd hu (List.not_mem_nil u))
      have hnn : cyc ≠ [] := by
        intro he
        have hlen := hic.1
        rw [he] at hlen
        simp at hlen
      obtain ⟨v, hv⟩ := List.exists_mem_of_ne_nil cyc hnn
      obtain ⟨w, hws, hwc⟩ := isCycle_exit hic hv
      cases hd : dictGet tasks v with
      | none =>
        rw [show succOf tasks v = [] from by unfold succOf; rw [hd]] at hws
        exact absurd hws (List.not_mem_nil w)
      | some t =>
        obtain ⟨htm, hti⟩ := dictGet_some_mem hd
        have hvk : v ∈ dictKeys tasks := hti ▸ dictKeys_mem htm
        exact h3 v (h2 v hvk) cyc hic hv

theorem claim_C7_witness :
    find_circular_dependencies
      [({ id := str "x", blocked_by := [str "y"] } : Task),
       { id := str "y", blocked_by := [str "z"] },
       { id := str "z", blocked_by := [str "x"] }] =
      some [str "x", str "y", str "z", str "x"] ∧
    ([str "x", str "y", str "z", str "x"] ≠ ([] : List (List Char)) ∧
      IsCycle (succOf
        [({ id := str "x", blocked_by := [str "y"] } : Task),
         { id := str "y", blocked_by := [str "z"] },
         { id := str "z", blocked_by := [str "x"] }])
        [str "x", str "y", str "z", str "x"]) ∧
    find_circular_dependencies
      [({ id := str "a", blocked_by := [] } : Task),
       { id := str "b", blocked_by := [str "a"] }] = none ∧
    ¬ IsCycle (succOf
      [({ id := str "a", blocked_by := [] } : Task),
       { id := str "b", blocked_by := [str "a"] }]) [str "b", str "a", str "b"] :=
  ⟨by decide,
   (claim_C7
      [({ id := str "x", blocked_by := [str "y"] } : Task),
       { id := str "y", blocked_by := [str "z"] },
       { id := str "z", blocked_by := [str "x"] }]).1
     [str "x", str "y", str "z", str "x"] (by decide),
   by decide,
   (claim_C7
      [({ id := str "a", blocked_by := [] } : Task),
       { id := str "b", blocked_by := [str "a"] }]).2 (by decide)
     [str "b", str "a", str "b"]⟩

/-! ## The document round trip (claims C1 and C8) -/

theorem isPref_append_of_le (p x r : List Char) (h : p.length ≤ x.length) :
    isPref p (x ++ r) = isPref p x := by
  induction p generalizing x with
  | nil => rfl
  | cons c p ih =>
    cases x with
    | nil => simp at h
    | cons d x =>
      simp only [List.cons_append, isPref, List.append_eq]
      rw [ih x (by simpa using h)]

theorem isPref_get (p s : List Char) (h : isPref p s = true) :
    ∀ j, j < p.length → s[j]? = p[j]? := by
  induction p generalizing s with
  | nil => intro j hj; simp at hj
  | cons c p ih =>
    cases s with
    | nil => simp [isPref] at h
    | cons d s =>
      simp only [isPref, Bool.and_eq_true, decide_eq_true_eq] at h
      intro j hj
      cases j with
      | zero => simp [h.1]
      | succ j =>
        simp only [List.getElem?_cons_succ]
        exact ih s h.2 j (by simpa using hj)

theorem isPref_take (p x r : List Char) (hlt : x.length < p.length)
    (h : isPref p (x ++ r) = true) :
    x = p.take x.length ∧ isPref (p.drop x.length) r = true := by
  induction p generalizing x with
  | nil => simp at hlt
  | cons c p ih =>
    cases x with
    | nil => exact ⟨by simp, by simpa using h⟩
    | cons d x =>
      simp only [List.cons_append, isPref, Bool.and_eq_true, decide_eq_true_eq] at h
      obtain ⟨h1, h2⟩ := ih x (by simpa using hlt) h.2
      constructor
      · simp only [List.length_cons, List.take_succ_cons]
        rw [h.1, ← h1]
      · simpa using h2

theorem containsPat_of_drop (p s : List Char) (i : Nat)
    (h : isPref p (s.drop i) = true) : containsPat p s = true := by
  induction s generalizing i with
  | nil =>
    rw [List.drop_nil] at h
    simpa [containsPat] using h
  | cons c t ih =>
    cases i with
    | zero =>
      rw [List.drop_zero] at h
      simp [containsPat, h]
    | succ i =>
      rw [List.drop_succ_cons] at h
      simp [containsPat, ih i h]

theorem isPref_length_le (p s : List Char) (h : isPref p s = true) :
    p.length ≤ s.length := by
  induction p generalizing s with
  | nil => simp
  | cons c p ih =>
    cases s with
    | nil => simp [isPref] at h
    | cons d s =>
      simp only [isPref, Bool.and_eq_true] at h
      simpa using ih s h.2

theorem noCross_append (p a b rest : List Char) (h1 : NoCross p a (b ++ rest))
    (h2 : NoCross p b rest) : NoCross p (a ++ b) rest := by
  intro i hi
  by_cases hia : i < a.length
  · rw [List.drop_append_of_le_length (le_of_lt hia), List.append_assoc]
    exact h1 i hia
  · obtain ⟨j, rfl⟩ : ∃ j, i = a.length + j := ⟨i - a.length, by omega⟩
    rw [List.drop_append]
    refine h2 j ?_
    rw [List.length_append] at hi
    omega

theorem getElem?_append_drop (s rest : List Char) (i j : Nat) (h : i + j < s.length) :
    (s.drop i ++ rest)[j]? = s[i + j]? := by
  rw [List.getElem?_append_left (by rw [List.length_drop]; omega)]
  rw [List.getElem?_drop]

theorem mem_of_getElem? {s : List Char} {i : Nat} {c : Char} (h : s[i]? = some c) :
    c ∈ s := by
  have hi : i < s.length := by
    by_contra hge
    rw [List.getElem?_eq_none (by omega)] at h
    simp at h
  rw [List.getElem?_eq_getElem hi] at h
  rw [← Option.some.inj h]
  exact List.getElem_mem hi

theorem noCross_head (p s rest : List Char) (c : Char) (hp : p[0]? = some c)
    (hc : c ∉ s) : NoCross p s rest := by
  intro i hi
  cases hb : isPref p (s.drop i ++ rest) with
  | false => rfl
  | true =>
    exfalso
    have hplen : 0 < p.length := by
      by_contra hle
      rw [List.getElem?_eq_none (by omega)] at hp
      simp at hp
    have h0 := isPref_get _ _ hb 0 hplen
    rw [hp] at h0
    rw [getElem?_append_drop s rest i 0 (by omega)] at h0
    exact hc (mem_of_getElem? h0)

theorem noCross_snd_char (p v rest : List Char) (c1 r0 : Char)
    (hp : p[1]? = some c1) (hv : c1 ∉ v) (hr : rest[0]? = some r0)
    (hne : r0 ≠ c1) : NoCross p v rest := by
  intro i hi
  cases hb : isPref p (v.drop i ++ rest) with
  | false => rfl
  | true =>
    exfalso
    have hplen : 1 < p.length := by
      by_contra hle
      rw [List.getElem?_eq_none (by omega)] at hp
      simp at hp
    have h1 := isPref_get _ _ hb 1 hplen
    rw [hp] at h1
    by_cases hii : i + 1 < v.length
    · rw [getElem?_append_drop v rest i 1 (by omega)] at h1
      exact hv (mem_of_getElem? h1)
    · have hlen : (v.drop i).length = 1 := by rw [List.length_drop]; omega
      have he : (v.drop i ++ rest)[1]? = rest[1 - (v.drop i).length]? :=
        List.getElem?_append_right (by omega)
      rw [hlen] at he
      norm_num at he
      rw [he, hr] at h1
      exact hne (Option.some.inj h1)

theorem noCross_third_char (p v rest : List Char) (c1 c2 r0 : Char)
    (hp1 : p[1]? = some c1) (hp2 : p[2]? = some c2)
    (hv : c2 ∉ v) (hlast : v.getLast? ≠ some c1)
    (hr : rest[0]? = some r0) (hne : r0 ≠ c1) : NoCross p v rest := by
  intro i hi
  cases hb : isPref p (v.drop i ++ rest) with
  | false => rfl
  | true =>
    exfalso
    have hplen2 : 2 < p.length := by
      by_contra hle
      rw [List.getElem?_eq_none (by omega)] at hp2
      simp at hp2
    have h1 := isPref_get _ _ hb 1 (by omega)
    have h2 := isPref_get _ _ hb 2 hplen2
    rw [hp1] at h1
    rw [hp2] at h2
    by_cases hii : i + 2 < v.length
    · rw [getElem?_append_drop v rest i 2 (by omega)] at h2
      exact hv (mem_of_getElem? h2)
    · by_cases hij : i + 1 < v.length
      · rw [getElem?_append_drop v rest i 1 (by omega)] at h1
        have hlast2 : v.getLast? = some c1 := by
          rw [List.getLast?_eq_getElem?]
          rw [show v.length - 1 = i + 1 from by omega]
          exact h1
        exact hlast hlast2
      · have hlen : (v.drop i).length = 1 := by rw [List.length_drop]; omega
        have he : (v.drop i ++ rest)[1]? = rest[1 - (v.drop i).length]? :=
          List.getElem?_append_right (by omega)
        rw [hlen] at he
        norm_num at he
        rw [he, hr] at h1
        exact hne (Option.some.inj h1)

theorem isPref_false_of_dies (p x r : List Char) (h : patDiesWithin p x = true) :
    isPref p (x ++ r) = false := by
  induction p generalizing x with
  | nil => simp [patDiesWithin] at h
  | cons c p ih =>
    cases x with
    | nil => simp [patDiesWithin] at h
    | cons d x =>
      simp only [patDiesWithin, Bool.or_eq_true, Bool.not_eq_eq_eq_not, Bool.not_true,
        decide_eq_false_iff_not] at h
      simp only [List.cons_append, isPref, List.append_eq]
      rcases h with h | h
      · simp [h]
      · rw [ih x h]
        simp

theorem noCross_of_dies (p s rest : List Char) (h : patDiesIn p s = true) :
    NoCross p s rest := by
  intro i hi
  exact isPref_false_of_dies p (s.drop i) rest
    ((List.all_eq_true.1 h) i (List.mem_range.2 hi))

theorem noCross_general (p s rest : List Char) (hc : containsPat p s = false)
    (hb : ∀ k, 0 < k → k < p.length →
      isPref (p.drop k) rest = false ∨ s.drop (s.length - k) ≠ p.take k) :
    NoCross p s rest := by
  intro i hi
  cases hbp : isPref p (s.drop i ++ rest) with
  | false => rfl
  | true =>
    exfalso
    by_cases hk : p.length ≤ (s.drop i).length
    · rw [isPref_append_of_le _ _ _ hk] at hbp
      rw [containsPat_of_drop p s i hbp] at hc
      exact absurd hc (by simp)
    · have hlen : (s.drop i).length = s.length - i := List.length_drop _ _
      obtain ⟨hx, hp2⟩ := isPref_take p (s.drop i) rest (by omega) hbp
      rcases hb (s.length - i) (by omega) (by omega) with h | h
      · rw [hlen] at hp2
        rw [h] at hp2
        exact absurd hp2 (by simp)
      · apply h
        rw [show s.length - (s.length - i) = i from by omega]
        rw [hx, hlen]

theorem isPref_false_nlfree (p x r : List Char) (hp : Char.ofNat 10 ∉ p)
    (hr : r[0]? = some (Char.ofNat 10)) (hx : isPref p x = false) :
    isPref p (x ++ r) = false := by
  cases hb : isPref p (x ++ r) with
  | false => rfl
  | true =>
    exfalso
    by_cases hk : p.length ≤ x.length
    · rw [isPref_append_of_le _ _ _ hk] at hb
      rw [hb] at hx
      exact absurd hx (by simp)
    · obtain ⟨h1, h2⟩ := isPref_take p x r (by omega) hb
      have hg := isPref_get _ _ h2 0 (by rw [List.length_drop]; omega)
      rw [hr] at hg
      have hnl : Char.ofNat 10 ∈ p :=
        List.mem_of_mem_drop (mem_of_getElem? hg.symm)
      exact hp hnl

theorem plain_not_mem (v : List Char) (c : Char) (hv : plainStr v = true)
    (hc : plainChar c = false) : c ∉ v := by
  intro hm
  have := (List.all_eq_true.1 hv) c hm
  rw [hc] at this
  exact absurd this (by simp)

theorem plain_no_nl (v : List Char) (hv : plainStr v = true) : Char.ofNat 10 ∉ v :=
  plain_not_mem v _ hv (by decide)

/-! ## Shape (session header) machinery -/

theorem shapeAt_false_of_dies (ps : List (Char → Bool)) (x r : List Char)
    (h : shapeDiesWithin ps x = true) : shapeAt ps (x ++ r) = false := by
  induction ps generalizing x with
  | nil => simp [shapeDiesWithin] at h
  | cons p ps ih =>
    cases x with
    | nil => simp [shapeDiesWithin] at h
    | cons c x =>
      simp only [shapeDiesWithin, Bool.or_eq_true, Bool.not_eq_eq_eq_not, Bool.not_true] at h
      simp only [List.cons_append, shapeAt, List.append_eq]
      rcases h with h | h
      · simp [h]
      · rw [ih x h]
        simp

theorem noShapeCross_of_dies (s rest : List Char) (h : noShapeIn s = true) :
    NoShapeCross s rest := by
  intro i hi
  exact shapeAt_false_of_dies _ (s.drop i) rest
    ((List.all_eq_true.1 h) i (List.mem_range.2 hi))

theorem noShapeCross_append (a b rest : List Char) (h1 : NoShapeCross a (b ++ rest))
    (h2 : NoShapeCross b rest) : NoShapeCross (a ++ b) rest := by
  intro i hi
  by_cases hia : i < a.length
  · rw [List.drop_append_of_le_length (le_of_lt hia), List.append_assoc]
    exact h1 i hia
  · obtain ⟨j, rfl⟩ : ∃ j, i = a.length + j := ⟨i - a.length, by omega⟩
    rw [List.drop_append]
    refine h2 j ?_
    rw [List.length_append] at hi
    omega

theorem shapeAt_head (p : Char → Bool) (ps : List (Char → Bool)) (c : Char) (t : List Char)
    (h : shapeAt (p :: ps) (c :: t) = true) : p c = true ∧ shapeAt ps t = true := by
  simpa [shapeAt] using h

theorem noShapeCross_no_hash (s rest : List Char) (h : '#' ∉ s) :
    NoShapeCross s rest := by
  intro i hi
  cases hb : sessHeaderAt (s.drop i ++ rest) with
  | false => rfl
  | true =>
    exfalso
    have hd : ∃ c t, s.drop i ++ rest = c :: t ∧ c ∈ s := by
      have hne : s.drop i ≠ [] := by
        intro he
        rw [← List.length_eq_zero] at he
        rw [List.length_drop] at he
        omega
      cases hdi : s.drop i with
      | nil => exact absurd hdi hne
      | cons c t =>
        refine ⟨c, t ++ rest, by simp, ?_⟩
        have : c ∈ s.drop i := by rw [hdi]; exact List.mem_cons_self _ _
        exact List.mem_of_mem_drop this
    obtain ⟨c, t, he, hcm⟩ := hd
    rw [he] at hb
    unfold sessHeaderAt sessHeaderSlots at hb
    obtain ⟨h1, -⟩ := shapeAt_head _ _ _ _ hb
    simp only [decide_eq_true_eq] at h1
    rw [h1] at hcm
    exact h hcm

theorem shapeAt_of_le (ps : List (Char → Bool)) (x r : List Char)
    (h : ps.length ≤ x.length) : shapeAt ps (x ++ r) = shapeAt ps x := by
  induction ps generalizing x with
  | nil => rfl
  | cons p ps ih =>
    cases x with
    | nil => simp at h
    | cons c x =>
      simp only [List.cons_append, shapeAt, List.append_eq]
      rw [ih x (by simpa using h)]

theorem shapeAt_take (ps : List (Char → Bool)) (x r : List Char)
    (h : shapeAt ps (x ++ r) = true) (hlt : x.length < ps.length) :
    shapeAt (ps.drop x.length) r = true := by
  induction ps generalizing x with
  | nil => simp at hlt
  | cons p ps ih =>
    cases x with
    | nil => simpa using h
    | cons c x =>
      simp only [List.cons_append, shapeAt, Bool.and_eq_true] at h
      simpa using ih x h.2 (by simpa using hlt)

theorem containsSessHeader_of_drop (s : List Char) (i : Nat)
    (h : sessHeaderAt (s.drop i) = true) : containsSessHeader s = true := by
  induction s generalizing i with
  | nil =>
    rw [List.drop_nil] at h
    unfold sessHeaderAt at h
    simp [shapeAt, sessHeaderSlots] at h
  | cons c t ih =>
    cases i with
    | zero =>
      rw [List.drop_zero] at h
      simp [containsSessHeader, h]
    | succ i =>
      rw [List.drop_succ_cons] at h
      simp [containsSessHeader, ih i h]

theorem slots_reject_nl : sessHeaderSlots.all (fun p => !(p (Char.ofNat 10))) = true := by
  decide

theorem shapeAt_nil_false (ps : List (Char → Bool)) (h : ps ≠ []) :
    shapeAt ps [] = false := by
  cases ps with
  | nil => exact absurd rfl h
  | cons p ps => rfl

theorem noShapeCross_contains (s rest : List Char) (hc : containsSessHeader s = false)
    (hr : rest[0]? = some (Char.ofNat 10) ∨ rest = []) : NoShapeCross s rest := by
  intro i hi
  cases hb : sessHeaderAt (s.drop i ++ rest) with
  | false => rfl
  | true =>
    exfalso
    unfold sessHeaderAt at hb
    by_cases hk : sessHeaderSlots.length ≤ (s.drop i).length
    · rw [shapeAt_of_le _ _ _ hk] at hb
      rw [containsSessHeader_of_drop s i hb] at hc
      exact absurd hc (by simp)
    · have h2 := shapeAt_take _ _ _ hb (by omega)
      have hdne : sessHeaderSlots.drop (s.drop i).length ≠ [] := by
        intro he
        rw [← List.length_eq_zero] at he
        rw [List.length_drop] at he
        omega
      rcases hr with hr | hr
      · cases hds : sessHeaderSlots.drop (s.drop i).length with
        | nil => exact absurd hds hdne
        | cons q qs =>
          rw [hds] at h2
          cases rest with
          | nil => simp at hr
          | cons r0 rt =>
            simp only [List.getElem?_cons_zero] at hr
            obtain ⟨hq, -⟩ := shapeAt_head _ _ _ _ h2
            have hqm : q ∈ sessHeaderSlots := by
              have : q ∈ sessHeaderSlots.drop (s.drop i).length := by
                rw [hds]; exact List.mem_cons_self _ _
              exact List.mem_of_mem_drop this
            have := (List.all_eq_true.1 slots_reject_nl) q hqm
            rw [Option.some.inj hr] at hq
            rw [hq] at this
            simp at this
      · rw [hr] at h2
        rw [shapeAt_nil_false _ hdne] at h2
        exact absurd h2 (by simp)

/-! ## joinComma facts -/

theorem joinComma_mem (l : List (List Char)) (c : Char) (h : c ∈ joinComma l) :
    (∃ x ∈ l, c ∈ x) ∨ c = ',' ∨ c = ' ' := by
  induction l with
  | nil => simp [joinComma] at h
  | cons x ys ih =>
    cases ys with
    | nil =>
      simp only [joinComma] at h
      exact Or.inl ⟨x, List.mem_cons_self _ _, h⟩
    | cons y zs =>
      simp only [joinComma, List.append_assoc, List.mem_append] at h
      rcases h with h | h
      · exact Or.inl ⟨x, List.mem_cons_self _ _, h⟩
      rcases h with h | h
      · simp only [str] at h
        rcases List.mem_cons.1 h with rfl | h
        · exact Or.inr (Or.inl rfl)
        · rcases List.mem_cons.1 h with rfl | h
          · exact Or.inr (Or.inr rfl)
          · exact absurd h (List.not_mem_nil c)
      · rcases ih h with ⟨z, hz, hcz⟩ | h
        · exact Or.inl ⟨z, List.mem_cons_of_mem _ hz, hcz⟩
        · exact Or.inr h

theorem joinComma_not_mem (l : List (List Char)) (c : Char)
    (hall : ∀ x ∈ l, plainStr x = true) (hc : plainChar c = false)
    (h1 : c ≠ ',') (h2 : c ≠ ' ') : c ∉ joinComma l := by
  intro hm
  rcases joinComma_mem l c hm with ⟨x, hx, hcx⟩ | h | h
  · exact absurd ((List.all_eq_true.1 (hall x hx)) c hcx) (by rw [hc]; simp)
  · exact h1 h
  · exact h2 h

theorem joinComma_getLast_plain (l : List (List Char))
    (hall : ∀ x ∈ l, plainStr x = true ∧ x ≠ []) :
    joinComma l = [] ∨ ∃ c, (joinComma l).getLast? = some c ∧ plainChar c = true := by
  induction l with
  | nil => exact Or.inl rfl
  | cons x ys ih =>
    cases ys with
    | nil =>
      obtain ⟨hx, hne⟩ := hall x (List.mem_cons_self _ _)
      refine Or.inr ?_
      obtain ⟨c, hc⟩ := Option.isSome_iff_exists.1
        (List.getLast?_isSome.2 (by simpa [joinComma] using hne))
      refine ⟨c, hc, ?_⟩
      have hcm : c ∈ joinComma [x] := by
        rw [List.getLast?_eq_getElem?] at hc
        exact mem_of_getElem? hc
      simp only [joinComma] at hcm
      exact (List.all_eq_true.1 hx) c hcm
    | cons y zs =>
      rcases ih (fun z hz => hall z (List.mem_cons_of_mem _ hz)) with h | ⟨c, hc, hpc⟩
      · exfalso
        have hyne := (hall y (List.mem_cons_of_mem _ (List.mem_cons_self _ _))).2
        cases zs with
        | nil =>
          simp only [joinComma] at h
          exact hyne h
        | cons z zs2 =>
          simp only [joinComma] at h
          rcases List.append_eq_nil.1 h with ⟨h0, -⟩
          rcases List.append_eq_nil.1 h0 with ⟨-, h2⟩
          simp [str] at h2
      · refine Or.inr ⟨c, ?_, hpc⟩
        simp only [joinComma]
        rw [List.getLast?_append_of_ne_nil]
        · exact hc
        · intro he
          rw [he] at hc
          simp at hc

/-! ## pyStrip facts -/

theorem plain_no_ws (c : Char) (h : plainChar c = true) : isWs c = false := by
  cases hw : isWs c with
  | false => rfl
  | true =>
    exfalso
    have h6 : c = ' ' ∨ c = '\t' ∨ c = '\n' ∨ c = '\r' ∨ c = '\x0b' ∨ c = '\x0c' := by
      simp only [isWs, Bool.or_eq_true, decide_eq_true_eq] at hw
      tauto
    rcases h6 with rfl | rfl | rfl | rfl | rfl | rfl <;> exact absurd h (by decide)

theorem dropWhile_self_of (v : List Char) (h : ∀ c ∈ v, isWs c = false) :
    List.dropWhile isWs v = v := by
  rw [List.dropWhile_eq_self_iff]
  intro hx
  have h2 := h (v.get ⟨0, hx⟩) (List.get_mem _ _ _)
  simpa using h2

theorem pyStrip_of_no_ws (v : List Char) (h : ∀ c ∈ v, isWs c = false) :
    pyStrip v = v := by
  unfold pyStrip
  rw [dropWhile_self_of v h]
  rw [dropWhile_self_of v.reverse (fun c hc => h c (List.mem_reverse.1 hc))]
  exact List.reverse_reverse v

theorem pyStrip_plain (v : List Char) (h : plainStr v = true) : pyStrip v = v :=
  pyStrip_of_no_ws v (fun c hc => plain_no_ws c ((List.all_eq_true.1 h) c hc))

theorem joinComma_head_plain (l : List (List Char))
    (hall : ∀ x ∈ l, plainStr x = true ∧ x ≠ []) :
    joinComma l = [] ∨ ∃ c, (joinComma l)[0]? = some c ∧ plainChar c = true := by
  cases l with
  | nil => exact Or.inl rfl
  | cons x ys =>
    obtain ⟨hx, hne⟩ := hall x (List.mem_cons_self _ _)
    refine Or.inr ?_
    cases hxv : x with
    | nil => exact absurd hxv hne
    | cons c t =>
      refine ⟨c, ?_, ?_⟩
      · cases ys with
        | nil => simp [joinComma, hxv]
        | cons y zs => simp [joinComma, hxv]
      · apply (List.all_eq_true.1 hx)
        rw [hxv]
        exact List.mem_cons_self _ _

theorem pyStrip_ends (v : List Char)
    (h1 : ∀ c, v[0]? = some c → isWs c = false)
    (h2 : ∀ c, v.getLast? = some c → isWs c = false) : pyStrip v = v := by
  have hin : List.dropWhile isWs v = v := by
    rw [List.dropWhile_eq_self_iff]
    intro hx
    have hg : v[0]? = some (v.get ⟨0, hx⟩) := by
      rw [List.getElem?_eq_getElem hx]
      simp
    have h3 := h1 _ hg
    simpa using h3
  have hout : List.dropWhile isWs v.reverse = v.reverse := by
    rw [List.dropWhile_eq_self_iff]
    intro hx
    have hlen : 0 < v.length := by simpa using hx
    have hg0 : v.reverse.get ⟨0, hx⟩ = v.get ⟨v.length - 1, by omega⟩ := by
      simp only [List.get_eq_getElem, List.getElem_reverse, Nat.sub_zero]
    have hgl : v.getLast? = some (v.get ⟨v.length - 1, by omega⟩) := by
      rw [List.getLast?_eq_getElem?]
      rw [List.getElem?_eq_getElem (by omega : v.length - 1 < v.length)]
      simp
    have h3 := h2 _ hgl
    rw [hg0]
    simpa using h3
  unfold pyStrip
  rw [hin, hout]
  exact List.reverse_reverse v

theorem pyStrip_join (l : List (List Char)) (hall : ∀ x ∈ l, plainStr x = true ∧ x ≠ []) :
    pyStrip (joinComma l) = joinComma l := by
  rcases joinComma_head_plain l hall with he | ⟨c0, hc0, hp0⟩
  · rw [he]; rfl
  rcases joinComma_getLast_plain l hall with he | ⟨cl, hcl, hpl⟩
  · rw [he]; rfl
  apply pyStrip_ends
  · intro c hc
    rw [hc0] at hc
    rw [← Option.some.inj hc]
    exact plain_no_ws c0 hp0
  · intro c hc
    rw [hcl] at hc
    rw [← Option.some.inj hc]
    exact plain_no_ws cl hpl

/-- Strip of a space-then-clean-value tail. -/
theorem pyStrip_sp (v : List Char) (h : ∀ c ∈ v, isWs c = false) (hne : v ≠ []) :
    pyStrip (' ' :: v) = v := by
  unfold pyStrip
  rw [List.dropWhile_cons_of_pos (by rfl)]
  rw [dropWhile_self_of v h]
  rw [dropWhile_self_of v.reverse (fun c hc => h c (List.mem_reverse.1 hc))]
  exact List.reverse_reverse v

theorem pyStrip_head_ne (c : Char) (t : List Char) (hw : isWs c = false) :
    ∃ u, pyStrip (c :: t) = c :: u := by
  unfold pyStrip
  rw [List.dropWhile_cons_of_neg (by rw [hw]; simp)]
  have hr : (c :: t).reverse = t.reverse ++ [c] := by simp
  rw [hr, List.dropWhile_append]
  by_cases he : (List.dropWhile isWs t.reverse).isEmpty
  · rw [if_pos he]
    refine ⟨[], ?_⟩
    rw [List.dropWhile_cons_of_neg (by rw [hw]; simp)]
    simp
  · rw [if_neg he]
    refine ⟨(List.dropWhile isWs t.reverse).reverse, ?_⟩
    simp

/-! ## splitOnChar facts -/

theorem splitOnChar_cons (c d : Char) (t : List Char) :
    splitOnChar c (d :: t) =
      if d = c then [] :: splitOnChar c t
      else
        match splitOnChar c t with
        | [] => [[d]]
        | l :: ls => (d :: l) :: ls := rfl

theorem splitOnChar_ne_nil (c : Char) (s : List Char) : splitOnChar c s ≠ [] := by
  cases s with
  | nil => simp [splitOnChar]
  | cons d t =>
    rw [splitOnChar_cons]
    by_cases hd : d = c
    · rw [if_pos hd]; simp
    · rw [if_neg hd]
      cases splitOnChar c t with
      | nil => simp
      | cons l ls => simp

theorem splitOnChar_sep (c : Char) (a b : List Char) :
    splitOnChar c (a ++ c :: b) = splitOnChar c a ++ splitOnChar c b := by
  induction a with
  | nil =>
    show splitOnChar c (c :: b) = splitOnChar c [] ++ splitOnChar c b
    rw [splitOnChar_cons, if_pos rfl]
    rfl
  | cons d t ih =>
    show splitOnChar c (d :: (t ++ c :: b)) = splitOnChar c (d :: t) ++ splitOnChar c b
    rw [splitOnChar_cons, splitOnChar_cons]
    by_cases hd : d = c
    · rw [if_pos hd, if_pos hd, ih]
      rfl
    · rw [if_neg hd, if_neg hd, ih]
      cases hs : splitOnChar c t with
      | nil => exact absurd hs (splitOnChar_ne_nil c t)
      | cons l ls => rfl

theorem splitOnChar_no_sep (c : Char) (s : List Char) (h : c ∉ s) :
    splitOnChar c s = [s] := by
  induction s with
  | nil => rfl
  | cons d t ih =>
    rw [splitOnChar_cons]
    rw [if_neg (by intro he; exact h (by rw [he]; exact List.mem_cons_self _ _))]
    rw [ih (fun hm => h (List.mem_cons_of_mem _ hm))]

/-! ## takeUntilPat facts -/

theorem isPref_self_append (p r : List Char) : isPref p (p ++ r) = true := by
  induction p with
  | nil => rfl
  | cons c t ih => simpa [isPref] using ih

theorem takeUntilPat_cons (pat : List Char) (c : Char) (t : List Char) :
    takeUntilPat pat (c :: t) =
      if isPref pat (c :: t) then some []
      else (takeUntilPat pat t).map (fun g => c :: g) := rfl

theorem takeUntil_exact (p s r : List Char) (hp : p ≠ [])
    (h : NoCross p s (p ++ r)) : takeUntilPat p (s ++ (p ++ r)) = some s := by
  induction s with
  | nil =>
    cases p with
    | nil => exact absurd rfl hp
    | cons c t =>
      show takeUntilPat (c :: t) (c :: (t ++ r)) = some []
      have hpref : isPref (c :: t) (c :: (t ++ r)) = true := by
        have h2 := isPref_self_append (c :: t) r
        simpa using h2
      rw [takeUntilPat_cons, if_pos hpref]
  | cons c t ih =>
    have h0 := h 0 (by simp)
    rw [List.drop_zero, List.cons_append] at h0
    show takeUntilPat p (c :: (t ++ (p ++ r))) = some (c :: t)
    rw [takeUntilPat_cons, if_neg (by rw [h0]; simp)]
    rw [ih (fun i hi => by
      have h2 := h (i + 1) (by simpa using Nat.succ_lt_succ hi)
      rwa [List.drop_succ_cons] at h2)]
    rfl

theorem takeUntil_nl (title r : List Char) (h : Char.ofNat 10 ∉ title) :
    takeUntilPat [Char.ofNat 10] (title ++ Char.ofNat 10 :: r) = some title := by
  have h2 := takeUntil_exact [Char.ofNat 10] title r (by simp)
    (noCross_head _ _ _ (Char.ofNat 10) rfl h)
  simpa using h2

theorem splitNL_eq (title r : List Char) (h : Char.ofNat 10 ∉ title) :
    splitNL (title ++ Char.ofNat 10 :: r) = some (title, r) := by
  unfold splitNL
  rw [takeUntil_nl title r h]
  have hd : (title ++ Char.ofNat 10 :: r).drop (title.length + 1) = r := by
    rw [List.drop_append]
    rfl
  simp [hd]

/-! ## takeBody -/

theorem takeBody_cons (c : Char) (t : List Char) :
    takeBody (c :: t) =
      if bodyStop (c :: t) then ([], c :: t)
      else (c :: (takeBody t).1, (takeBody t).2) := rfl

theorem takeBody_append (s rest : List Char)
    (h : ∀ i, i < s.length → bodyStop (s.drop i ++ rest) = false) :
    takeBody (s ++ rest) = (s ++ (takeBody rest).1, (takeBody rest).2) := by
  induction s with
  | nil => simp
  | cons c t ih =>
    have h0 := h 0 (by simp)
    rw [List.drop_zero, List.cons_append] at h0
    show takeBody (c :: (t ++ rest)) = _
    rw [takeBody_cons, if_neg (by rw [h0]; simp)]
    rw [ih (fun i hi => by
      have h2 := h (i + 1) (by simpa using Nat.succ_lt_succ hi)
      rwa [List.drop_succ_cons] at h2)]
    rfl

/-! ## Scanner skip and match lemmas -/

theorem findChecked_cons (c : Char) (t : List Char) :
    findChecked (c :: t) =
      if isPref checkboxPat (c :: t) then
        let g := ((c :: t).drop 6).takeWhile (fun x => x ≠ Char.ofNat 10)
        if g = [] then findChecked t else some g
      else findChecked t := rfl

theorem findChecked_skip (s rest : List Char) (h : NoCross checkboxPat s rest) :
    findChecked (s ++ rest) = findChecked rest := by
  induction s with
  | nil => rfl
  | cons c t ih =>
    have h0 := h 0 (by simp)
    rw [List.drop_zero, List.cons_append] at h0
    show findChecked (c :: (t ++ rest)) = findChecked rest
    rw [findChecked_cons, if_neg (by rw [h0]; simp)]
    exact ih (fun i hi => by
      have h2 := h (i + 1) (by simpa using Nat.succ_lt_succ hi)
      rwa [List.drop_succ_cons] at h2)

theorem findDescXml_cons (c : Char) (t : List Char) :
    findDescXml (c :: t) =
      if isPref descOpenPat (c :: t) then
        match takeUntilPat descClosePat ((c :: t).drop 30) with
        | some g => some g
        | none => findDescXml t
      else findDescXml t := rfl

theorem findDescXml_skip (s rest : List Char) (h : NoCross descOpenPat s rest) :
    findDescXml (s ++ rest) = findDescXml rest := by
  induction s with
  | nil => rfl
  | cons c t ih =>
    have h0 := h 0 (by simp)
    rw [List.drop_zero, List.cons_append] at h0
    show findDescXml (c :: (t ++ rest)) = findDescXml rest
    rw [findDescXml_cons, if_neg (by rw [h0]; simp)]
    exact ih (fun i hi => by
      have h2 := h (i + 1) (by simpa using Nat.succ_lt_succ hi)
      rwa [List.drop_succ_cons] at h2)

theorem findDescXml_found (desc r : List Char)
    (hc : NoCross descClosePat desc (descClosePat ++ r)) :
    findDescXml (descOpenPat ++ (desc ++ (descClosePat ++ r))) = some desc := by
  have hto := takeUntil_exact descClosePat desc r (by simp [descClosePat, str]) hc
  show findDescXml ('#' :: (str "# Description\n\n<description>\n" ++
    (desc ++ (descClosePat ++ r)))) = some desc
  rw [findDescXml_cons]
  rw [if_pos (show isPref descOpenPat ('#' :: (str "# Description\n\n<description>\n" ++
    (desc ++ (descClosePat ++ r)))) = true from
    isPref_self_append descOpenPat (desc ++ (descClosePat ++ r)))]
  rw [show (('#' :: (str "# Description\n\n<description>\n" ++
      (desc ++ (descClosePat ++ r)))).drop 30) = desc ++ (descClosePat ++ r) from by
    show (descOpenPat ++ (desc ++ (descClosePat ++ r))).drop descOpenPat.length = _
    rw [List.drop_left]]
  rw [hto]

theorem sessionsXml_zero (s : List Char) : sessionsXml 0 s = [] := by
  cases s <;> rfl

theorem sessionsXml_nil (fuel : Nat) : sessionsXml fuel [] = [] := by
  cases fuel <;> rfl

theorem sessionsXml_cons (fuel : Nat) (c : Char) (t : List Char) :
    sessionsXml (fuel + 1) (c :: t) =
      if sessHeaderAt (c :: t) then
        match takeUntilPat logOpenPat ((c :: t).drop 15) with
        | some g1 =>
          match takeUntilPat logClosePat (((c :: t).drop 15).drop (g1.length + 7)) with
          | some g2 =>
            { timestamp := ((c :: t).drop 4).take (11 + g1.length), log := pyStrip g2 }
              :: sessionsXml fuel ((((c :: t).drop 15).drop (g1.length + 7)).drop (g2.length + 7))
          | none => sessionsXml fuel t
        | none => sessionsXml fuel t
      else sessionsXml fuel t := rfl

theorem sessionsXml_skip (s : List Char) : ∀ (fuel : Nat) (rest : List Char),
    NoShapeCross s rest →
    sessionsXml (s.length + fuel) (s ++ rest) = sessionsXml fuel rest := by
  induction s with
  | nil =>
    intro fuel rest h
    rw [List.length_nil, Nat.zero_add, List.nil_append]
  | cons c t ih =>
    intro fuel rest h
    have h0 := h 0 (by simp)
    rw [List.drop_zero, List.cons_append] at h0
    rw [List.length_cons, List.cons_append,
      show t.length + 1 + fuel = t.length + fuel + 1 from by omega]
    show sessionsXml (t.length + fuel + 1) (c :: (t ++ rest)) = sessionsXml fuel rest
    rw [sessionsXml_cons, if_neg (by rw [h0]; simp)]
    exact ih fuel rest (fun i hi => by
      have h2 := h (i + 1) (by simpa using Nat.succ_lt_succ hi)
      rwa [List.drop_succ_cons] at h2)

theorem sessionsLegacy_nil (fuel : Nat) : sessionsLegacy fuel [] = [] := by
  cases fuel <;> rfl

theorem sessionsLegacy_cons (fuel : Nat) (c : Char) (t : List Char) :
    sessionsLegacy (fuel + 1) (c :: t) =
      if sessHeaderAt (c :: t) then
        match takeUntilPat [Char.ofNat 10] ((c :: t).drop 15) with
        | some g1 =>
          { timestamp := ((c :: t).drop 4).take (11 + g1.length),
            log := pyStrip (takeToLegacySessStop (((c :: t).drop 15).drop (g1.length + 1))) }
            :: sessionsLegacy fuel ((((c :: t).drop 15).drop (g1.length + 1)).drop
              (takeToLegacySessStop (((c :: t).drop 15).drop (g1.length + 1))).length)
        | none => sessionsLegacy fuel t
      else sessionsLegacy fuel t := rfl

theorem sessionsLegacy_skip (s : List Char) : ∀ (fuel : Nat) (rest : List Char),
    NoShapeCross s rest →
    sessionsLegacy (s.length + fuel) (s ++ rest) = sessionsLegacy fuel rest := by
  induction s with
  | nil =>
    intro fuel rest h
    rw [List.length_nil, Nat.zero_add, List.nil_append]
  | cons c t ih =>
    intro fuel rest h
    have h0 := h 0 (by simp)
    rw [List.drop_zero, List.cons_append] at h0
    rw [List.length_cons, List.cons_append,
      show t.length + 1 + fuel = t.length + fuel + 1 from by omega]
    show sessionsLegacy (t.length + fuel + 1) (c :: (t ++ rest)) = sessionsLegacy fuel rest
    rw [sessionsLegacy_cons, if_neg (by rw [h0]; simp)]
    exact ih fuel rest (fun i hi => by
      have h2 := h (i + 1) (by simpa using Nat.succ_lt_succ hi)
      rwa [List.drop_succ_cons] at h2)

/-! ## applyMetaLine evaluation -/

theorem containsPat_mid (p a T : List Char) : containsPat p (a ++ (p ++ T)) = true := by
  apply containsPat_of_drop p _ a.length
  rw [List.drop_left]
  exact isPref_self_append p T

theorem metaGuard_mid (a T : List Char) (ha : isPref (str "**") a = true)
    (hlen : (str "**").length ≤ a.length) :
    metaGuard (a ++ (str "**:" ++ T)) = true := by
  unfold metaGuard
  rw [isPref_append_of_le _ _ _ hlen, ha, containsPat_mid]
  rfl

theorem applyMetaLine_shape (t : Task) (raw : List Char) :
    applyMetaLine t raw =
      (if metaGuard (pyStrip raw) then
        let fv := metaFieldValue (pyStrip raw)
        let cleanKey := (pyLower fv.1).map (fun c => if c = ' ' then '_' else c)
        if cleanKey = str "blocks" then { t with blocks := parseCommaList fv.2 }
        else if cleanKey = str "blocked_by" then { t with blocked_by := parseCommaList fv.2 }
        else
          let finalKey :=
            if cleanKey = str "created" then str "created_at"
            else if cleanKey = str "updated" then str "updated_at"
            else cleanKey
          if finalKey = str "id" then { t with id := fv.2 }
          else if finalKey = str "created_at" then { t with created_at := fv.2 }
          else if finalKey = str "updated_at" then { t with updated_at := fv.2 }
          else if finalKey = str "title" then { t with title := fv.2 }
          else if finalKey = str "description" then { t with description := fv.2 }
          else t
      else t) := rfl

theorem metaFieldValue_mid (a T : List Char) (hdies : patDiesIn (str "**:") a = true) :
    metaFieldValue (a ++ (str "**:" ++ T)) =
      (pyStrip (a.filter (fun c => c ≠ '*')), pyStrip T) := by
  unfold metaFieldValue
  rw [containsPat_mid]
  rw [if_pos rfl]
  unfold splitOncePat
  rw [takeUntil_exact (str "**:") a T (by decide) (noCross_of_dies _ _ _ hdies)]
  have hd : (a ++ (str "**:" ++ T)).drop (a.length + (str "**:").length) = T := by
    rw [← List.append_assoc]
    rw [show a.length + (str "**:").length = (a ++ str "**:").length from
      (List.length_append _ _).symm]
    exact List.drop_left _ _
  simp [hd]

theorem dropWhile_self_of_head (v : List Char)
    (h1 : ∀ c, v[0]? = some c → isWs c = false) : List.dropWhile isWs v = v := by
  rw [List.dropWhile_eq_self_iff]
  intro hx
  have hg : v[0]? = some (v.get ⟨0, hx⟩) := by
    rw [List.getElem?_eq_getElem hx]
    simp
  have h3 := h1 _ hg
  simpa using h3

theorem dropWhile_rev_self_of_last (v : List Char)
    (h2 : ∀ c, v.getLast? = some c → isWs c = false) :
    List.dropWhile isWs v.reverse = v.reverse := by
  rw [List.dropWhile_eq_self_iff]
  intro hx
  have hlen : 0 < v.length := by simpa using hx
  have hg0 : v.reverse.get ⟨0, hx⟩ = v.get ⟨v.length - 1, by omega⟩ := by
    simp only [List.get_eq_getElem, List.getElem_reverse, Nat.sub_zero]
  have hgl : v.getLast? = some (v.get ⟨v.length - 1, by omega⟩) := by
    rw [List.getLast?_eq_getElem?]
    rw [List.getElem?_eq_getElem (by omega : v.length - 1 < v.length)]
    simp
  have h3 := h2 _ hgl
  rw [hg0]
  simpa using h3

theorem pyStrip_sp_ends (v : List Char)
    (h1 : ∀ c, v[0]? = some c → isWs c = false)
    (h2 : ∀ c, v.getLast? = some c → isWs c = false) :
    pyStrip (' ' :: v) = v := by
  unfold pyStrip
  rw [List.dropWhile_cons_of_pos (by rfl)]
  rw [dropWhile_self_of_head v h1, dropWhile_rev_self_of_last v h2]
  exact List.reverse_reverse v

/-! ## parseCommaList of a rendered join -/

theorem split_join_cons (xs : List (List Char)) : ∀ (x : List Char),
    (∀ z ∈ x :: xs, ',' ∉ z) →
    splitOnChar ',' (joinComma (x :: xs)) = x :: xs.map (fun y => ' ' :: y) := by
  induction xs with
  | nil =>
    intro x hall
    exact splitOnChar_no_sep ',' x (hall x (List.mem_cons_self _ _))
  | cons y zs ih =>
    intro x hall
    show splitOnChar ',' (x ++ str ", " ++ joinComma (y :: zs)) = _
    rw [show x ++ str ", " ++ joinComma (y :: zs) =
      x ++ ',' :: (' ' :: joinComma (y :: zs)) from by simp [str]]
    rw [splitOnChar_sep, splitOnChar_no_sep ',' x (hall x (List.mem_cons_self _ _))]
    rw [splitOnChar_cons, if_neg (by decide)]
    rw [ih y (fun z hz => hall z (List.mem_cons_of_mem _ hz))]
    rfl

theorem parseCommaList_join (l : List (List Char))
    (hall : ∀ x ∈ l, plainStr x = true ∧ x ≠ []) :
    parseCommaList (joinComma l) = l := by
  cases l with
  | nil => rfl
  | cons x xs =>
    unfold parseCommaList
    rw [split_join_cons xs x (fun z hz =>
      plain_not_mem z ',' (hall z hz).1 (by decide))]
    rw [List.map_cons, pyStrip_plain x (hall x (List.mem_cons_self _ _)).1, List.map_map]
    have hmap : xs.map (pyStrip ∘ fun y => ' ' :: y) = xs := by
      rw [show xs = xs.map id from (List.map_id xs).symm]
      rw [List.map_map]
      apply List.map_congr_left
      intro y hy
      obtain ⟨hp, hne⟩ := hall y (List.mem_cons_of_mem _ (by simpa using hy))
      show pyStrip (' ' :: id y) = id y
      exact pyStrip_sp y (fun c hc => plain_no_ws c ((List.all_eq_true.1 hp) c hc)) hne
    rw [hmap]
    rw [List.filter_eq_self.2]
    intro z hz
    rcases List.mem_cons.1 hz with rfl | hz2
    · simpa using (hall z (List.mem_cons_self _ _)).2
    · simpa using (hall z (List.mem_cons_of_mem _ hz2)).2

theorem applyMeta_id_line (t : Task) (v : List Char) (hv : plainStr v = true) :
    applyMetaLine t (str "**ID**: " ++ v) = { t with id := v } := by
  by_cases hne : v = []
  · subst hne
    rw [List.append_nil]
    rfl
  · have hws : ∀ c ∈ v, isWs c = false :=
      fun c hc => plain_no_ws c ((List.all_eq_true.1 hv) c hc)
    have hT : pyStrip (' ' :: v) = v := pyStrip_sp v hws hne
    have hstrip : pyStrip (str "**ID**: " ++ v) =
        str "**ID" ++ (str "**:" ++ (' ' :: v)) := by
      rw [show str "**ID**: " ++ v = str "**ID" ++ (str "**:" ++ (' ' :: v)) from rfl]
      apply pyStrip_ends
      · intro c hc
        rw [show (str "**ID" ++ (str "**:" ++ (' ' :: v)))[0]? = some '*' from rfl] at hc
        rw [← Option.some.inj hc]
        rfl
      · intro c hc
        rw [show str "**ID" ++ (str "**:" ++ (' ' :: v)) = (str "**ID**: ") ++ v from rfl]
          at hc
        rw [List.getLast?_append_of_ne_nil _ hne] at hc
        have hcm : c ∈ v := by
          rw [List.getLast?_eq_getElem?] at hc
          exact mem_of_getElem? hc
        exact plain_no_ws c ((List.all_eq_true.1 hv) c hcm)
    rw [applyMetaLine_shape, hstrip,
      metaGuard_mid (str "**ID") (' ' :: v) (by decide) (by decide)]
    rw [if_pos rfl]
    rw [metaFieldValue_mid (str "**ID") (' ' :: v) (by decide)]
    rw [hT]
    rfl

theorem applyMeta_created_line (t : Task) (v : List Char) (hv : plainStr v = true) :
    applyMetaLine t (str "**Created**: " ++ v) = { t with created_at := v } := by
  by_cases hne : v = []
  · subst hne
    rw [List.append_nil]
    rfl
  · have hws : ∀ c ∈ v, isWs c = false :=
      fun c hc => plain_no_ws c ((List.all_eq_true.1 hv) c hc)
    have hT : pyStrip (' ' :: v) = v := pyStrip_sp v hws hne
    have hstrip : pyStrip (str "**Created**: " ++ v) =
        str "**Created" ++ (str "**:" ++ (' ' :: v)) := by
      rw [show str "**Created**: " ++ v = str "**Created" ++ (str "**:" ++ (' ' :: v)) from rfl]
      apply pyStrip_ends
      · intro c hc
        rw [show (str "**Created" ++ (str "**:" ++ (' ' :: v)))[0]? = some '*' from rfl] at hc
        rw [← Option.some.inj hc]
        rfl
      · intro c hc
        rw [show str "**Created" ++ (str "**:" ++ (' ' :: v)) = (str "**Created**: ") ++ v from rfl]
          at hc
        rw [List.getLast?_append_of_ne_nil _ hne] at hc
        have hcm : c ∈ v := by
          rw [List.getLast?_eq_getElem?] at hc
          exact mem_of_getElem? hc
        exact plain_no_ws c ((List.all_eq_true.1 hv) c hcm)
    rw [applyMetaLine_shape, hstrip,
      metaGuard_mid (str "**Created") (' ' :: v) (by decide) (by decide)]
    rw [if_pos rfl]
    rw [metaFieldValue_mid (str "**Created") (' ' :: v) (by decide)]
    rw [hT]
    rfl

theorem applyMeta_updated_line (t : Task) (v : List Char) (hv : plainStr v = true) :
    applyMetaLine t (str "**Updated**: " ++ v) = { t with updated_at := v } := by
  by_cases hne : v = []
  · subst hne
    rw [List.append_nil]
    rfl
  · have hws : ∀ c ∈ v, isWs c = false :=
      fun c hc => plain_no_ws c ((List.all_eq_true.1 hv) c hc)
    have hT : pyStrip (' ' :: v) = v := pyStrip_sp v hws hne
    have hstrip : pyStrip (str "**Updated**: " ++ v) =
        str "**Updated" ++ (str "**:" ++ (' ' :: v)) := by
      rw [show str "**Updated**: " ++ v = str "**Updated" ++ (str "**:" ++ (' ' :: v)) from rfl]
      apply pyStrip_ends
      · intro c hc
        rw [show (str "**Updated" ++ (str "**:" ++ (' ' :: v)))[0]? = some '*' from rfl] at hc
        rw [← Option.some.inj hc]
        rfl
      · intro c hc
        rw [show str "**Updated" ++ (str "**:" ++ (' ' :: v)) = (str "**Updated**: ") ++ v from rfl]
          at hc
        rw [List.getLast?_append_of_ne_nil _ hne] at hc
        have hcm : c ∈ v := by
          rw [List.getLast?_eq_getElem?] at hc
          exact mem_of_getElem? hc
        exact plain_no_ws c ((List.all_eq_true.1 hv) c hcm)
    rw [applyMetaLine_shape, hstrip,
      metaGuard_mid (str "**Updated") (' ' :: v) (by decide) (by decide)]
    rw [if_pos rfl]
    rw [metaFieldValue_mid (str "**Updated") (' ' :: v) (by decide)]
    rw [hT]
    rfl

theorem applyMeta_blocks_line (t : Task) (bl : List (List Char))
    (hall : ∀ x ∈ bl, plainStr x = true ∧ x ≠ []) :
    applyMetaLine t (str "**Blocks**: " ++ joinComma bl) = { t with blocks := bl } := by
  by_cases hne : joinComma bl = []
  · have hbl : bl = [] := by
      cases bl with
      | nil => rfl
      | cons x xs =>
        exfalso
        have hxne := (hall x (List.mem_cons_self _ _)).2
        cases xs with
        | nil => exact hxne hne
        | cons y zs =>
          simp only [joinComma] at hne
          rcases List.append_eq_nil.1 hne with ⟨h0, -⟩
          rcases List.append_eq_nil.1 h0 with ⟨h1, -⟩
          exact hxne h1
    subst hbl
    rw [show joinComma [] = ([] : List Char) from rfl, List.append_nil]
    rfl
  · rcases joinComma_head_plain bl hall with he | ⟨c0, hc0, hp0⟩
    · exact absurd he hne
    rcases joinComma_getLast_plain bl hall with he | ⟨cl, hcl, hpl⟩
    · exact absurd he hne
    have hT : pyStrip (' ' :: joinComma bl) = joinComma bl := by
      apply pyStrip_sp_ends
      · intro c hc
        rw [hc0] at hc
        rw [← Option.some.inj hc]
        exact plain_no_ws c0 hp0
      · intro c hc
        rw [hcl] at hc
        rw [← Option.some.inj hc]
        exact plain_no_ws cl hpl
    have hstrip : pyStrip (str "**Blocks**: " ++ joinComma bl) =
        str "**Blocks" ++ (str "**:" ++ (' ' :: joinComma bl)) := by
      rw [show str "**Blocks**: " ++ joinComma bl =
        str "**Blocks" ++ (str "**:" ++ (' ' :: joinComma bl)) from rfl]
      apply pyStrip_ends
      · intro c hc
        rw [show (str "**Blocks" ++ (str "**:" ++ (' ' :: joinComma bl)))[0]? =
          some '*' from rfl] at hc
        rw [← Option.some.inj hc]
        rfl
      · intro c hc
        rw [show str "**Blocks" ++ (str "**:" ++ (' ' :: joinComma bl)) =
          (str "**Blocks**: ") ++ joinComma bl from rfl] at hc
        rw [List.getLast?_append_of_ne_nil _ hne, hcl] at hc
        rw [← Option.some.inj hc]
        exact plain_no_ws cl hpl
    rw [applyMetaLine_shape, hstrip,
      metaGuard_mid (str "**Blocks") (' ' :: joinComma bl) (by decide) (by decide)]
    rw [if_pos rfl]
    rw [metaFieldValue_mid (str "**Blocks") (' ' :: joinComma bl) (by decide)]
    rw [hT]
    show { t with blocks := parseCommaList (joinComma bl) } = { t with blocks := bl }
    rw [parseCommaList_join bl hall]

theorem applyMeta_blocked_by_line (t : Task) (bl : List (List Char))
    (hall : ∀ x ∈ bl, plainStr x = true ∧ x ≠ []) :
    applyMetaLine t (str "**Blocked By**: " ++ joinComma bl) = { t with blocked_by := bl } := by
  by_cases hne : joinComma bl = []
  · have hbl : bl = [] := by
      cases bl with
      | nil => rfl
      | cons x xs =>
        exfalso
        have hxne := (hall x (List.mem_cons_self _ _)).2
        cases xs with
        | nil => exact hxne hne
        | cons y zs =>
          simp only [joinComma] at hne
          rcases List.append_eq_nil.1 hne with ⟨h0, -⟩
          rcases List.append_eq_nil.1 h0 with ⟨h1, -⟩
          exact hxne h1
    subst hbl
    rw [show joinComma [] = ([] : List Char) from rfl, List.append_nil]
    rfl
  · rcases joinComma_head_plain bl hall with he | ⟨c0, hc0, hp0⟩
    · exact absurd he hne
    rcases joinComma_getLast_plain bl hall with he | ⟨cl, hcl, hpl⟩
    · exact absurd he hne
    have hT : pyStrip (' ' :: joinComma bl) = joinComma bl := by
      apply pyStrip_sp_ends
      · intro c hc
        rw [hc0] at hc
        rw [← Option.some.inj hc]
        exact plain_no_ws c0 hp0
      · intro c hc
        rw [hcl] at hc
        rw [← Option.some.inj hc]
        exact plain_no_ws cl hpl
    have hstrip : pyStrip (str "**Blocked By**: " ++ joinComma bl) =
        str "**Blocked By" ++ (str "**:" ++ (' ' :: joinComma bl)) := by
      rw [show str "**Blocked By**: " ++ joinComma bl =
        str "**Blocked By" ++ (str "**:" ++ (' ' :: joinComma bl)) from rfl]
      apply pyStrip_ends
      · intro c hc
        rw [show (str "**Blocked By" ++ (str "**:" ++ (' ' :: joinComma bl)))[0]? =
          some '*' from rfl] at hc
        rw [← Option.some.inj hc]
        rfl
      · intro c hc
        rw [show str "**Blocked By" ++ (str "**:" ++ (' ' :: joinComma bl)) =
          (str "**Blocked By**: ") ++ joinComma bl from rfl] at hc
        rw [List.getLast?_append_of_ne_nil _ hne, hcl] at hc
        rw [← Option.some.inj hc]
        exact plain_no_ws cl hpl
    rw [applyMetaLine_shape, hstrip,
      metaGuard_mid (str "**Blocked By") (' ' :: joinComma bl) (by decide) (by decide)]
    rw [if_pos rfl]
    rw [metaFieldValue_mid (str "**Blocked By") (' ' :: joinComma bl) (by decide)]
    rw [hT]
    show { t with blocked_by := parseCommaList (joinComma bl) } = { t with blocked_by := bl }
    rw [parseCommaList_join bl hall]

theorem applyMeta_not_star (t : Task) (l : List Char)
    (h : isPref (str "**") (pyStrip l) = false) : applyMetaLine t l = t := by
  rw [applyMetaLine_shape]
  rw [if_neg (by
    unfold metaGuard
    rw [h]
    simp)]

theorem applyMeta_head_ne (t : Task) (c : Char) (l : List Char)
    (hws : isWs c = false) (hne : c ≠ '*') : applyMetaLine t (c :: l) = t := by
  obtain ⟨u, hu⟩ := pyStrip_head_ne c l hws
  apply applyMeta_not_star
  rw [hu]
  show isPref ('*' :: str "*") (c :: u) = false
  unfold isPref
  rw [decide_eq_false (by intro he; exact hne he.symm)]
  rfl

theorem foldl_applyMeta_noop (ls : List (List Char)) :
    ∀ (t : Task), (∀ l ∈ ls, ∀ u : Task, applyMetaLine u l = u) →
    ls.foldl applyMetaLine t = t := by
  induction ls with
  | nil => intro t h; rfl
  | cons l ls ih =>
    intro t h
    rw [List.foldl_cons, h l (List.mem_cons_self _ _) t]
    exact ih t (fun l2 hl2 u => h l2 (List.mem_cons_of_mem _ hl2) u)

/-! ## Decomposition of the rendered document -/

theorem flatten_renderSess (ss : List Session) (hne : ss ≠ []) :
    (ss.map renderSess).flatten = sessFlat1 ss ++ [Char.ofNat 10] := by
  induction ss with
  | nil => exact absurd rfl hne
  | cons s ss ih =>
    cases ss with
    | nil =>
      show renderSess s ++ [] = sessRender1 s ++ [Char.ofNat 10]
      rw [List.append_nil]
      unfold renderSess sessRender1
      simp only [List.append_assoc]
      rfl
    | cons s2 ss2 =>
      show renderSess s ++ (List.map renderSess (s2 :: ss2)).flatten =
        (renderSess s ++ sessFlat1 (s2 :: ss2)) ++ [Char.ofNat 10]
      rw [ih (by simp), List.append_assoc]

theorem gen_decomp (t : Task) :
    generate_markdown_task t =
      str "# Task: " ++ (t.title ++ (Char.ofNat 10 :: (bodyCore t ++ [Char.ofNat 10]))) := by
  have hblocks : (if t.blocks ≠ [] then str "**Blocks**: " ++ joinComma t.blocks ++ str "\n"
      else str "**Blocks**: \n") = str "**Blocks**: " ++ joinComma t.blocks ++ str "\n" := by
    by_cases hb : t.blocks = []
    · rw [if_neg (by simp [hb]), hb]
      rfl
    · rw [if_pos hb]
  have hbb2 : (if t.blocked_by ≠ [] then
      str "**Blocked By**: " ++ joinComma t.blocked_by ++ str "\n"
      else str "**Blocked By**: \n") =
      str "**Blocked By**: " ++ joinComma t.blocked_by ++ str "\n" := by
    by_cases hb : t.blocked_by = []
    · rw [if_neg (by simp [hb]), hb]
      rfl
    · rw [if_pos hb]
  unfold generate_markdown_task
  rw [hblocks, hbb2]
  unfold bodyCore sessCore
  cases hss : t.sessions with
  | nil =>
    rw [if_neg (by simp)]
    simp only [List.append_assoc, List.cons_append, List.append_nil]
    rfl
  | cons s ss =>
    rw [if_pos (by simp)]
    rw [show (fun s => str "### " ++ s.timestamp ++ str "\n<log>\n" ++ s.log ++
      str "\n</log>\n\n") = renderSess from rfl]
    rw [flatten_renderSess (s :: ss) (by simp)]
    simp only [List.append_assoc, List.cons_append, List.append_nil]
    rfl

theorem shapeAt_mono (ps : List (Char → Bool)) (x r : List Char)
    (h : shapeAt ps x = true) : shapeAt ps (x ++ r) = true := by
  induction ps generalizing x with
  | nil => rfl
  | cons p ps ih =>
    cases x with
    | nil => simp [shapeAt] at h
    | cons c t =>
      simp only [shapeAt, Bool.and_eq_true] at h
      simp only [List.cons_append, shapeAt, Bool.and_eq_true]
      exact ⟨h.1, ih t h.2⟩

theorem shapeAt_length (ps : List (Char → Bool)) (s : List Char)
    (h : shapeAt ps s = true) : ps.length ≤ s.length := by
  induction ps generalizing s with
  | nil => simp
  | cons p ps ih =>
    cases s with
    | nil => simp [shapeAt] at h
    | cons c t =>
      simp only [shapeAt, Bool.and_eq_true] at h
      simpa using ih t h.2

theorem shapeAt_append_split (A B : List (Char → Bool)) (a b : List Char)
    (ha : shapeAt A a = true) (hlen : a.length = A.length) (hb : shapeAt B b = true) :
    shapeAt (A ++ B) (a ++ b) = true := by
  induction A generalizing a with
  | nil =>
    cases a with
    | nil => simpa using hb
    | cons c t => simp at hlen
  | cons p ps ih =>
    cases a with
    | nil => simp at hlen
    | cons c t =>
      simp only [shapeAt, Bool.and_eq_true] at ha
      simp only [List.cons_append, shapeAt, Bool.and_eq_true]
      exact ⟨ha.1, ih t ha.2 (by simpa using hlen)⟩

theorem takeWhile_until_nl (lab r : List Char) (h : Char.ofNat 10 ∉ lab) :
    (lab ++ Char.ofNat 10 :: r).takeWhile (fun c => c ≠ Char.ofNat 10) = lab := by
  induction lab with
  | nil => simp [List.takeWhile]
  | cons c t ih =>
    have hc : c ≠ Char.ofNat 10 := by
      intro he
      exact h (by rw [he]; exact List.mem_cons_self _ _)
    rw [List.cons_append, List.takeWhile_cons_of_pos (by simpa using hc)]
    rw [ih (fun hm => h (List.mem_cons_of_mem _ hm))]

theorem findChecked_found (lab rest : List Char) (hne : lab ≠ [])
    (hnl : Char.ofNat 10 ∉ lab) :
    findChecked (str "- [x] " ++ (lab ++ Char.ofNat 10 :: rest)) = some lab := by
  show findChecked ('-' :: (str " [x] " ++ (lab ++ Char.ofNat 10 :: rest))) = some lab
  rw [findChecked_cons]
  rw [if_pos (show isPref checkboxPat ('-' :: (str " [x] " ++ (lab ++ Char.ofNat 10 :: rest)))
    = true from isPref_self_append checkboxPat (lab ++ Char.ofNat 10 :: rest))]
  have hdrop : (('-' :: (str " [x] " ++ (lab ++ Char.ofNat 10 :: rest)))).drop 6 =
      lab ++ Char.ofNat 10 :: rest := by
    show (checkboxPat ++ (lab ++ Char.ofNat 10 :: rest)).drop checkboxPat.length = _
    exact List.drop_left _ _
  simp only [hdrop]
  rw [takeWhile_until_nl lab rest hnl]
  rw [if_neg hne]

theorem noCross_close (p s r : List Char) (hc : containsPat p s = false)
    (hnb : ∀ k, k < p.length → 0 < k → isPref (p.drop k) p = false) :
    NoCross p s (p ++ r) := by
  apply noCross_general p s (p ++ r) hc
  intro k hk0 hklen
  left
  rw [isPref_append_of_le _ _ _ (by rw [List.length_drop]; omega)]
  exact hnb k hklen hk0

theorem sessXml_match (ts log R : List Char) (f : Nat)
    (hts : shapeAt tsSlots ts = true) (htsnl : Char.ofNat 10 ∉ ts)
    (hlc : containsPat logClosePat log = false) :
    sessionsXml (f + 1)
      (str "### " ++ (ts ++ (str "\n<log>\n" ++ (log ++ (str "\n</log>" ++ R))))) =
      { timestamp := ts, log := pyStrip log } :: sessionsXml f R := by
  have htlen : 11 ≤ ts.length := shapeAt_length tsSlots ts hts
  have hhdr : sessHeaderAt (str "### " ++ (ts ++ (str "\n<log>\n" ++
      (log ++ (str "\n</log>" ++ R))))) = true := by
    unfold sessHeaderAt
    rw [show sessHeaderSlots = (sessHeaderSlots.take 4) ++ tsSlots from rfl]
    exact shapeAt_append_split _ _ _ _ (by decide) (by decide)
      (shapeAt_mono _ _ _ hts)
  show sessionsXml (f + 1) ('#' :: (str "## " ++ (ts ++ (str "\n<log>\n" ++
    (log ++ (str "\n</log>" ++ R)))))) = _
  rw [sessionsXml_cons]
  rw [if_pos (show sessHeaderAt ('#' :: (str "## " ++ (ts ++ (str "\n<log>\n" ++
    (log ++ (str "\n</log>" ++ R)))))) = true from hhdr)]
  have hdrop15 : ('#' :: (str "## " ++ (ts ++ (str "\n<log>\n" ++
      (log ++ (str "\n</log>" ++ R)))))).drop 15 =
      ts.drop 11 ++ (logOpenPat ++ (log ++ (str "\n</log>" ++ R))) := by
    show (str "### " ++ (ts ++ (str "\n<log>\n" ++ (log ++ (str "\n</log>" ++ R))))).drop 15 = _
    rw [show (15 : Nat) = (str "### ").length + 11 from rfl]
    rw [List.drop_append]
    rw [List.drop_append_of_le_length htlen]
    rfl
  rw [hdrop15]
  have hg1 : takeUntilPat logOpenPat
      (ts.drop 11 ++ (logOpenPat ++ (log ++ (str "\n</log>" ++ R)))) = some (ts.drop 11) :=
    takeUntil_exact _ _ _ (by decide)
      (noCross_head _ _ _ (Char.ofNat 10) rfl
        (fun hm => htsnl (List.mem_of_mem_drop hm)))
  rw [hg1]
  dsimp only
  have hdrop2 : (ts.drop 11 ++ (logOpenPat ++ (log ++ (str "\n</log>" ++ R)))).drop
      ((ts.drop 11).length + 7) = log ++ (logClosePat ++ R) := by
    rw [show (ts.drop 11).length + 7 = (ts.drop 11 ++ logOpenPat).length from by
      rw [List.length_append]
      rfl]
    rw [← List.append_assoc]
    rw [List.drop_left]
    rfl
  rw [hdrop2]
  have hg2 : takeUntilPat logClosePat (log ++ (logClosePat ++ R)) = some log :=
    takeUntil_exact _ _ _ (by decide) (noCross_close _ _ _ hlc (by decide))
  rw [hg2]
  dsimp only
  have htake : (('#' :: (str "## " ++ (ts ++ (str "\n<log>\n" ++
      (log ++ (str "\n</log>" ++ R)))))).drop 4).take (11 + (ts.drop 11).length) = ts := by
    show ((str "### " ++ (ts ++ (str "\n<log>\n" ++ (log ++ (str "\n</log>" ++ R))))).drop
      (str "### ").length).take (11 + (ts.drop 11).length) = ts
    rw [List.drop_left]
    rw [show 11 + (ts.drop 11).length = ts.length from by rw [List.length_drop]; omega]
    exact List.take_left _ _
  rw [htake]
  have hdrop3 : (log ++ (logClosePat ++ R)).drop (log.length + 7) = R := by
    rw [show log.length + 7 = (log ++ logClosePat).length from by
      rw [List.length_append]
      rfl]
    rw [← List.append_assoc]
    rw [List.drop_left]
  rw [hdrop3]

theorem sessHeaderAt_nl (X : List Char) : sessHeaderAt (Char.ofNat 10 :: X) = false := rfl

theorem sessXml_small_tail (tailC : List Char)
    (h : tailC = [] ∨ tailC = [Char.ofNat 10]) :
    ∀ f, sessionsXml f tailC = [] := by
  rcases h with rfl | rfl
  · intro f
    exact sessionsXml_nil f
  · intro f
    cases f with
    | zero => rfl
    | succ f' =>
      rw [show ([Char.ofNat 10] : List Char) = Char.ofNat 10 :: [] from rfl, sessionsXml_cons]
      rw [if_neg (by rw [sessHeaderAt_nl]; simp)]
      exact sessionsXml_nil f'

theorem renderSess_length (s : Session) :
    (renderSess s).length = 20 + s.timestamp.length + s.log.length := by
  unfold renderSess
  simp only [List.length_append]
  rw [show (str "### ").length = 4 from rfl, show (str "\n<log>\n").length = 7 from by decide,
    show (str "\n</log>\n\n").length = 9 from by decide]
  omega

theorem sessRender1_length (s : Session) :
    (sessRender1 s).length = 19 + s.timestamp.length + s.log.length := by
  unfold sessRender1
  simp only [List.length_append]
  rw [show (str "### ").length = 4 from rfl, show (str "\n<log>\n").length = 7 from by decide,
    show (str "\n</log>\n").length = 8 from by decide]
  omega

theorem sessXml_flat1 : ∀ (ss : List Session), ss ≠ [] →
    (∀ s ∈ ss, shapeAt tsSlots s.timestamp = true ∧ Char.ofNat 10 ∉ s.timestamp ∧
      containsPat logClosePat s.log = false) →
    ∀ (tailC : List Char), (tailC = [] ∨ tailC = [Char.ofNat 10]) →
    ∀ f, (sessFlat1 ss ++ tailC).length < f →
    sessionsXml f (sessFlat1 ss ++ tailC) =
      ss.map (fun s => { timestamp := s.timestamp, log := pyStrip s.log }) := by
  intro ss
  induction ss with
  | nil => intro h; exact absurd rfl h
  | cons s ss ih =>
    intro hne hwf tailC htail f hf
    obtain ⟨hts, htsnl, hlc⟩ := hwf s (List.mem_cons_self _ _)
    cases ss with
    | nil =>
      cases f with
      | zero => simp at hf
      | succ f' =>
        have he : sessFlat1 [s] ++ tailC = str "### " ++ (s.timestamp ++ (str "\n<log>\n" ++
            (s.log ++ (str "\n</log>" ++ (Char.ofNat 10 :: tailC))))) := by
          show sessRender1 s ++ tailC = _
          unfold sessRender1
          simp only [List.append_assoc]
          rfl
        rw [he, sessXml_match s.timestamp s.log (Char.ofNat 10 :: tailC) f' hts htsnl hlc]
        rw [show sessionsXml f' (Char.ofNat 10 :: tailC) = [] from by
          cases f' with
          | zero => exact sessionsXml_zero _
          | succ f2 =>
            rw [sessionsXml_cons, if_neg (by rw [sessHeaderAt_nl]; simp)]
            exact sessXml_small_tail tailC htail f2]
        rfl
    | cons s2 ss2 =>
      cases f with
      | zero => simp at hf
      | succ f' =>
        have he : sessFlat1 (s :: s2 :: ss2) ++ tailC =
            str "### " ++ (s.timestamp ++ (str "\n<log>\n" ++ (s.log ++ (str "\n</log>" ++
              (Char.ofNat 10 :: (Char.ofNat 10 :: (sessFlat1 (s2 :: ss2) ++ tailC))))))) := by
          show renderSess s ++ sessFlat1 (s2 :: ss2) ++ tailC = _
          unfold renderSess
          simp only [List.append_assoc]
          rfl
        rw [he, sessXml_match s.timestamp s.log _ f' hts htsnl hlc]
        have hlen1 : (sessFlat1 (s :: s2 :: ss2) ++ tailC).length =
            (renderSess s).length + (sessFlat1 (s2 :: ss2) ++ tailC).length := by
          show (renderSess s ++ sessFlat1 (s2 :: ss2) ++ tailC).length = _
          simp [List.length_append]
        have hrl := renderSess_length s
        cases f' with
        | zero =>
          exfalso
          omega
        | succ f2 =>
          rw [sessionsXml_cons, if_neg (by rw [sessHeaderAt_nl]; simp)]
          cases f2 with
          | zero =>
            exfalso
            omega
          | succ f3 =>
            rw [sessionsXml_cons, if_neg (by rw [sessHeaderAt_nl]; simp)]
            rw [ih (by simp) (fun x hx => hwf x (List.mem_cons_of_mem _ hx)) tailC htail f3
              (by omega)]
            rfl

theorem findSections_nil (fuel : Nat) : findSections fuel [] = [] := by
  cases fuel <;> rfl

theorem findSections_cons (fuel : Nat) (c : Char) (t : List Char) :
    findSections (fuel + 1) (c :: t) =
      if isPref headerPat (c :: t) then
        match splitNL ((c :: t).drop 8) with
        | some (ttl, rest1) =>
          (ttl, (takeBody rest1).1) :: findSections fuel (takeBody rest1).2
        | none => findSections fuel t
      else findSections fuel t := rfl

theorem findSections_skip (s : List Char) : ∀ (fuel : Nat) (rest : List Char),
    NoCross headerPat s rest →
    findSections (s.length + fuel) (s ++ rest) = findSections fuel rest := by
  induction s with
  | nil =>
    intro fuel rest h
    rw [List.length_nil, Nat.zero_add, List.nil_append]
  | cons c t ih =>
    intro fuel rest h
    have h0 := h 0 (by simp)
    rw [List.drop_zero, List.cons_append] at h0
    rw [List.length_cons, List.cons_append,
      show t.length + 1 + fuel = t.length + fuel + 1 from by omega]
    show findSections (t.length + fuel + 1) (c :: (t ++ rest)) = findSections fuel rest
    rw [findSections_cons, if_neg (by rw [h0]; simp)]
    exact ih fuel rest (fun i hi => by
      have h2 := h (i + 1) (by simpa using Nat.succ_lt_succ hi)
      rwa [List.drop_succ_cons] at h2)

theorem findSections_match (title rest : List Char) (f : Nat)
    (hti : Char.ofNat 10 ∉ title) :
    findSections (f + 1) (str "# Task: " ++ (title ++ (Char.ofNat 10 :: rest))) =
      (title, (takeBody rest).1) :: findSections f (takeBody rest).2 := by
  show findSections (f + 1) ('#' :: (str " Task: " ++ (title ++ (Char.ofNat 10 :: rest)))) = _
  rw [findSections_cons]
  rw [if_pos (show isPref headerPat ('#' :: (str " Task: " ++
    (title ++ (Char.ofNat 10 :: rest)))) = true from
    isPref_self_append headerPat (title ++ (Char.ofNat 10 :: rest)))]
  have hdrop : ('#' :: (str " Task: " ++ (title ++ (Char.ofNat 10 :: rest)))).drop 8 =
      title ++ (Char.ofNat 10 :: rest) := by
    show (headerPat ++ (title ++ (Char.ofNat 10 :: rest))).drop headerPat.length = _
    exact List.drop_left _ _
  rw [hdrop, splitNL_eq title rest hti]

/-! ## Fold of the metadata lines over the rendered body -/

theorem applyMeta_empty (u : Task) : applyMetaLine u [] = u := rfl

theorem fold_nl (b : List Char) (acc : Task) :
    (splitOnChar '\n' (Char.ofNat 10 :: b)).foldl applyMetaLine acc =
      (splitOnChar '\n' b).foldl applyMetaLine acc := by
  rw [splitOnChar_cons, if_pos rfl, List.foldl_cons, applyMeta_empty]

theorem fold_noop_split (s : List Char) (acc : Task) (h : noMetaLine s = true) :
    (splitOnChar '\n' s).foldl applyMetaLine acc = acc := by
  apply foldl_applyMeta_noop
  intro l hl u
  apply applyMeta_not_star
  unfold noMetaLine at h
  have h2 := (List.all_eq_true.1 h) l hl
  simp only [Bool.not_eq_eq_eq_not, Bool.not_true] at h2
  exact h2

theorem fold_field (p v b : List Char) (acc : Task)
    (hp : Char.ofNat 10 ∉ p) (hv : Char.ofNat 10 ∉ v) :
    (splitOnChar '\n' (p ++ (v ++ Char.ofNat 10 :: b))).foldl applyMetaLine acc =
      (splitOnChar '\n' b).foldl applyMetaLine (applyMetaLine acc (p ++ v)) := by
  rw [show p ++ (v ++ Char.ofNat 10 :: b) = (p ++ v) ++ Char.ofNat 10 :: b from
    (List.append_assoc p v _).symm]
  rw [splitOnChar_sep, splitOnChar_no_sep _ _ (by
    intro hm
    rcases List.mem_append.1 hm with hm | hm
    · exact hp hm
    · exact hv hm)]
  rw [List.foldl_append, List.foldl_cons, List.foldl_nil]

theorem fold_chunk (s b : List Char) (acc : Task) (h : noMetaLine s = true) :
    (splitOnChar '\n' (s ++ Char.ofNat 10 :: b)).foldl applyMetaLine acc =
      (splitOnChar '\n' b).foldl applyMetaLine acc := by
  rw [splitOnChar_sep, List.foldl_append, fold_noop_split s acc h]

/-! ## noMetaLine composition -/

theorem noMeta_sep (a b : List Char) (ha : noMetaLine a = true)
    (hb : noMetaLine b = true) : noMetaLine (a ++ Char.ofNat 10 :: b) = true := by
  unfold noMetaLine at *
  rw [splitOnChar_sep, List.all_append, ha, hb]
  rfl

theorem noMeta_single (s : List Char) (h : isPref (str "**") (pyStrip s) = false)
    (hnl : Char.ofNat 10 ∉ s) : noMetaLine s = true := by
  unfold noMetaLine
  rw [splitOnChar_no_sep _ _ hnl]
  simp [h]

theorem noMeta_head (c : Char) (rest : List Char) (hws : isWs c = false)
    (hc : c ≠ '*') (hnl : Char.ofNat 10 ∉ c :: rest) : noMetaLine (c :: rest) = true := by
  apply noMeta_single _ _ hnl
  obtain ⟨u, hu⟩ := pyStrip_head_ne c rest hws
  rw [hu]
  show isPref ('*' :: str "*") (c :: u) = false
  unfold isPref
  rw [decide_eq_false (by intro he; exact hc he.symm)]
  rfl

theorem noMeta_flat1 : ∀ (ss : List Session) (tailC : List Char),
    (∀ s ∈ ss, Char.ofNat 10 ∉ s.timestamp ∧ noMetaLine s.log = true) →
    noMetaLine tailC = true →
    noMetaLine (sessFlat1 ss ++ tailC) = true := by
  intro ss
  induction ss with
  | nil =>
    intro tailC _ htail
    rw [show sessFlat1 [] ++ tailC = tailC from by simp [sessFlat1]]
    exact htail
  | cons s ss ih =>
    intro tailC hwf htail
    obtain ⟨hts, hlog⟩ := hwf s (List.mem_cons_self _ _)
    have hhead : noMetaLine (str "### " ++ s.timestamp) = true := by
      show noMetaLine ('#' :: (str "## " ++ s.timestamp)) = true
      apply noMeta_head _ _ (by decide) (by decide)
      intro hm
      rcases List.mem_cons.1 hm with hm | hm
      · exact absurd hm (by decide)
      · rcases List.mem_append.1 hm with hm | hm
        · exact absurd hm (by decide)
        · exact hts hm
    cases ss with
    | nil =>
      have he : sessFlat1 [s] ++ tailC =
          (str "### " ++ s.timestamp) ++ Char.ofNat 10 :: (str "<log>" ++
            Char.ofNat 10 :: (s.log ++ Char.ofNat 10 :: (str "</log>" ++
              Char.ofNat 10 :: tailC))) := by
        show sessRender1 s ++ tailC = _
        unfold sessRender1
        simp only [List.append_assoc, List.cons_append]
        rfl
      rw [he]
      apply noMeta_sep _ _ hhead
      apply noMeta_sep _ _ (by decide)
      apply noMeta_sep _ _ hlog
      apply noMeta_sep _ _ (by decide)
      exact htail
    | cons s2 ss2 =>
      have he : sessFlat1 (s :: s2 :: ss2) ++ tailC =
          (str "### " ++ s.timestamp) ++ Char.ofNat 10 :: (str "<log>" ++
            Char.ofNat 10 :: (s.log ++ Char.ofNat 10 :: (str "</log>" ++
              Char.ofNat 10 :: ([] ++ Char.ofNat 10 ::
                (sessFlat1 (s2 :: ss2) ++ tailC))))) := by
        show renderSess s ++ sessFlat1 (s2 :: ss2) ++ tailC = _
        unfold renderSess
        simp only [List.append_assoc, List.cons_append]
        rfl
      rw [he]
      apply noMeta_sep _ _ hhead
      apply noMeta_sep _ _ (by decide)
      apply noMeta_sep _ _ hlog
      apply noMeta_sep _ _ (by decide)
      apply noMeta_sep _ _ (by decide)
      exact ih tailC (fun x hx => hwf x (List.mem_cons_of_mem _ hx)) htail

theorem noMeta_status_chunk (st : List Char) (hst : st ∈ validStatuses) :
    noMetaLine (str "## Status\n\n" ++ ((statusChoices.map (checkboxLine st)).flatten ++
      str "\n## Description\n\n<description>")) = true := by
  simp only [validStatuses, List.mem_cons, List.not_mem_nil, or_false] at hst
  rcases hst with h | h | h | h <;> rw [h] <;> decide

theorem noMeta_close_tail (ss : List Session) (tailC : List Char)
    (hss : ∀ s ∈ ss, Char.ofNat 10 ∉ s.timestamp ∧ noMetaLine s.log = true)
    (htail : tailC = [] ∨ tailC = [Char.ofNat 10]) :
    noMetaLine (str "</description>" ++ (sessCore ss ++ tailC)) = true := by
  have htmeta : noMetaLine tailC = true := by
    rcases htail with rfl | rfl <;> decide
  cases ss with
  | nil =>
    rw [show sessCore [] = ([] : List Char) from rfl, List.nil_append]
    rcases htail with rfl | rfl <;> decide
  | cons s ss2 =>
    have he : str "</description>" ++ (sessCore (s :: ss2) ++ tailC) =
        str "</description>" ++ Char.ofNat 10 :: ([] ++ Char.ofNat 10 ::
          (str "## Session Logs" ++ Char.ofNat 10 :: ([] ++ Char.ofNat 10 ::
            (sessFlat1 (s :: ss2) ++ tailC)))) := by
      unfold sessCore
      simp only [List.append_assoc, List.cons_append]
      rfl
    rw [he]
    apply noMeta_sep _ _ (by decide)
    apply noMeta_sep _ _ (by decide)
    apply noMeta_sep _ _ (by decide)
    apply noMeta_sep _ _ (by decide)
    exact noMeta_flat1 (s :: ss2) tailC hss htmeta

theorem fold_body (t : Task) (hwf : WFtask t) (tailC : List Char)
    (htail : tailC = [] ∨ tailC = [Char.ofNat 10]) :
    (splitOnChar '\n' (bodyCore t ++ tailC)).foldl applyMetaLine {} =
      { id := t.id, created_at := t.created_at, updated_at := t.updated_at,
        blocks := t.blocks, blocked_by := t.blocked_by } := by
  obtain ⟨-, -, hid, hca, hua, hbl, hbb, hst, hdesc, -, -, hsess⟩ := hwf
  have hidnl : Char.ofNat 10 ∉ t.id := plain_no_nl _ hid
  have hcanl : Char.ofNat 10 ∉ t.created_at := plain_no_nl _ hca
  have huanl : Char.ofNat 10 ∉ t.updated_at := plain_no_nl _ hua
  have hblnl : Char.ofNat 10 ∉ joinComma t.blocks :=
    joinComma_not_mem _ _ (fun x hx => (hbl x hx).1) (by decide) (by decide) (by decide)
  have hbbnl : Char.ofNat 10 ∉ joinComma t.blocked_by :=
    joinComma_not_mem _ _ (fun x hx => (hbb x hx).1) (by decide) (by decide) (by decide)
  have he : bodyCore t ++ tailC =
      Char.ofNat 10 :: ((str "**ID**: " ++ (t.id ++ Char.ofNat 10 :: ((str "**Created**: " ++ (t.created_at ++ Char.ofNat 10 :: ((str "**Updated**: " ++ (t.updated_at ++ Char.ofNat 10 :: ((str "**Blocks**: " ++ (joinComma t.blocks ++ Char.ofNat 10 :: ((str "**Blocked By**: " ++ (joinComma t.blocked_by ++ Char.ofNat 10 :: (Char.ofNat 10 :: (((str "## Status\n\n" ++ ((statusChoices.map (checkboxLine t.status)).flatten ++ str "\n## Description\n\n<description>")) ++ Char.ofNat 10 :: ((t.description ++ Char.ofNat 10 :: ((str "</description>" ++ (sessCore t.sessions ++ tailC))))))))))))))))))))))) := by
    unfold bodyCore
    simp only [List.append_assoc, List.cons_append]
    rfl
  rw [he, fold_nl]
  rw [fold_field _ _ _ _ (by decide) hidnl, applyMeta_id_line _ _ hid]
  rw [fold_field _ _ _ _ (by decide) hcanl, applyMeta_created_line _ _ hca]
  rw [fold_field _ _ _ _ (by decide) huanl, applyMeta_updated_line _ _ hua]
  rw [fold_field _ _ _ _ (by decide) hblnl, applyMeta_blocks_line _ _ hbl]
  rw [fold_field _ _ _ _ (by decide) hbbnl, applyMeta_blocked_by_line _ _ hbb]
  rw [fold_nl]
  rw [fold_chunk _ _ _ (noMeta_status_chunk t.status hst)]
  rw [fold_chunk _ _ _ hdesc.1]
  rw [fold_noop_split _ _ (noMeta_close_tail t.sessions tailC
    (fun s hs => ⟨(hsess s hs).1.2, (hsess s hs).2.1.1⟩) htail)]
/-! ## Pattern containment and boundary lemmas for the separator stops -/

theorem isPref_append_elim (u v x : List Char) (h : isPref (u ++ v) x = true) :
    isPref v (x.drop u.length) = true := by
  induction u generalizing x with
  | nil => simpa using h
  | cons c u ih =>
    cases x with
    | nil =>
      rw [List.cons_append] at h
      simp [isPref] at h
    | cons d x =>
      rw [List.cons_append] at h
      simp only [isPref, Bool.and_eq_true] at h
      simpa using ih x h.2

theorem isPref_of_append (u v x : List Char) (h : isPref (u ++ v) x = true) :
    isPref u x = true := by
  induction u generalizing x with
  | nil => rfl
  | cons c u ih =>
    cases x with
    | nil =>
      rw [List.cons_append] at h
      simp [isPref] at h
    | cons d x =>
      rw [List.cons_append] at h
      simp only [isPref, Bool.and_eq_true, decide_eq_true_eq] at h ⊢
      exact ⟨h.1, ih x h.2⟩

theorem containsPat_exists (p s : List Char) (h : containsPat p s = true) :
    ∃ i, isPref p (s.drop i) = true := by
  induction s with
  | nil =>
    refine ⟨0, ?_⟩
    simpa [containsPat] using h
  | cons c t ih =>
    have hu : containsPat p (c :: t) = (isPref p (c :: t) || containsPat p t) := rfl
    rw [hu, Bool.or_eq_true] at h
    rcases h with h | h
    · exact ⟨0, by simpa using h⟩
    · obtain ⟨i, hi⟩ := ih h
      exact ⟨i + 1, by simpa using hi⟩

theorem containsPat_sub (a b p2 s : List Char) (hc : containsPat p2 s = false) :
    containsPat (a ++ (p2 ++ b)) s = false := by
  cases hb : containsPat (a ++ (p2 ++ b)) s with
  | false => rfl
  | true =>
    exfalso
    obtain ⟨i, hi⟩ := containsPat_exists _ _ hb
    have h2 := isPref_append_elim a (p2 ++ b) _ hi
    have h3 : isPref p2 ((s.drop i).drop a.length) = true := isPref_of_append _ _ _ h2
    rw [List.drop_drop] at h3
    rw [containsPat_of_drop p2 s _ h3] at hc
    exact absurd hc (by simp)

theorem containsPat_sep1_of_sep2 (s : List Char) (hc : containsPat sepStop2 s = false) :
    containsPat sepStop1 s = false := by
  have h := containsPat_sub [Char.ofNat 10, '-', '-', '-', Char.ofNat 10] [] sepStop2 s hc
  rw [show [Char.ofNat 10, '-', '-', '-', Char.ofNat 10] ++ (sepStop2 ++ []) = sepStop1 from by
    rw [List.append_nil]; rfl] at h
  exact h

theorem noCross_nl_free (p' dsc rest : List Char)
    (h0 : isPref p' (dsc ++ rest) = false)
    (hin : NoCross (Char.ofNat 10 :: p') dsc rest) :
    NoCross (Char.ofNat 10 :: p') (Char.ofNat 10 :: dsc) rest := by
  intro i hi
  cases i with
  | zero =>
    rw [List.drop_zero, List.cons_append]
    show (decide (Char.ofNat 10 = Char.ofNat 10) && isPref p' (dsc ++ rest)) = false
    rw [h0]
    simp
  | succ i =>
    rw [List.drop_succ_cons]
    exact hin i (by simpa using hi)

theorem sep1_tail_false (dsc rest : List Char)
    (hc : containsPat sepStop2 dsc = false)
    (hr0 : rest[0]? = some (Char.ofNat 10))
    (hr1 : rest[1]? = some '<') :
    isPref (str "---\n\n# Task:") (dsc ++ rest) = false := by
  cases hb : isPref (str "---\n\n# Task:") (dsc ++ rest) with
  | false => rfl
  | true =>
    exfalso
    by_cases hk : 12 ≤ dsc.length
    · rw [isPref_append_of_le _ _ _ (by
        rw [show (str "---\n\n# Task:").length = 12 from by decide]
        omega)] at hb
      have hd := isPref_append_elim (str "---\n") sepStop2 dsc (by
        rw [show str "---\n" ++ sepStop2 = str "---\n\n# Task:" from rfl]
        exact hb)
      rw [containsPat_of_drop sepStop2 dsc _ hd] at hc
      exact absurd hc (by simp)
    · obtain ⟨n, hn⟩ : ∃ n, dsc.length = n := ⟨_, rfl⟩
      obtain ⟨-, h2⟩ := isPref_take _ dsc rest (by
        rw [show (str "---\n\n# Task:").length = 12 from by decide]
        omega) hb
      rw [hn] at h2
      have hlt : n < 12 := by omega
      interval_cases n <;>
        first
          | (have hg := isPref_get _ _ h2 0 (by decide)
             rw [hr0] at hg
             exact absurd hg (by decide))
          | (have hg := isPref_get _ _ h2 1 (by decide)
             rw [hr1] at hg
             exact absurd hg (by decide))

/-! ## The metadata prefix of a rendered body -/

theorem hash_not_mem_metaPre (t : Task)
    (hid : plainStr t.id = true) (hca : plainStr t.created_at = true)
    (hua : plainStr t.updated_at = true)
    (hbl : ∀ x ∈ t.blocks, plainStr x = true ∧ x ≠ [])
    (hbb : ∀ x ∈ t.blocked_by, plainStr x = true ∧ x ≠ []) :
    '#' ∉ metaPre t := by
  intro hm
  unfold metaPre at hm
  rcases List.mem_append.1 hm with h | hm
  · exact absurd h (by decide)
  rcases List.mem_append.1 hm with h | hm
  · exact absurd h (by decide)
  rcases List.mem_append.1 hm with h | hm
  · exact plain_not_mem _ _ hid (by decide) h
  rcases List.mem_append.1 hm with h | hm
  · exact absurd h (by decide)
  rcases List.mem_append.1 hm with h | hm
  · exact absurd h (by decide)
  rcases List.mem_append.1 hm with h | hm
  · exact plain_not_mem _ _ hca (by decide) h
  rcases List.mem_append.1 hm with h | hm
  · exact absurd h (by decide)
  rcases List.mem_append.1 hm with h | hm
  · exact absurd h (by decide)
  rcases List.mem_append.1 hm with h | hm
  · exact plain_not_mem _ _ hua (by decide) h
  rcases List.mem_append.1 hm with h | hm
  · exact absurd h (by decide)
  rcases List.mem_append.1 hm with h | hm
  · exact absurd h (by decide)
  rcases List.mem_append.1 hm with h | hm
  · exact joinComma_not_mem _ _ (fun x hx => (hbl x hx).1) (by decide) (by decide) (by decide) h
  rcases List.mem_append.1 hm with h | hm
  · exact absurd h (by decide)
  rcases List.mem_append.1 hm with h | hm
  · exact absurd h (by decide)
  rcases List.mem_append.1 hm with h | hm
  · exact joinComma_not_mem _ _ (fun x hx => (hbb x hx).1) (by decide) (by decide) (by decide) h
  exact absurd hm (by decide)

theorem noCross_metaPre_nl (p : List Char) (c1 : Char) (t : Task) (rest : List Char)
    (hp0 : p[0]? = some (Char.ofNat 10)) (hp1 : p[1]? = some c1)
    (hstar : c1 ≠ '*') (hnl : c1 ≠ Char.ofNat 10)
    (hrest : rest[0]? = some (Char.ofNat 10))
    (hid : plainStr t.id = true) (hca : plainStr t.created_at = true)
    (hua : plainStr t.updated_at = true)
    (hbl : ∀ x ∈ t.blocks, plainStr x = true ∧ x ≠ [])
    (hbb : ∀ x ∈ t.blocked_by, plainStr x = true ∧ x ≠ []) :
    NoCross p (metaPre t) rest := by
  unfold metaPre
  apply noCross_append
  · exact noCross_snd_char _ _ _ c1 '*' hp1 (by intro hm2; simp at hm2; exact hnl hm2) (by simp [str]) (fun he => hstar he.symm)
  apply noCross_append
  · exact noCross_head _ _ _ (Char.ofNat 10) hp0 (by decide)
  apply noCross_append
  · exact noCross_head _ _ _ (Char.ofNat 10) hp0 (plain_no_nl _ hid)
  apply noCross_append
  · exact noCross_snd_char _ _ _ c1 '*' hp1 (by intro hm2; simp at hm2; exact hnl hm2) (by simp [str]) (fun he => hstar he.symm)
  apply noCross_append
  · exact noCross_head _ _ _ (Char.ofNat 10) hp0 (by decide)
  apply noCross_append
  · exact noCross_head _ _ _ (Char.ofNat 10) hp0 (plain_no_nl _ hca)
  apply noCross_append
  · exact noCross_snd_char _ _ _ c1 '*' hp1 (by intro hm2; simp at hm2; exact hnl hm2) (by simp [str]) (fun he => hstar he.symm)
  apply noCross_append
  · exact noCross_head _ _ _ (Char.ofNat 10) hp0 (by decide)
  apply noCross_append
  · exact noCross_head _ _ _ (Char.ofNat 10) hp0 (plain_no_nl _ hua)
  apply noCross_append
  · exact noCross_snd_char _ _ _ c1 '*' hp1 (by intro hm2; simp at hm2; exact hnl hm2) (by simp [str]) (fun he => hstar he.symm)
  apply noCross_append
  · exact noCross_head _ _ _ (Char.ofNat 10) hp0 (by decide)
  apply noCross_append
  · exact noCross_head _ _ _ (Char.ofNat 10) hp0 (joinComma_not_mem _ _ (fun x hx => (hbl x hx).1) (by decide) (by decide) (by decide))
  apply noCross_append
  · exact noCross_snd_char _ _ _ c1 '*' hp1 (by intro hm2; simp at hm2; exact hnl hm2) (by simp [str]) (fun he => hstar he.symm)
  apply noCross_append
  · exact noCross_head _ _ _ (Char.ofNat 10) hp0 (by decide)
  apply noCross_append
  · exact noCross_head _ _ _ (Char.ofNat 10) hp0 (joinComma_not_mem _ _ (fun x hx => (hbb x hx).1) (by decide) (by decide) (by decide))
  exact noCross_snd_char _ _ _ c1 (Char.ofNat 10) hp1 (by intro hm2; simp at hm2; exact hnl hm2) hrest (fun he => hnl he.symm)

theorem joinComma_getLast_ne (l : List (List Char))
    (hall : ∀ x ∈ l, plainStr x = true ∧ x ≠ []) (c : Char) (hc : plainChar c = false) :
    (joinComma l).getLast? ≠ some c := by
  rcases joinComma_getLast_plain l hall with h | ⟨d, hd, hpl⟩
  · rw [h]
    simp
  · rw [hd]
    intro he
    rw [Option.some.inj he] at hpl
    rw [hc] at hpl
    exact absurd hpl (by simp)

theorem noCross_metaPre_checkbox (t : Task) (rest : List Char)
    (hid : plainStr t.id = true) (hca : plainStr t.created_at = true)
    (hua : plainStr t.updated_at = true)
    (hbl : ∀ x ∈ t.blocks, plainStr x = true ∧ x ≠ [])
    (hbb : ∀ x ∈ t.blocked_by, plainStr x = true ∧ x ≠ []) :
    NoCross checkboxPat (metaPre t) rest := by
  unfold metaPre
  apply noCross_append
  · exact noCross_of_dies _ _ _ (by decide)
  apply noCross_append
  · exact noCross_of_dies _ _ _ (by decide)
  apply noCross_append
  · exact noCross_snd_char _ _ _ ' ' (Char.ofNat 10) (by decide) (plain_not_mem _ _ hid (by decide)) (by simp) (by decide)
  apply noCross_append
  · exact noCross_of_dies _ _ _ (by decide)
  apply noCross_append
  · exact noCross_of_dies _ _ _ (by decide)
  apply noCross_append
  · exact noCross_snd_char _ _ _ ' ' (Char.ofNat 10) (by decide) (plain_not_mem _ _ hca (by decide)) (by simp) (by decide)
  apply noCross_append
  · exact noCross_of_dies _ _ _ (by decide)
  apply noCross_append
  · exact noCross_of_dies _ _ _ (by decide)
  apply noCross_append
  · exact noCross_snd_char _ _ _ ' ' (Char.ofNat 10) (by decide) (plain_not_mem _ _ hua (by decide)) (by simp) (by decide)
  apply noCross_append
  · exact noCross_of_dies _ _ _ (by decide)
  apply noCross_append
  · exact noCross_of_dies _ _ _ (by decide)
  apply noCross_append
  · exact noCross_third_char _ _ _ ' ' '[' (Char.ofNat 10) (by decide) (by decide) (joinComma_not_mem _ _ (fun x hx => (hbl x hx).1) (by decide) (by decide) (by decide)) (joinComma_getLast_ne _ (fun x hx => hbl x hx) ' ' (by decide)) (by simp) (by decide)
  apply noCross_append
  · exact noCross_of_dies _ _ _ (by decide)
  apply noCross_append
  · exact noCross_of_dies _ _ _ (by decide)
  apply noCross_append
  · exact noCross_third_char _ _ _ ' ' '[' (Char.ofNat 10) (by decide) (by decide) (joinComma_not_mem _ _ (fun x hx => (hbb x hx).1) (by decide) (by decide) (by decide)) (joinComma_getLast_ne _ (fun x hx => hbb x hx) ' ' (by decide)) (by simp) (by decide)
  exact noCross_of_dies _ _ _ (by decide)

/-! ## The body after the metadata prefix -/

theorem body_decomp (t : Task) (tailC : List Char) :
    bodyCore t ++ tailC = metaPre t ++ bodyRest t tailC := by
  unfold bodyCore metaPre bodyRest
  simp only [List.append_assoc, List.cons_append]
  rfl

theorem parseStatus_body (t : Task) (hwf : WFtask t) (tailC : List Char) :
    parseStatus (bodyCore t ++ tailC) = t.status := by
  obtain ⟨-, -, hid, hca, hua, hbl, hbb, hst, -, -, -, -⟩ := hwf
  rw [body_decomp]
  unfold parseStatus
  rw [findChecked_skip _ _ (noCross_metaPre_checkbox t _ hid hca hua hbl hbb)]
  unfold bodyRest
  generalize str "\n## Description\n\n<description>" ++ (Char.ofNat 10 :: (t.description ++
    (str "\n</description>" ++ (sessCore t.sessions ++ tailC)))) = Z
  simp only [validStatuses, List.mem_cons, List.not_mem_nil, or_false] at hst
  rcases hst with h | h | h | h
  · rw [h]
    rw [show str "\n## Status\n\n" ++ ((statusChoices.map (checkboxLine stOpen)).flatten ++ Z) =
      str "\n## Status\n\n" ++ (str "- [x] " ++ (str "Open" ++ (Char.ofNat 10 ::
        (str "- [ ] In Progress\n- [ ] Blocked\n- [ ] Done\n" ++ Z)))) from rfl]
    rw [findChecked_skip _ _ (noCross_of_dies _ _ _ (by decide))]
    rw [findChecked_found _ _ (by decide) (by decide)]
    decide
  · rw [h]
    rw [show str "\n## Status\n\n" ++ ((statusChoices.map (checkboxLine stInProgress)).flatten ++ Z) =
      str "\n## Status\n\n- [ ] Open\n" ++ (str "- [x] " ++ (str "In Progress" ++ (Char.ofNat 10 ::
        (str "- [ ] Blocked\n- [ ] Done\n" ++ Z)))) from rfl]
    rw [findChecked_skip _ _ (noCross_of_dies _ _ _ (by decide))]
    rw [findChecked_found _ _ (by decide) (by decide)]
    decide
  · rw [h]
    rw [show str "\n## Status\n\n" ++ ((statusChoices.map (checkboxLine stDone)).flatten ++ Z) =
      str "\n## Status\n\n- [ ] Open\n- [ ] In Progress\n- [ ] Blocked\n" ++ (str "- [x] " ++ (str "Done" ++ (Char.ofNat 10 ::
        (Z)))) from rfl]
    rw [findChecked_skip _ _ (noCross_of_dies _ _ _ (by decide))]
    rw [findChecked_found _ _ (by decide) (by decide)]
    decide
  · rw [h]
    rw [show str "\n## Status\n\n" ++ ((statusChoices.map (checkboxLine stBlocked)).flatten ++ Z) =
      str "\n## Status\n\n- [ ] Open\n- [ ] In Progress\n" ++ (str "- [x] " ++ (str "Blocked" ++ (Char.ofNat 10 ::
        (str "- [ ] Done\n" ++ Z)))) from rfl]
    rw [findChecked_skip _ _ (noCross_of_dies _ _ _ (by decide))]
    rw [findChecked_found _ _ (by decide) (by decide)]
    decide

theorem findDescXml_body (t : Task) (hwf : WFtask t) (tailC : List Char) :
    findDescXml (bodyCore t ++ tailC) = some t.description := by
  obtain ⟨-, -, hid, hca, hua, hbl, hbb, hst, -, hcd, -, -⟩ := hwf
  rw [body_decomp]
  rw [findDescXml_skip _ _ (noCross_head _ _ _ '#' (by decide)
    (hash_not_mem_metaPre t hid hca hua hbl hbb))]
  unfold bodyRest
  generalize sessCore t.sessions ++ tailC = W
  simp only [validStatuses, List.mem_cons, List.not_mem_nil, or_false] at hst
  rcases hst with h | h | h | h
  · rw [h]
    rw [show str "\n## Status\n\n" ++ ((statusChoices.map (checkboxLine stOpen)).flatten ++
        (str "\n## Description\n\n<description>" ++ (Char.ofNat 10 :: (t.description ++
          (str "\n</description>" ++ W))))) =
      str "\n## Status\n\n- [x] Open\n- [ ] In Progress\n- [ ] Blocked\n- [ ] Done\n\n" ++ (descOpenPat ++ (t.description ++ (descClosePat ++ W))) from rfl]
    rw [findDescXml_skip _ _ (noCross_of_dies _ _ _ (by decide))]
    exact findDescXml_found t.description W (noCross_close _ _ _ hcd (by decide))
  · rw [h]
    rw [show str "\n## Status\n\n" ++ ((statusChoices.map (checkboxLine stInProgress)).flatten ++
        (str "\n## Description\n\n<description>" ++ (Char.ofNat 10 :: (t.description ++
          (str "\n</description>" ++ W))))) =
      str "\n## Status\n\n- [ ] Open\n- [x] In Progress\n- [ ] Blocked\n- [ ] Done\n\n" ++ (descOpenPat ++ (t.description ++ (descClosePat ++ W))) from rfl]
    rw [findDescXml_skip _ _ (noCross_of_dies _ _ _ (by decide))]
    exact findDescXml_found t.description W (noCross_close _ _ _ hcd (by decide))
  · rw [h]
    rw [show str "\n## Status\n\n" ++ ((statusChoices.map (checkboxLine stDone)).flatten ++
        (str "\n## Description\n\n<description>" ++ (Char.ofNat 10 :: (t.description ++
          (str "\n</description>" ++ W))))) =
      str "\n## Status\n\n- [ ] Open\n- [ ] In Progress\n- [ ] Blocked\n- [x] Done\n\n" ++ (descOpenPat ++ (t.description ++ (descClosePat ++ W))) from rfl]
    rw [findDescXml_skip _ _ (noCross_of_dies _ _ _ (by decide))]
    exact findDescXml_found t.description W (noCross_close _ _ _ hcd (by decide))
  · rw [h]
    rw [show str "\n## Status\n\n" ++ ((statusChoices.map (checkboxLine stBlocked)).flatten ++
        (str "\n## Description\n\n<description>" ++ (Char.ofNat 10 :: (t.description ++
          (str "\n</description>" ++ W))))) =
      str "\n## Status\n\n- [ ] Open\n- [ ] In Progress\n- [x] Blocked\n- [ ] Done\n\n" ++ (descOpenPat ++ (t.description ++ (descClosePat ++ W))) from rfl]
    rw [findDescXml_skip _ _ (noCross_of_dies _ _ _ (by decide))]
    exact findDescXml_found t.description W (noCross_close _ _ _ hcd (by decide))

theorem sessLegacy_small_tail (tailC : List Char)
    (h : tailC = [] ∨ tailC = [Char.ofNat 10]) :
    ∀ f, sessionsLegacy f tailC = [] := by
  rcases h with rfl | rfl
  · intro f
    exact sessionsLegacy_nil f
  · intro f
    cases f with
    | zero => rfl
    | succ f2 =>
      rw [show ([Char.ofNat 10] : List Char) = Char.ofNat 10 :: [] from rfl,
        sessionsLegacy_cons]
      rw [if_neg (by rw [sessHeaderAt_nl]; simp)]
      exact sessionsLegacy_nil f2

theorem sess_map_id (ss : List Session) (h : ∀ s ∈ ss, pyStrip s.log = s.log) :
    ss.map (fun s => { timestamp := s.timestamp, log := pyStrip s.log }) = ss := by
  induction ss with
  | nil => rfl
  | cons s ss ih =>
    simp only [List.map_cons]
    rw [h s (List.mem_cons_self _ _), ih (fun x hx => h x (List.mem_cons_of_mem _ hx))]

theorem sessionsXml_body (t : Task) (hwf : WFtask t) (tailC : List Char)
    (htail : tailC = [] ∨ tailC = [Char.ofNat 10]) :
    ∀ f, (bodyCore t ++ tailC).length < f →
    sessionsXml f (bodyCore t ++ tailC) = t.sessions := by
  obtain ⟨-, -, hid, hca, hua, hbl, hbb, hst, hfree, -, -, hsess⟩ := hwf
  have hfree4 : containsSessHeader t.description = false := hfree.2.2.2
  intro f hf
  simp only [validStatuses, List.mem_cons, List.not_mem_nil, or_false] at hst
  rcases hst with h | h | h | h
  · cases hses : t.sessions with
    | nil =>
      have hview : bodyCore t ++ tailC =
          metaPre t ++ (str "\n## Status\n\n- [x] Open\n- [ ] In Progress\n- [ ] Blocked\n- [ ] Done\n\n## Description\n\n<description>\n" ++ (t.description ++ (str "\n</description>" ++ tailC))) := by
        unfold bodyCore metaPre
        rw [h, hses]
        simp only [List.append_assoc, List.cons_append]
        rfl
      rw [hview] at hf ⊢
      simp only [List.length_append] at hf
      obtain ⟨f3, rfl, hf3⟩ : ∃ f3, f = (metaPre t).length + (str "\n## Status\n\n- [x] Open\n- [ ] In Progress\n- [ ] Blocked\n- [ ] Done\n\n## Description\n\n<description>\n").length +
          (t.description.length + ((str "\n</description>").length + f3)) ∧ tailC.length < f3 :=
        ⟨f - (metaPre t).length - (str "\n## Status\n\n- [x] Open\n- [ ] In Progress\n- [ ] Blocked\n- [ ] Done\n\n## Description\n\n<description>\n").length - t.description.length -
          (str "\n</description>").length, by omega, by omega⟩
      rw [Nat.add_assoc]
      rw [sessionsXml_skip _ _ _ (noShapeCross_no_hash _ _
        (hash_not_mem_metaPre t hid hca hua hbl hbb))]
      rw [sessionsXml_skip _ _ _ (noShapeCross_of_dies _ _ (by decide))]
      rw [sessionsXml_skip _ _ _ (noShapeCross_contains _ _ hfree4
        (Or.inl (by simp [str])))]
      rw [sessionsXml_skip _ _ _ (noShapeCross_of_dies _ _ (by decide))]
      exact sessXml_small_tail tailC htail f3
    | cons s ss2 =>
      have hview : bodyCore t ++ tailC =
          metaPre t ++ (str "\n## Status\n\n- [x] Open\n- [ ] In Progress\n- [ ] Blocked\n- [ ] Done\n\n## Description\n\n<description>\n" ++ (t.description ++ (str "\n</description>\n\n## Session Logs\n\n" ++
            (sessFlat1 (s :: ss2) ++ tailC)))) := by
        unfold bodyCore metaPre
        rw [h, hses]
        simp only [List.append_assoc, List.cons_append]
        rfl
      rw [hview] at hf ⊢
      simp only [List.length_append] at hf
      obtain ⟨f3, rfl, hf3⟩ : ∃ f3, f = (metaPre t).length + (str "\n## Status\n\n- [x] Open\n- [ ] In Progress\n- [ ] Blocked\n- [ ] Done\n\n## Description\n\n<description>\n").length +
          (t.description.length + ((str "\n</description>\n\n## Session Logs\n\n").length + f3)) ∧
          (sessFlat1 (s :: ss2) ++ tailC).length < f3 :=
        ⟨f - (metaPre t).length - (str "\n## Status\n\n- [x] Open\n- [ ] In Progress\n- [ ] Blocked\n- [ ] Done\n\n## Description\n\n<description>\n").length - t.description.length -
          (str "\n</description>\n\n## Session Logs\n\n").length, by omega,
          by simp only [List.length_append]; omega⟩
      rw [Nat.add_assoc]
      rw [sessionsXml_skip _ _ _ (noShapeCross_no_hash _ _
        (hash_not_mem_metaPre t hid hca hua hbl hbb))]
      rw [sessionsXml_skip _ _ _ (noShapeCross_of_dies _ _ (by decide))]
      rw [sessionsXml_skip _ _ _ (noShapeCross_contains _ _ hfree4
        (Or.inl (by simp [str])))]
      rw [sessionsXml_skip _ _ _ (noShapeCross_of_dies _ _ (by decide))]
      rw [sessXml_flat1 (s :: ss2) (by simp)
        (fun x hx => ⟨(hsess x (by rw [hses]; exact hx)).1.1,
          (hsess x (by rw [hses]; exact hx)).1.2,
          (hsess x (by rw [hses]; exact hx)).2.2.1⟩) tailC htail f3 hf3]
      exact sess_map_id (s :: ss2) (fun x hx => (hsess x (by rw [hses]; exact hx)).2.2.2)
  · cases hses : t.sessions with
    | nil =>
      have hview : bodyCore t ++ tailC =
          metaPre t ++ (str "\n## Status\n\n- [ ] Open\n- [x] In Progress\n- [ ] Blocked\n- [ ] Done\n\n## Description\n\n<description>\n" ++ (t.description ++ (str "\n</description>" ++ tailC))) := by
        unfold bodyCore metaPre
        rw [h, hses]
        simp only [List.append_assoc, List.cons_append]
        rfl
      rw [hview] at hf ⊢
      simp only [List.length_append] at hf
      obtain ⟨f3, rfl, hf3⟩ : ∃ f3, f = (metaPre t).length + (str "\n## Status\n\n- [ ] Open\n- [x] In Progress\n- [ ] Blocked\n- [ ] Done\n\n## Description\n\n<description>\n").length +
          (t.description.length + ((str "\n</description>").length + f3)) ∧ tailC.length < f3 :=
        ⟨f - (metaPre t).length - (str "\n## Status\n\n- [ ] Open\n- [x] In Progress\n- [ ] Blocked\n- [ ] Done\n\n## Description\n\n<description>\n").length - t.description.length -
          (str "\n</description>").length, by omega, by omega⟩
      rw [Nat.add_assoc]
      rw [sessionsXml_skip _ _ _ (noShapeCross_no_hash _ _
        (hash_not_mem_metaPre t hid hca hua hbl hbb))]
      rw [sessionsXml_skip _ _ _ (noShapeCross_of_dies _ _ (by decide))]
      rw [sessionsXml_skip _ _ _ (noShapeCross_contains _ _ hfree4
        (Or.inl (by simp [str])))]
      rw [sessionsXml_skip _ _ _ (noShapeCross_of_dies _ _ (by decide))]
      exact sessXml_small_tail tailC htail f3
    | cons s ss2 =>
      have hview : bodyCore t ++ tailC =
          metaPre t ++ (str "\n## Status\n\n- [ ] Open\n- [x] In Progress\n- [ ] Blocked\n- [ ] Done\n\n## Description\n\n<description>\n" ++ (t.description ++ (str "\n</description>\n\n## Session Logs\n\n" ++
            (sessFlat1 (s :: ss2) ++ tailC)))) := by
        unfold bodyCore metaPre
        rw [h, hses]
        simp only [List.append_assoc, List.cons_append]
        rfl
      rw [hview] at hf ⊢
      simp only [List.length_append] at hf
      obtain ⟨f3, rfl, hf3⟩ : ∃ f3, f = (metaPre t).length + (str "\n## Status\n\n- [ ] Open\n- [x] In Progress\n- [ ] Blocked\n- [ ] Done\n\n## Description\n\n<description>\n").length +
          (t.description.length + ((str "\n</description>\n\n## Session Logs\n\n").length + f3)) ∧
          (sessFlat1 (s :: ss2) ++ tailC).length < f3 :=
        ⟨f - (metaPre t).length - (str "\n## Status\n\n- [ ] Open\n- [x] In Progress\n- [ ] Blocked\n- [ ] Done\n\n## Description\n\n<description>\n").length - t.description.length -
          (str "\n</description>\n\n## Session Logs\n\n").length, by omega,
          by simp only [List.length_append]; omega⟩
      rw [Nat.add_assoc]
      rw [sessionsXml_skip _ _ _ (noShapeCross_no_hash _ _
        (hash_not_mem_metaPre t hid hca hua hbl hbb))]
      rw [sessionsXml_skip _ _ _ (noShapeCross_of_dies _ _ (by decide))]
      rw [sessionsXml_skip _ _ _ (noShapeCross_contains _ _ hfree4
        (Or.inl (by simp [str])))]
      rw [sessionsXml_skip _ _ _ (noShapeCross_of_dies _ _ (by decide))]
      rw [sessXml_flat1 (s :: ss2) (by simp)
        (fun x hx => ⟨(hsess x (by rw [hses]; exact hx)).1.1,
          (hsess x (by rw [hses]; exact hx)).1.2,
          (hsess x (by rw [hses]; exact hx)).2.2.1⟩) tailC htail f3 hf3]
      exact sess_map_id (s :: ss2) (fun x hx => (hsess x (by rw [hses]; exact hx)).2.2.2)
  · cases hses : t.sessions with
    | nil =>
      have hview : bodyCore t ++ tailC =
          metaPre t ++ (str "\n## Status\n\n- [ ] Open\n- [ ] In Progress\n- [ ] Blocked\n- [x] Done\n\n## Description\n\n<description>\n" ++ (t.description ++ (str "\n</description>" ++ tailC))) := by
        unfold bodyCore metaPre
        rw [h, hses]
        simp only [List.append_assoc, List.cons_append]
        rfl
      rw [hview] at hf ⊢
      simp only [List.length_append] at hf
      obtain ⟨f3, rfl, hf3⟩ : ∃ f3, f = (metaPre t).length + (str "\n## Status\n\n- [ ] Open\n- [ ] In Progress\n- [ ] Blocked\n- [x] Done\n\n## Description\n\n<description>\n").length +
          (t.description.length + ((str "\n</description>").length + f3)) ∧ tailC.length < f3 :=
        ⟨f - (metaPre t).length - (str "\n## Status\n\n- [ ] Open\n- [ ] In Progress\n- [ ] Blocked\n- [x] Done\n\n## Description\n\n<description>\n").length - t.description.length -
          (str "\n</description>").length, by omega, by omega⟩
      rw [Nat.add_assoc]
      rw [sessionsXml_skip _ _ _ (noShapeCross_no_hash _ _
        (hash_not_mem_metaPre t hid hca hua hbl hbb))]
      rw [sessionsXml_skip _ _ _ (noShapeCross_of_dies _ _ (by decide))]
      rw [sessionsXml_skip _ _ _ (noShapeCross_contains _ _ hfree4
        (Or.inl (by simp [str])))]
      rw [sessionsXml_skip _ _ _ (noShapeCross_of_dies _ _ (by decide))]
      exact sessXml_small_tail tailC htail f3
    | cons s ss2 =>
      have hview : bodyCore t ++ tailC =
          metaPre t ++ (str "\n## Status\n\n- [ ] Open\n- [ ] In Progress\n- [ ] Blocked\n- [x] Done\n\n## Description\n\n<description>\n" ++ (t.description ++ (str "\n</description>\n\n## Session Logs\n\n" ++
            (sessFlat1 (s :: ss2) ++ tailC)))) := by
        unfold bodyCore metaPre
        rw [h, hses]
        simp only [List.append_assoc, List.cons_append]
        rfl
      rw [hview] at hf ⊢
      simp only [List.length_append] at hf
      obtain ⟨f3, rfl, hf3⟩ : ∃ f3, f = (metaPre t).length + (str "\n## Status\n\n- [ ] Open\n- [ ] In Progress\n- [ ] Blocked\n- [x] Done\n\n## Description\n\n<description>\n").length +
          (t.description.length + ((str "\n</description>\n\n## Session Logs\n\n").length + f3)) ∧
          (sessFlat1 (s :: ss2) ++ tailC).length < f3 :=
        ⟨f - (metaPre t).length - (str "\n## Status\n\n- [ ] Open\n- [ ] In Progress\n- [ ] Blocked\n- [x] Done\n\n## Description\n\n<description>\n").length - t.description.length -
          (str "\n</description>\n\n## Session Logs\n\n").length, by omega,
          by simp only [List.length_append]; omega⟩
      rw [Nat.add_assoc]
      rw [sessionsXml_skip _ _ _ (noShapeCross_no_hash _ _
        (hash_not_mem_metaPre t hid hca hua hbl hbb))]
      rw [sessionsXml_skip _ _ _ (noShapeCross_of_dies _ _ (by decide))]
      rw [sessionsXml_skip _ _ _ (noShapeCross_contains _ _ hfree4
        (Or.inl (by simp [str])))]
      rw [sessionsXml_skip _ _ _ (noShapeCross_of_dies _ _ (by decide))]
      rw [sessXml_flat1 (s :: ss2) (by simp)
        (fun x hx => ⟨(hsess x (by rw [hses]; exact hx)).1.1,
          (hsess x (by rw [hses]; exact hx)).1.2,
          (hsess x (by rw [hses]; exact hx)).2.2.1⟩) tailC htail f3 hf3]
      exact sess_map_id (s :: ss2) (fun x hx => (hsess x (by rw [hses]; exact hx)).2.2.2)
  · cases hses : t.sessions with
    | nil =>
      have hview : bodyCore t ++ tailC =
          metaPre t ++ (str "\n## Status\n\n- [ ] Open\n- [ ] In Progress\n- [x] Blocked\n- [ ] Done\n\n## Description\n\n<description>\n" ++ (t.description ++ (str "\n</description>" ++ tailC))) := by
        unfold bodyCore metaPre
        rw [h, hses]
        simp only [List.append_assoc, List.cons_append]
        rfl
      rw [hview] at hf ⊢
      simp only [List.length_append] at hf
      obtain ⟨f3, rfl, hf3⟩ : ∃ f3, f = (metaPre t).length + (str "\n## Status\n\n- [ ] Open\n- [ ] In Progress\n- [x] Blocked\n- [ ] Done\n\n## Description\n\n<description>\n").length +
          (t.description.length + ((str "\n</description>").length + f3)) ∧ tailC.length < f3 :=
        ⟨f - (metaPre t).length - (str "\n## Status\n\n- [ ] Open\n- [ ] In Progress\n- [x] Blocked\n- [ ] Done\n\n## Description\n\n<description>\n").length - t.description.length -
          (str "\n</description>").length, by omega, by omega⟩
      rw [Nat.add_assoc]
      rw [sessionsXml_skip _ _ _ (noShapeCross_no_hash _ _
        (hash_not_mem_metaPre t hid hca hua hbl hbb))]
      rw [sessionsXml_skip _ _ _ (noShapeCross_of_dies _ _ (by decide))]
      rw [sessionsXml_skip _ _ _ (noShapeCross_contains _ _ hfree4
        (Or.inl (by simp [str])))]
      rw [sessionsXml_skip _ _ _ (noShapeCross_of_dies _ _ (by decide))]
      exact sessXml_small_tail tailC htail f3
    | cons s ss2 =>
      have hview : bodyCore t ++ tailC =
          metaPre t ++ (str "\n## Status\n\n- [ ] Open\n- [ ] In Progress\n- [x] Blocked\n- [ ] Done\n\n## Description\n\n<description>\n" ++ (t.description ++ (str "\n</description>\n\n## Session Logs\n\n" ++
            (sessFlat1 (s :: ss2) ++ tailC)))) := by
        unfold bodyCore metaPre
        rw [h, hses]
        simp only [List.append_assoc, List.cons_append]
        rfl
      rw [hview] at hf ⊢
      simp only [List.length_append] at hf
      obtain ⟨f3, rfl, hf3⟩ : ∃ f3, f = (metaPre t).length + (str "\n## Status\n\n- [ ] Open\n- [ ] In Progress\n- [x] Blocked\n- [ ] Done\n\n## Description\n\n<description>\n").length +
          (t.description.length + ((str "\n</description>\n\n## Session Logs\n\n").length + f3)) ∧
          (sessFlat1 (s :: ss2) ++ tailC).length < f3 :=
        ⟨f - (metaPre t).length - (str "\n## Status\n\n- [ ] Open\n- [ ] In Progress\n- [x] Blocked\n- [ ] Done\n\n## Description\n\n<description>\n").length - t.description.length -
          (str "\n</description>\n\n## Session Logs\n\n").length, by omega,
          by simp only [List.length_append]; omega⟩
      rw [Nat.add_assoc]
      rw [sessionsXml_skip _ _ _ (noShapeCross_no_hash _ _
        (hash_not_mem_metaPre t hid hca hua hbl hbb))]
      rw [sessionsXml_skip _ _ _ (noShapeCross_of_dies _ _ (by decide))]
      rw [sessionsXml_skip _ _ _ (noShapeCross_contains _ _ hfree4
        (Or.inl (by simp [str])))]
      rw [sessionsXml_skip _ _ _ (noShapeCross_of_dies _ _ (by decide))]
      rw [sessXml_flat1 (s :: ss2) (by simp)
        (fun x hx => ⟨(hsess x (by rw [hses]; exact hx)).1.1,
          (hsess x (by rw [hses]; exact hx)).1.2,
          (hsess x (by rw [hses]; exact hx)).2.2.1⟩) tailC htail f3 hf3]
      exact sess_map_id (s :: ss2) (fun x hx => (hsess x (by rw [hses]; exact hx)).2.2.2)

theorem sessionsLegacy_body (t : Task) (hwf : WFtask t) (tailC : List Char)
    (htail : tailC = [] ∨ tailC = [Char.ofNat 10]) (hses : t.sessions = []) :
    ∀ f, (bodyCore t ++ tailC).length < f →
    sessionsLegacy f (bodyCore t ++ tailC) = [] := by
  obtain ⟨-, -, hid, hca, hua, hbl, hbb, hst, hfree, -, -, -⟩ := hwf
  have hfree4 : containsSessHeader t.description = false := hfree.2.2.2
  intro f hf
  simp only [validStatuses, List.mem_cons, List.not_mem_nil, or_false] at hst
  rcases hst with h | h | h | h
  · have hview : bodyCore t ++ tailC =
        metaPre t ++ (str "\n## Status\n\n- [x] Open\n- [ ] In Progress\n- [ ] Blocked\n- [ ] Done\n\n## Description\n\n<description>\n" ++ (t.description ++ (str "\n</description>" ++ tailC))) := by
      unfold bodyCore metaPre
      rw [h, hses]
      simp only [List.append_assoc, List.cons_append]
      rfl
    rw [hview] at hf ⊢
    simp only [List.length_append] at hf
    obtain ⟨f3, rfl, hf3⟩ : ∃ f3, f = (metaPre t).length + (str "\n## Status\n\n- [x] Open\n- [ ] In Progress\n- [ ] Blocked\n- [ ] Done\n\n## Description\n\n<description>\n").length +
        (t.description.length + ((str "\n</description>").length + f3)) ∧ tailC.length < f3 :=
      ⟨f - (metaPre t).length - (str "\n## Status\n\n- [x] Open\n- [ ] In Progress\n- [ ] Blocked\n- [ ] Done\n\n## Description\n\n<description>\n").length - t.description.length -
        (str "\n</description>").length, by omega, by omega⟩
    rw [Nat.add_assoc]
    rw [sessionsLegacy_skip _ _ _ (noShapeCross_no_hash _ _
      (hash_not_mem_metaPre t hid hca hua hbl hbb))]
    rw [sessionsLegacy_skip _ _ _ (noShapeCross_of_dies _ _ (by decide))]
    rw [sessionsLegacy_skip _ _ _ (noShapeCross_contains _ _ hfree4
      (Or.inl (by simp [str])))]
    rw [sessionsLegacy_skip _ _ _ (noShapeCross_of_dies _ _ (by decide))]
    exact sessLegacy_small_tail tailC htail f3
  · have hview : bodyCore t ++ tailC =
        metaPre t ++ (str "\n## Status\n\n- [ ] Open\n- [x] In Progress\n- [ ] Blocked\n- [ ] Done\n\n## Description\n\n<description>\n" ++ (t.description ++ (str "\n</description>" ++ tailC))) := by
      unfold bodyCore metaPre
      rw [h, hses]
      simp only [List.append_assoc, List.cons_append]
      rfl
    rw [hview] at hf ⊢
    simp only [List.length_append] at hf
    obtain ⟨f3, rfl, hf3⟩ : ∃ f3, f = (metaPre t).length + (str "\n## Status\n\n- [ ] Open\n- [x] In Progress\n- [ ] Blocked\n- [ ] Done\n\n## Description\n\n<description>\n").length +
        (t.description.length + ((str "\n</description>").length + f3)) ∧ tailC.length < f3 :=
      ⟨f - (metaPre t).length - (str "\n## Status\n\n- [ ] Open\n- [x] In Progress\n- [ ] Blocked\n- [ ] Done\n\n## Description\n\n<description>\n").length - t.description.length -
        (str "\n</description>").length, by omega, by omega⟩
    rw [Nat.add_assoc]
    rw [sessionsLegacy_skip _ _ _ (noShapeCross_no_hash _ _
      (hash_not_mem_metaPre t hid hca hua hbl hbb))]
    rw [sessionsLegacy_skip _ _ _ (noShapeCross_of_dies _ _ (by decide))]
    rw [sessionsLegacy_skip _ _ _ (noShapeCross_contains _ _ hfree4
      (Or.inl (by simp [str])))]
    rw [sessionsLegacy_skip _ _ _ (noShapeCross_of_dies _ _ (by decide))]
    exact sessLegacy_small_tail tailC htail f3
  · have hview : bodyCore t ++ tailC =
        metaPre t ++ (str "\n## Status\n\n- [ ] Open\n- [ ] In Progress\n- [ ] Blocked\n- [x] Done\n\n## Description\n\n<description>\n" ++ (t.description ++ (str "\n</description>" ++ tailC))) := by
      unfold bodyCore metaPre
      rw [h, hses]
      simp only [List.append_assoc, List.cons_append]
      rfl
    rw [hview] at hf ⊢
    simp only [List.length_append] at hf
    obtain ⟨f3, rfl, hf3⟩ : ∃ f3, f = (metaPre t).length + (str "\n## Status\n\n- [ ] Open\n- [ ] In Progress\n- [ ] Blocked\n- [x] Done\n\n## Description\n\n<description>\n").length +
        (t.description.length + ((str "\n</description>").length + f3)) ∧ tailC.length < f3 :=
      ⟨f - (metaPre t).length - (str "\n## Status\n\n- [ ] Open\n- [ ] In Progress\n- [ ] Blocked\n- [x] Done\n\n## Description\n\n<description>\n").length - t.description.length -
        (str "\n</description>").length, by omega, by omega⟩
    rw [Nat.add_assoc]
    rw [sessionsLegacy_skip _ _ _ (noShapeCross_no_hash _ _
      (hash_not_mem_metaPre t hid hca hua hbl hbb))]
    rw [sessionsLegacy_skip _ _ _ (noShapeCross_of_dies _ _ (by decide))]
    rw [sessionsLegacy_skip _ _ _ (noShapeCross_contains _ _ hfree4
      (Or.inl (by simp [str])))]
    rw [sessionsLegacy_skip _ _ _ (noShapeCross_of_dies _ _ (by decide))]
    exact sessLegacy_small_tail tailC htail f3
  · have hview : bodyCore t ++ tailC =
        metaPre t ++ (str "\n## Status\n\n- [ ] Open\n- [ ] In Progress\n- [x] Blocked\n- [ ] Done\n\n## Description\n\n<description>\n" ++ (t.description ++ (str "\n</description>" ++ tailC))) := by
      unfold bodyCore metaPre
      rw [h, hses]
      simp only [List.append_assoc, List.cons_append]
      rfl
    rw [hview] at hf ⊢
    simp only [List.length_append] at hf
    obtain ⟨f3, rfl, hf3⟩ : ∃ f3, f = (metaPre t).length + (str "\n## Status\n\n- [ ] Open\n- [ ] In Progress\n- [x] Blocked\n- [ ] Done\n\n## Description\n\n<description>\n").length +
        (t.description.length + ((str "\n</description>").length + f3)) ∧ tailC.length < f3 :=
      ⟨f - (metaPre t).length - (str "\n## Status\n\n- [ ] Open\n- [ ] In Progress\n- [x] Blocked\n- [ ] Done\n\n## Description\n\n<description>\n").length - t.description.length -
        (str "\n</description>").length, by omega, by omega⟩
    rw [Nat.add_assoc]
    rw [sessionsLegacy_skip _ _ _ (noShapeCross_no_hash _ _
      (hash_not_mem_metaPre t hid hca hua hbl hbb))]
    rw [sessionsLegacy_skip _ _ _ (noShapeCross_of_dies _ _ (by decide))]
    rw [sessionsLegacy_skip _ _ _ (noShapeCross_contains _ _ hfree4
      (Or.inl (by simp [str])))]
    rw [sessionsLegacy_skip _ _ _ (noShapeCross_of_dies _ _ (by decide))]
    exact sessLegacy_small_tail tailC htail f3

theorem parse_body (t : Task) (hwf : WFtask t) (tailC : List Char)
    (htail : tailC = [] ∨ tailC = [Char.ofNat 10]) :
    parse_task_section (bodyCore t ++ tailC) = { t with title := [] } := by
  have hstrip : pyStrip t.description = t.description := by
    obtain ⟨-, -, -, -, -, -, -, -, -, -, hs, -⟩ := hwf
    exact hs
  simp only [parse_task_section]
  rw [fold_body t hwf tailC htail, parseStatus_body t hwf tailC,
    findDescXml_body t hwf tailC]
  rw [sessionsXml_body t hwf tailC htail _ (by omega)]
  dsimp only
  rw [hstrip]
  cases hses : t.sessions with
  | nil =>
    rw [if_pos rfl]
    rw [sessionsLegacy_body t hwf tailC htail hses _ (by omega)]
    rw [if_pos rfl]
  | cons s ss2 =>
    rw [if_neg (by simp)]
    rw [if_neg (by simp)]

/-! ## Separator stops never match inside a rendered body -/

theorem flat1_head (s : Session) (ss : List Session) :
    ∃ Y, sessFlat1 (s :: ss) = str "### " ++ Y := by
  cases ss with
  | nil => exact ⟨_, rfl⟩
  | cons s2 ss2 =>
    refine ⟨s.timestamp ++ (str "\n<log>\n" ++ (s.log ++ (str "\n</log>\n\n" ++
      sessFlat1 (s2 :: ss2)))), ?_⟩
    show renderSess s ++ sessFlat1 (s2 :: ss2) = _
    unfold renderSess
    simp only [List.append_assoc]

theorem noCross_sep2_free (dsc rest : List Char)
    (hc : containsPat sepStop2 dsc = false)
    (hr0 : rest[0]? = some (Char.ofNat 10)) :
    NoCross sepStop2 dsc rest := by
  apply noCross_general _ _ _ hc
  intro k hk0 hklen
  left
  rw [show sepStop2.length = 8 from by decide] at hklen
  interval_cases k <;>
    · cases hb : isPref (sepStop2.drop _) rest with
      | false => rfl
      | true =>
        exfalso
        have hg := isPref_get _ _ hb 0 (by decide)
        rw [hr0] at hg
        exact absurd hg (by decide)

theorem noCross_sep1_free (dsc rest : List Char)
    (hc2 : containsPat sepStop2 dsc = false)
    (hr0 : rest[0]? = some (Char.ofNat 10)) (hr1 : rest[1]? = some '<') :
    NoCross sepStop1 dsc rest := by
  apply noCross_general _ _ _ (containsPat_sep1_of_sep2 _ hc2)
  intro k hk0 hklen
  left
  rw [show sepStop1.length = 13 from by decide] at hklen
  interval_cases k <;>
    first
      | (cases hb : isPref (sepStop1.drop _) rest with
          | false => rfl
          | true =>
            exfalso
            have hg := isPref_get _ _ hb 0 (by decide)
            rw [hr0] at hg
            exact absurd hg (by decide))
      | (cases hb : isPref (sepStop1.drop _) rest with
          | false => rfl
          | true =>
            exfalso
            have hg := isPref_get _ _ hb 1 (by decide)
            rw [hr1] at hg
            exact absurd hg (by decide))

theorem noCross_sep2_nlfree (dsc rest : List Char)
    (hpref : isPref (str "# Task:") dsc = false)
    (hc : containsPat sepStop2 dsc = false)
    (hr0 : rest[0]? = some (Char.ofNat 10)) :
    NoCross sepStop2 (Char.ofNat 10 :: dsc) rest := by
  show NoCross (Char.ofNat 10 :: str "# Task:") (Char.ofNat 10 :: dsc) rest
  exact noCross_nl_free _ _ _
    (isPref_false_nlfree _ _ _ (by decide) hr0 hpref)
    (noCross_sep2_free dsc rest hc hr0)

theorem noCross_sep1_nlfree (dsc rest : List Char)
    (hc2 : containsPat sepStop2 dsc = false)
    (hr0 : rest[0]? = some (Char.ofNat 10)) (hr1 : rest[1]? = some '<') :
    NoCross sepStop1 (Char.ofNat 10 :: dsc) rest := by
  show NoCross (Char.ofNat 10 :: str "---\n\n# Task:") (Char.ofNat 10 :: dsc) rest
  exact noCross_nl_free _ _ _
    (sep1_tail_false dsc rest hc2 hr0 hr1)
    (noCross_sep1_free dsc rest hc2 hr0 hr1)

theorem noCross_flat1_sep2 : ∀ (ss : List Session) (rest : List Char),
    (∀ s ∈ ss, Char.ofNat 10 ∉ s.timestamp ∧ isPref (str "# Task:") s.log = false ∧
      containsPat sepStop2 s.log = false) →
    rest[0]? = some (Char.ofNat 10) →
    NoCross sepStop2 (sessFlat1 ss) rest := by
  intro ss
  induction ss with
  | nil =>
    intro rest _ _ i hi
    simp [sessFlat1] at hi
  | cons s ss ih =>
    intro rest hwf hr0
    obtain ⟨hts, hpref, hcp⟩ := hwf s (List.mem_cons_self _ _)
    cases ss with
    | nil =>
      rw [show sessFlat1 [s] = str "### " ++ (s.timestamp ++ (str "\n<log>" ++
        ((Char.ofNat 10 :: s.log) ++ str "\n</log>\n"))) from rfl]
      apply noCross_append
      · exact noCross_head _ _ _ (Char.ofNat 10) (by decide) (by decide)
      apply noCross_append
      · exact noCross_head _ _ _ (Char.ofNat 10) (by decide) hts
      apply noCross_append
      · exact noCross_of_dies _ _ _ (by decide)
      apply noCross_append
      · exact noCross_sep2_nlfree _ _ hpref hcp (by simp [str])
      exact noCross_snd_char _ _ _ '#' (Char.ofNat 10) (by decide) (by decide) hr0
        (by decide)
    | cons s2 ss2 =>
      rw [show sessFlat1 (s :: s2 :: ss2) = str "### " ++ (s.timestamp ++ (str "\n<log>" ++
        ((Char.ofNat 10 :: s.log) ++ (str "\n</log>\n\n" ++ sessFlat1 (s2 :: ss2))))) from by
          show renderSess s ++ sessFlat1 (s2 :: ss2) = _
          unfold renderSess
          simp only [List.append_assoc]
          rfl]
      apply noCross_append
      · exact noCross_head _ _ _ (Char.ofNat 10) (by decide) (by decide)
      apply noCross_append
      · exact noCross_head _ _ _ (Char.ofNat 10) (by decide) hts
      apply noCross_append
      · exact noCross_of_dies _ _ _ (by decide)
      apply noCross_append
      · exact noCross_sep2_nlfree _ _ hpref hcp (by simp [str])
      apply noCross_append
      · obtain ⟨Y, hY⟩ := flat1_head s2 ss2
        apply noCross_general _ _ _ (by decide)
        intro k hk0 hklen
        left
        rw [hY, List.append_assoc]
        rw [show sepStop2.length = 8 from by decide] at hklen
        interval_cases k <;> rfl
      exact ih rest (fun x hx => hwf x (List.mem_cons_of_mem _ hx)) hr0

theorem noCross_flat1_sep1 : ∀ (ss : List Session) (rest : List Char),
    (∀ s ∈ ss, Char.ofNat 10 ∉ s.timestamp ∧ containsPat sepStop2 s.log = false) →
    rest[0]? = some (Char.ofNat 10) →
    NoCross sepStop1 (sessFlat1 ss) rest := by
  intro ss
  induction ss with
  | nil =>
    intro rest _ _ i hi
    simp [sessFlat1] at hi
  | cons s ss ih =>
    intro rest hwf hr0
    obtain ⟨hts, hcp⟩ := hwf s (List.mem_cons_self _ _)
    cases ss with
    | nil =>
      rw [show sessFlat1 [s] = str "### " ++ (s.timestamp ++ (str "\n<log>" ++
        ((Char.ofNat 10 :: s.log) ++ str "\n</log>\n"))) from rfl]
      apply noCross_append
      · exact noCross_head _ _ _ (Char.ofNat 10) (by decide) (by decide)
      apply noCross_append
      · exact noCross_head _ _ _ (Char.ofNat 10) (by decide) hts
      apply noCross_append
      · exact noCross_of_dies _ _ _ (by decide)
      apply noCross_append
      · exact noCross_sep1_nlfree _ _ hcp (by simp [str]) (by simp [str])
      exact noCross_snd_char _ _ _ '-' (Char.ofNat 10) (by decide) (by decide) hr0
        (by decide)
    | cons s2 ss2 =>
      rw [show sessFlat1 (s :: s2 :: ss2) = str "### " ++ (s.timestamp ++ (str "\n<log>" ++
        ((Char.ofNat 10 :: s.log) ++ (str "\n</log>\n\n" ++ sessFlat1 (s2 :: ss2))))) from by
          show renderSess s ++ sessFlat1 (s2 :: ss2) = _
          unfold renderSess
          simp only [List.append_assoc]
          rfl]
      apply noCross_append
      · exact noCross_head _ _ _ (Char.ofNat 10) (by decide) (by decide)
      apply noCross_append
      · exact noCross_head _ _ _ (Char.ofNat 10) (by decide) hts
      apply noCross_append
      · exact noCross_of_dies _ _ _ (by decide)
      apply noCross_append
      · exact noCross_sep1_nlfree _ _ hcp (by simp [str]) (by simp [str])
      apply noCross_append
      · obtain ⟨Y, hY⟩ := flat1_head s2 ss2
        apply noCross_general _ _ _ (by decide)
        intro k hk0 hklen
        left
        rw [hY, List.append_assoc]
        rw [show sepStop1.length = 13 from by decide] at hklen
        interval_cases k <;> rfl
      exact ih rest (fun x hx => hwf x (List.mem_cons_of_mem _ hx)) hr0

theorem noCross_body_sep2 (t : Task) (rest : List Char) (hwf : WFtask t)
    (hr0 : rest[0]? = some (Char.ofNat 10)) :
    NoCross sepStop2 (bodyCore t) rest := by
  obtain ⟨-, -, hid, hca, hua, hbl, hbb, hst, hfree, -, -, hsess⟩ := hwf
  simp only [validStatuses, List.mem_cons, List.not_mem_nil, or_false] at hst
  rcases hst with h | h | h | h
  · cases hses : t.sessions with
    | nil =>
      have hbody : bodyCore t = metaPre t ++ (str "\n## Status\n\n- [x] Open\n- [ ] In Progress\n- [ ] Blocked\n- [ ] Done\n\n## Description\n\n<description>" ++
          ((Char.ofNat 10 :: t.description) ++ str "\n</description>")) := by
        unfold bodyCore metaPre
        rw [h, hses]
        simp only [List.append_assoc, List.cons_append]
        rfl
      rw [hbody]
      apply noCross_append
      · exact noCross_metaPre_nl _ '#' t _ (by decide) (by decide) (by decide)
          (by decide) (by simp [str]) hid hca hua hbl hbb
      apply noCross_append
      · exact noCross_of_dies _ _ _ (by decide)
      apply noCross_append
      · exact noCross_sep2_nlfree t.description _ hfree.2.2.1 hfree.2.1 (by simp [str])
      exact noCross_of_dies _ _ _ (by decide)
    | cons s ss2 =>
      have hbody : bodyCore t = metaPre t ++ (str "\n## Status\n\n- [x] Open\n- [ ] In Progress\n- [ ] Blocked\n- [ ] Done\n\n## Description\n\n<description>" ++
          ((Char.ofNat 10 :: t.description) ++ (str "\n</description>\n\n## Session Logs\n\n" ++ sessFlat1 (s :: ss2)))) := by
        unfold bodyCore metaPre
        rw [h, hses]
        simp only [List.append_assoc, List.cons_append]
        rfl
      rw [hbody]
      apply noCross_append
      · exact noCross_metaPre_nl _ '#' t _ (by decide) (by decide) (by decide)
          (by decide) (by simp [str]) hid hca hua hbl hbb
      apply noCross_append
      · exact noCross_of_dies _ _ _ (by decide)
      apply noCross_append
      · exact noCross_sep2_nlfree t.description _ hfree.2.2.1 hfree.2.1 (by simp [str])
      apply noCross_append
      · obtain ⟨Y, hY⟩ := flat1_head s ss2
        apply noCross_general _ _ _ (by decide)
        intro k hk0 hklen
        left
        rw [hY, List.append_assoc]
        rw [show (sepStop2).length = 8 from by decide] at hklen
        interval_cases k <;> rfl
      exact noCross_flat1_sep2 (s :: ss2) rest (fun x hx => ⟨(hsess x (by rw [hses]; exact hx)).1.2, (hsess x (by rw [hses]; exact hx)).2.1.2.2.1, (hsess x (by rw [hses]; exact hx)).2.1.2.1⟩) hr0
  · cases hses : t.sessions with
    | nil =>
      have hbody : bodyCore t = metaPre t ++ (str "\n## Status\n\n- [ ] Open\n- [x] In Progress\n- [ ] Blocked\n- [ ] Done\n\n## Description\n\n<description>" ++
          ((Char.ofNat 10 :: t.description) ++ str "\n</description>")) := by
        unfold bodyCore metaPre
        rw [h, hses]
        simp only [List.append_assoc, List.cons_append]
        rfl
      rw [hbody]
      apply noCross_append
      · exact noCross_metaPre_nl _ '#' t _ (by decide) (by decide) (by decide)
          (by decide) (by simp [str]) hid hca hua hbl hbb
      apply noCross_append
      · exact noCross_of_dies _ _ _ (by decide)
      apply noCross_append
      · exact noCross_sep2_nlfree t.description _ hfree.2.2.1 hfree.2.1 (by simp [str])
      exact noCross_of_dies _ _ _ (by decide)
    | cons s ss2 =>
      have hbody : bodyCore t = metaPre t ++ (str "\n## Status\n\n- [ ] Open\n- [x] In Progress\n- [ ] Blocked\n- [ ] Done\n\n## Description\n\n<description>" ++
          ((Char.ofNat 10 :: t.description) ++ (str "\n</description>\n\n## Session Logs\n\n" ++ sessFlat1 (s :: ss2)))) := by
        unfold bodyCore metaPre
        rw [h, hses]
        simp only [List.append_assoc, List.cons_append]
        rfl
      rw [hbody]
      apply noCross_append
      · exact noCross_metaPre_nl _ '#' t _ (by decide) (by decide) (by decide)
          (by decide) (by simp [str]) hid hca hua hbl hbb
      apply noCross_append
      · exact noCross_of_dies _ _ _ (by decide)
      apply noCross_append
      · exact noCross_sep2_nlfree t.description _ hfree.2.2.1 hfree.2.1 (by simp [str])
      apply noCross_append
      · obtain ⟨Y, hY⟩ := flat1_head s ss2
        apply noCross_general _ _ _ (by decide)
        intro k hk0 hklen
        left
        rw [hY, List.append_assoc]
        rw [show (sepStop2).length = 8 from by decide] at hklen
        interval_cases k <;> rfl
      exact noCross_flat1_sep2 (s :: ss2) rest (fun x hx => ⟨(hsess x (by rw [hses]; exact hx)).1.2, (hsess x (by rw [hses]; exact hx)).2.1.2.2.1, (hsess x (by rw [hses]; exact hx)).2.1.2.1⟩) hr0
  · cases hses : t.sessions with
    | nil =>
      have hbody : bodyCore t = metaPre t ++ (str "\n## Status\n\n- [ ] Open\n- [ ] In Progress\n- [ ] Blocked\n- [x] Done\n\n## Description\n\n<description>" ++
          ((Char.ofNat 10 :: t.description) ++ str "\n</description>")) := by
        unfold bodyCore metaPre
        rw [h, hses]
        simp only [List.append_assoc, List.cons_append]
        rfl
      rw [hbody]
      apply noCross_append
      · exact noCross_metaPre_nl _ '#' t _ (by decide) (by decide) (by decide)
          (by decide) (by simp [str]) hid hca hua hbl hbb
      apply noCross_append
      · exact noCross_of_dies _ _ _ (by decide)
      apply noCross_append
      · exact noCross_sep2_nlfree t.description _ hfree.2.2.1 hfree.2.1 (by simp [str])
      exact noCross_of_dies _ _ _ (by decide)
    | cons s ss2 =>
      have hbody : bodyCore t = metaPre t ++ (str "\n## Status\n\n- [ ] Open\n- [ ] In Progress\n- [ ] Blocked\n- [x] Done\n\n## Description\n\n<description>" ++
          ((Char.ofNat 10 :: t.description) ++ (str "\n</description>\n\n## Session Logs\n\n" ++ sessFlat1 (s :: ss2)))) := by
        unfold bodyCore metaPre
        rw [h, hses]
        simp only [List.append_assoc, List.cons_append]
        rfl
      rw [hbody]
      apply noCross_append
      · exact noCross_metaPre_nl _ '#' t _ (by decide) (by decide) (by decide)
          (by decide) (by simp [str]) hid hca hua hbl hbb
      apply noCross_append
      · exact noCross_of_dies _ _ _ (by decide)
      apply noCross_append
      · exact noCross_sep2_nlfree t.description _ hfree.2.2.1 hfree.2.1 (by simp [str])
      apply noCross_append
      · obtain ⟨Y, hY⟩ := flat1_head s ss2
        apply noCross_general _ _ _ (by decide)
        intro k hk0 hklen
        left
        rw [hY, List.append_assoc]
        rw [show (sepStop2).length = 8 from by decide] at hklen
        interval_cases k <;> rfl
      exact noCross_flat1_sep2 (s :: ss2) rest (fun x hx => ⟨(hsess x (by rw [hses]; exact hx)).1.2, (hsess x (by rw [hses]; exact hx)).2.1.2.2.1, (hsess x (by rw [hses]; exact hx)).2.1.2.1⟩) hr0
  · cases hses : t.sessions with
    | nil =>
      have hbody : bodyCore t = metaPre t ++ (str "\n## Status\n\n- [ ] Open\n- [ ] In Progress\n- [x] Blocked\n- [ ] Done\n\n## Description\n\n<description>" ++
          ((Char.ofNat 10 :: t.description) ++ str "\n</description>")) := by
        unfold bodyCore metaPre
        rw [h, hses]
        simp only [List.append_assoc, List.cons_append]
        rfl
      rw [hbody]
      apply noCross_append
      · exact noCross_metaPre_nl _ '#' t _ (by decide) (by decide) (by decide)
          (by decide) (by simp [str]) hid hca hua hbl hbb
      apply noCross_append
      · exact noCross_of_dies _ _ _ (by decide)
      apply noCross_append
      · exact noCross_sep2_nlfree t.description _ hfree.2.2.1 hfree.2.1 (by simp [str])
      exact noCross_of_dies _ _ _ (by decide)
    | cons s ss2 =>
      have hbody : bodyCore t = metaPre t ++ (str "\n## Status\n\n- [ ] Open\n- [ ] In Progress\n- [x] Blocked\n- [ ] Done\n\n## Description\n\n<description>" ++
          ((Char.ofNat 10 :: t.description) ++ (str "\n</description>\n\n## Session Logs\n\n" ++ sessFlat1 (s :: ss2)))) := by
        unfold bodyCore metaPre
        rw [h, hses]
        simp only [List.append_assoc, List.cons_append]
        rfl
      rw [hbody]
      apply noCross_append
      · exact noCross_metaPre_nl _ '#' t _ (by decide) (by decide) (by decide)
          (by decide) (by simp [str]) hid hca hua hbl hbb
      apply noCross_append
      · exact noCross_of_dies _ _ _ (by decide)
      apply noCross_append
      · exact noCross_sep2_nlfree t.description _ hfree.2.2.1 hfree.2.1 (by simp [str])
      apply noCross_append
      · obtain ⟨Y, hY⟩ := flat1_head s ss2
        apply noCross_general _ _ _ (by decide)
        intro k hk0 hklen
        left
        rw [hY, List.append_assoc]
        rw [show (sepStop2).length = 8 from by decide] at hklen
        interval_cases k <;> rfl
      exact noCross_flat1_sep2 (s :: ss2) rest (fun x hx => ⟨(hsess x (by rw [hses]; exact hx)).1.2, (hsess x (by rw [hses]; exact hx)).2.1.2.2.1, (hsess x (by rw [hses]; exact hx)).2.1.2.1⟩) hr0

theorem noCross_body_sep1 (t : Task) (rest : List Char) (hwf : WFtask t)
    (hr0 : rest[0]? = some (Char.ofNat 10)) :
    NoCross sepStop1 (bodyCore t) rest := by
  obtain ⟨-, -, hid, hca, hua, hbl, hbb, hst, hfree, -, -, hsess⟩ := hwf
  simp only [validStatuses, List.mem_cons, List.not_mem_nil, or_false] at hst
  rcases hst with h | h | h | h
  · cases hses : t.sessions with
    | nil =>
      have hbody : bodyCore t = metaPre t ++ (str "\n## Status\n\n- [x] Open\n- [ ] In Progress\n- [ ] Blocked\n- [ ] Done\n\n## Description\n\n<description>" ++
          ((Char.ofNat 10 :: t.description) ++ str "\n</description>")) := by
        unfold bodyCore metaPre
        rw [h, hses]
        simp only [List.append_assoc, List.cons_append]
        rfl
      rw [hbody]
      apply noCross_append
      · exact noCross_metaPre_nl _ '-' t _ (by decide) (by decide) (by decide)
          (by decide) (by simp [str]) hid hca hua hbl hbb
      apply noCross_append
      · exact noCross_of_dies _ _ _ (by decide)
      apply noCross_append
      · exact noCross_sep1_nlfree t.description _ hfree.2.1 (by simp [str]) (by simp [str])
      exact noCross_of_dies _ _ _ (by decide)
    | cons s ss2 =>
      have hbody : bodyCore t = metaPre t ++ (str "\n## Status\n\n- [x] Open\n- [ ] In Progress\n- [ ] Blocked\n- [ ] Done\n\n## Description\n\n<description>" ++
          ((Char.ofNat 10 :: t.description) ++ (str "\n</description>\n\n## Session Logs\n\n" ++ sessFlat1 (s :: ss2)))) := by
        unfold bodyCore metaPre
        rw [h, hses]
        simp only [List.append_assoc, List.cons_append]
        rfl
      rw [hbody]
      apply noCross_append
      · exact noCross_metaPre_nl _ '-' t _ (by decide) (by decide) (by decide)
          (by decide) (by simp [str]) hid hca hua hbl hbb
      apply noCross_append
      · exact noCross_of_dies _ _ _ (by decide)
      apply noCross_append
      · exact noCross_sep1_nlfree t.description _ hfree.2.1 (by simp [str]) (by simp [str])
      apply noCross_append
      · obtain ⟨Y, hY⟩ := flat1_head s ss2
        apply noCross_general _ _ _ (by decide)
        intro k hk0 hklen
        left
        rw [hY, List.append_assoc]
        rw [show (sepStop1).length = 13 from by decide] at hklen
        interval_cases k <;> rfl
      exact noCross_flat1_sep1 (s :: ss2) rest (fun x hx => ⟨(hsess x (by rw [hses]; exact hx)).1.2, (hsess x (by rw [hses]; exact hx)).2.1.2.1⟩) hr0
  · cases hses : t.sessions with
    | nil =>
      have hbody : bodyCore t = metaPre t ++ (str "\n## Status\n\n- [ ] Open\n- [x] In Progress\n- [ ] Blocked\n- [ ] Done\n\n## Description\n\n<description>" ++
          ((Char.ofNat 10 :: t.description) ++ str "\n</description>")) := by
        unfold bodyCore metaPre
        rw [h, hses]
        simp only [List.append_assoc, List.cons_append]
        rfl
      rw [hbody]
      apply noCross_append
      · exact noCross_metaPre_nl _ '-' t _ (by decide) (by decide) (by decide)
          (by decide) (by simp [str]) hid hca hua hbl hbb
      apply noCross_append
      · exact noCross_of_dies _ _ _ (by decide)
      apply noCross_append
      · exact noCross_sep1_nlfree t.description _ hfree.2.1 (by simp [str]) (by simp [str])
      exact noCross_of_dies _ _ _ (by decide)
    | cons s ss2 =>
      have hbody : bodyCore t = metaPre t ++ (str "\n## Status\n\n- [ ] Open\n- [x] In Progress\n- [ ] Blocked\n- [ ] Done\n\n## Description\n\n<description>" ++
          ((Char.ofNat 10 :: t.description) ++ (str "\n</description>\n\n## Session Logs\n\n" ++ sessFlat1 (s :: ss2)))) := by
        unfold bodyCore metaPre
        rw [h, hses]
        simp only [List.append_assoc, List.cons_append]
        rfl
      rw [hbody]
      apply noCross_append
      · exact noCross_metaPre_nl _ '-' t _ (by decide) (by decide) (by decide)
          (by decide) (by simp [str]) hid hca hua hbl hbb
      apply noCross_append
      · exact noCross_of_dies _ _ _ (by decide)
      apply noCross_append
      · exact noCross_sep1_nlfree t.description _ hfree.2.1 (by simp [str]) (by simp [str])
      apply noCross_append
      · obtain ⟨Y, hY⟩ := flat1_head s ss2
        apply noCross_general _ _ _ (by decide)
        intro k hk0 hklen
        left
        rw [hY, List.append_assoc]
        rw [show (sepStop1).length = 13 from by decide] at hklen
        interval_cases k <;> rfl
      exact noCross_flat1_sep1 (s :: ss2) rest (fun x hx => ⟨(hsess x (by rw [hses]; exact hx)).1.2, (hsess x (by rw [hses]; exact hx)).2.1.2.1⟩) hr0
  · cases hses : t.sessions with
    | nil =>
      have hbody : bodyCore t = metaPre t ++ (str "\n## Status\n\n- [ ] Open\n- [ ] In Progress\n- [ ] Blocked\n- [x] Done\n\n## Description\n\n<description>" ++
          ((Char.ofNat 10 :: t.description) ++ str "\n</description>")) := by
        unfold bodyCore metaPre
        rw [h, hses]
        simp only [List.append_assoc, List.cons_append]
        rfl
      rw [hbody]
      apply noCross_append
      · exact noCross_metaPre_nl _ '-' t _ (by decide) (by decide) (by decide)
          (by decide) (by simp [str]) hid hca hua hbl hbb
      apply noCross_append
      · exact noCross_of_dies _ _ _ (by decide)
      apply noCross_append
      · exact noCross_sep1_nlfree t.description _ hfree.2.1 (by simp [str]) (by simp [str])
      exact noCross_of_dies _ _ _ (by decide)
    | cons s ss2 =>
      have hbody : bodyCore t = metaPre t ++ (str "\n## Status\n\n- [ ] Open\n- [ ] In Progress\n- [ ] Blocked\n- [x] Done\n\n## Description\n\n<description>" ++
          ((Char.ofNat 10 :: t.description) ++ (str "\n</description>\n\n## Session Logs\n\n" ++ sessFlat1 (s :: ss2)))) := by
        unfold bodyCore metaPre
        rw [h, hses]
        simp only [List.append_assoc, List.cons_append]
        rfl
      rw [hbody]
      apply noCross_append
      · exact noCross_metaPre_nl _ '-' t _ (by decide) (by decide) (by decide)
          (by decide) (by simp [str]) hid hca hua hbl hbb
      apply noCross_append
      · exact noCross_of_dies _ _ _ (by decide)
      apply noCross_append
      · exact noCross_sep1_nlfree t.description _ hfree.2.1 (by simp [str]) (by simp [str])
      apply noCross_append
      · obtain ⟨Y, hY⟩ := flat1_head s ss2
        apply noCross_general _ _ _ (by decide)
        intro k hk0 hklen
        left
        rw [hY, List.append_assoc]
        rw [show (sepStop1).length = 13 from by decide] at hklen
        interval_cases k <;> rfl
      exact noCross_flat1_sep1 (s :: ss2) rest (fun x hx => ⟨(hsess x (by rw [hses]; exact hx)).1.2, (hsess x (by rw [hses]; exact hx)).2.1.2.1⟩) hr0
  · cases hses : t.sessions with
    | nil =>
      have hbody : bodyCore t = metaPre t ++ (str "\n## Status\n\n- [ ] Open\n- [ ] In Progress\n- [x] Blocked\n- [ ] Done\n\n## Description\n\n<description>" ++
          ((Char.ofNat 10 :: t.description) ++ str "\n</description>")) := by
        unfold bodyCore metaPre
        rw [h, hses]
        simp only [List.append_assoc, List.cons_append]
        rfl
      rw [hbody]
      apply noCross_append
      · exact noCross_metaPre_nl _ '-' t _ (by decide) (by decide) (by decide)
          (by decide) (by simp [str]) hid hca hua hbl hbb
      apply noCross_append
      · exact noCross_of_dies _ _ _ (by decide)
      apply noCross_append
      · exact noCross_sep1_nlfree t.description _ hfree.2.1 (by simp [str]) (by simp [str])
      exact noCross_of_dies _ _ _ (by decide)
    | cons s ss2 =>
      have hbody : bodyCore t = metaPre t ++ (str "\n## Status\n\n- [ ] Open\n- [ ] In Progress\n- [x] Blocked\n- [ ] Done\n\n## Description\n\n<description>" ++
          ((Char.ofNat 10 :: t.description) ++ (str "\n</description>\n\n## Session Logs\n\n" ++ sessFlat1 (s :: ss2)))) := by
        unfold bodyCore metaPre
        rw [h, hses]
        simp only [List.append_assoc, List.cons_append]
        rfl
      rw [hbody]
      apply noCross_append
      · exact noCross_metaPre_nl _ '-' t _ (by decide) (by decide) (by decide)
          (by decide) (by simp [str]) hid hca hua hbl hbb
      apply noCross_append
      · exact noCross_of_dies _ _ _ (by decide)
      apply noCross_append
      · exact noCross_sep1_nlfree t.description _ hfree.2.1 (by simp [str]) (by simp [str])
      apply noCross_append
      · obtain ⟨Y, hY⟩ := flat1_head s ss2
        apply noCross_general _ _ _ (by decide)
        intro k hk0 hklen
        left
        rw [hY, List.append_assoc]
        rw [show (sepStop1).length = 13 from by decide] at hklen
        interval_cases k <;> rfl
      exact noCross_flat1_sep1 (s :: ss2) rest (fun x hx => ⟨(hsess x (by rw [hses]; exact hx)).1.2, (hsess x (by rw [hses]; exact hx)).2.1.2.1⟩) hr0

theorem bodyStop_false_of (s rest : List Char) (h1 : NoCross sepStop1 s rest)
    (h2 : NoCross sepStop2 s rest) (hrest : rest ≠ []) :
    ∀ i, i < s.length → bodyStop (s.drop i ++ rest) = false := by
  intro i hi
  unfold bodyStop
  rw [h1 i hi, h2 i hi]
  have hlen : 2 ≤ (s.drop i ++ rest).length := by
    rw [List.length_append, List.length_drop]
    have h3 : 0 < rest.length := List.length_pos.2 hrest
    omega
  have e1 : ¬(s.drop i ++ rest = []) := by
    intro he
    rw [he] at hlen
    simp at hlen
  have e2 : ¬(s.drop i ++ rest = [Char.ofNat 10]) := by
    intro he
    rw [he] at hlen
    simp at hlen
  simp [e1, e2]

theorem takeBody_body (t : Task) (hwf : WFtask t) (rest : List Char)
    (hr0 : rest[0]? = some (Char.ofNat 10)) :
    takeBody (bodyCore t ++ rest) = (bodyCore t ++ (takeBody rest).1, (takeBody rest).2) := by
  apply takeBody_append
  apply bodyStop_false_of _ _ (noCross_body_sep1 t rest hwf hr0)
    (noCross_body_sep2 t rest hwf hr0)
  intro he
  rw [he] at hr0
  simp at hr0

/-! ## Assembling the whole-document round trip -/

theorem save_head (u : Task) (ts2 : List Task) :
    ∃ X, md_save_tasks (u :: ts2) = str "# Task: " ++ X := by
  cases ts2 with
  | nil => exact ⟨_, gen_decomp u⟩
  | cons v l =>
    refine ⟨u.title ++ (Char.ofNat 10 :: (bodyCore u ++ (Char.ofNat 10 :: (Char.ofNat 10 ::
      (str "---\n\n" ++ md_save_tasks (v :: l)))))), ?_⟩
    show generate_markdown_task u ++ sepText ++ md_save_tasks (v :: l) = _
    rw [gen_decomp]
    simp only [List.append_assoc, List.cons_append]
    rfl

theorem findSections_nl (f : Nat) : findSections f [Char.ofNat 10] = [] := by
  cases f with
  | zero => rfl
  | succ f2 =>
    rw [show ([Char.ofNat 10] : List Char) = Char.ofNat 10 :: [] from rfl,
      findSections_cons]
    rw [if_neg (by rw [show isPref headerPat (Char.ofNat 10 :: []) = false from rfl]; simp)]
    exact findSections_nil f2

theorem takeBody_mid (S : List Char) (u : Task) (ts2 : List Task)
    (hS : S = md_save_tasks (u :: ts2)) :
    takeBody (Char.ofNat 10 :: (sepText ++ S)) = ([Char.ofNat 10], sepText ++ S) := by
  obtain ⟨X, hX⟩ := save_head u ts2
  rw [takeBody_cons]
  rw [if_neg (by
    rw [show bodyStop (Char.ofNat 10 :: (sepText ++ S)) =
      (isPref sepStop1 (Char.ofNat 10 :: (sepText ++ S)) ||
        isPref sepStop2 (Char.ofNat 10 :: (sepText ++ S)) ||
        decide (Char.ofNat 10 :: (sepText ++ S) = []) ||
        decide (Char.ofNat 10 :: (sepText ++ S) = [Char.ofNat 10])) from rfl]
    rw [show isPref sepStop1 (Char.ofNat 10 :: (sepText ++ S)) = false from rfl]
    rw [show isPref sepStop2 (Char.ofNat 10 :: (sepText ++ S)) = false from rfl]
    simp [hS, hX, str])]
  have hc : sepText ++ S = Char.ofNat 10 :: (str "---\n\n" ++ S) := rfl
  have hstop : bodyStop (Char.ofNat 10 :: (str "---\n\n" ++ S)) = true := by
    rw [hS, hX]
    unfold bodyStop
    rw [show Char.ofNat 10 :: (str "---\n\n" ++ (str "# Task: " ++ X)) =
      sepStop1 ++ (' ' :: X) from rfl]
    rw [isPref_self_append]
    simp
  rw [hc, takeBody_cons, if_pos hstop, ← hc]

theorem load_aux : ∀ (ts : List Task), (∀ t ∈ ts, WFtask t) →
    ∀ f, (md_save_tasks ts).length < f →
    (findSections f (md_save_tasks ts)).map
      (fun sec => { parse_task_section sec.2 with title := pyStrip sec.1 }) = ts := by
  intro ts
  induction ts with
  | nil =>
    intro _ f _
    rw [show md_save_tasks [] = ([] : List Char) from rfl, findSections_nil]
    rfl
  | cons t ts ih =>
    intro hwf f hf
    have hwt := hwf t (List.mem_cons_self _ _)
    have hst : pyStrip t.title = t.title := hwt.1
    have htnl : Char.ofNat 10 ∉ t.title := hwt.2.1
    cases ts with
    | nil =>
      rw [show md_save_tasks [t] = generate_markdown_task t from rfl] at hf ⊢
      rw [gen_decomp] at hf ⊢
      cases f with
      | zero => exact absurd hf (Nat.not_lt_zero _)
      | succ f2 =>
        rw [findSections_match t.title _ f2 htnl]
        rw [takeBody_body t hwt _ (by simp)]
        rw [show takeBody [Char.ofNat 10] = (([] : List Char), [Char.ofNat 10]) from rfl]
        dsimp only
        rw [findSections_nl]
        simp only [List.map_cons, List.map_nil]
        rw [parse_body t hwt [] (Or.inl rfl), hst]
    | cons u ts2 =>
      have hsplit : md_save_tasks (t :: u :: ts2) =
          str "# Task: " ++ (t.title ++ (Char.ofNat 10 :: (bodyCore t ++ (Char.ofNat 10 ::
            (sepText ++ md_save_tasks (u :: ts2)))))) := by
        show generate_markdown_task t ++ sepText ++ md_save_tasks (u :: ts2) = _
        rw [gen_decomp]
        simp only [List.append_assoc, List.cons_append]
        rfl
      rw [hsplit] at hf ⊢
      cases f with
      | zero => exact absurd hf (Nat.not_lt_zero _)
      | succ f2 =>
        rw [findSections_match t.title _ f2 htnl]
        rw [takeBody_body t hwt _ (by simp)]
        rw [takeBody_mid (md_save_tasks (u :: ts2)) u ts2 rfl]
        dsimp only
        simp only [List.length_append, List.length_cons] at hf
        obtain ⟨f3, rfl, hf3⟩ : ∃ f3, f2 = sepText.length + f3 ∧
            (md_save_tasks (u :: ts2)).length < f3 :=
          ⟨f2 - sepText.length, by omega, by omega⟩
        rw [findSections_skip sepText f3 _ (noCross_head _ _ _ '#' (by decide) (by decide))]
        simp only [List.map_cons]
        rw [parse_body t hwt [Char.ofNat 10] (Or.inr rfl), hst]
        rw [ih (fun x hx => hwf x (List.mem_cons_of_mem _ hx)) f3 hf3]

theorem load_save (ts : List Task) (hwf : ∀ t ∈ ts, WFtask t) :
    md_load_tasks (md_save_tasks ts) = ts := by
  unfold md_load_tasks
  exact load_aux ts hwf _ (by omega)

/-- Claim C1 (amended): for every collection of well-formed tasks — machine
field values made of plain characters, title stripped and newline-free, a
valid status, description and session logs whose lines do not re-parse as
metadata, headers or close markers, and strip-stable free text — parsing the
rendered document yields exactly the same collection:
`md_load_tasks (md_save_tasks ts) = ts`. -/
theorem claim_C1 (ts : List Task) (hwf : ∀ t ∈ ts, WFtask t) :
    md_load_tasks (md_save_tasks ts) = ts := load_save ts hwf

set_option maxRecDepth 100000 in
/-- Counterexample to C1 as stated: a description with trailing whitespace is
not reproduced — `parse_task_section` strips the captured description group,
so `parse(render(tasks))` loses the trailing space, contradicting
"each task's description data is reproduced exactly". -/
theorem claim_C1_counterexample :
    md_load_tasks (md_save_tasks [({ id := str "a", title := str "T", description := str "x ", status := stOpen, created_at := str "1", updated_at := str "2" } : Task)]) ≠ [({ id := str "a", title := str "T", description := str "x ", status := stOpen, created_at := str "1", updated_at := str "2" } : Task)] := by decide

set_option maxRecDepth 100000 in
/-- Witness for C1: a concrete well-formed two-task collection (with an edge,
a blocked status, a multi-line description and a session log) whose rendered
document parses back to exactly the same collection. -/
theorem claim_C1_witness :
    (∀ t ∈ [({ id := str "a1", title := str "First task", description := str "Line one\nline two", status := stOpen, created_at := str "2024-01-01T10:00:00", updated_at := str "2024-01-02T11:00:00", blocks := [str "b2"], blocked_by := [], sessions := [{ timestamp := str "2024-01-01T10:05:00", log := str "did things" }] } : Task), { id := str "b2", title := str "Second task", description := str "depends on a1", status := stBlocked, created_at := str "2024-01-01T10:01:00", updated_at := str "2024-01-02T11:01:00", blocks := [], blocked_by := [str "a1"], sessions := [] }], WFtask t) ∧
    md_load_tasks (md_save_tasks [({ id := str "a1", title := str "First task", description := str "Line one\nline two", status := stOpen, created_at := str "2024-01-01T10:00:00", updated_at := str "2024-01-02T11:00:00", blocks := [str "b2"], blocked_by := [], sessions := [{ timestamp := str "2024-01-01T10:05:00", log := str "did things" }] } : Task), { id := str "b2", title := str "Second task", description := str "depends on a1", status := stBlocked, created_at := str "2024-01-01T10:01:00", updated_at := str "2024-01-02T11:01:00", blocks := [], blocked_by := [str "a1"], sessions := [] }]) = [({ id := str "a1", title := str "First task", description := str "Line one\nline two", status := stOpen, created_at := str "2024-01-01T10:00:00", updated_at := str "2024-01-02T11:00:00", blocks := [str "b2"], blocked_by := [], sessions := [{ timestamp := str "2024-01-01T10:05:00", log := str "did things" }] } : Task), { id := str "b2", title := str "Second task", description := str "depends on a1", status := stBlocked, created_at := str "2024-01-01T10:01:00", updated_at := str "2024-01-02T11:01:00", blocks := [], blocked_by := [str "a1"], sessions := [] }] :=
  ⟨by decide, claim_C1 _ (by decide)⟩

/-- Claim C8: for every well-formed collection in which some description or
session-log body contains a line consisting solely of the separator text
`---`, rendering and re-parsing does not split a task at that line: the
number of tasks is preserved and every body round-trips intact. -/
theorem claim_C8 (ts : List Task) (hwf : ∀ t ∈ ts, WFtask t)
    (hsep : ∃ t ∈ ts, hasSepLine t.description = true ∨
      ∃ s ∈ t.sessions, hasSepLine s.log = true) :
    (md_load_tasks (md_save_tasks ts)).length = ts.length ∧
      md_load_tasks (md_save_tasks ts) = ts := by
  have h := load_save ts hwf
  exact ⟨by rw [h], h⟩

set_option maxRecDepth 100000 in
/-- Witness for C8: a task whose description contains a bare `---` line and
whose session log is exactly `---` round-trips intact through
`md_save_tasks` / `md_load_tasks`. -/
theorem claim_C8_witness :
    (∀ t ∈ [({ id := str "a", title := str "T", description := str "before\n---\nafter", status := stDone, created_at := str "1", updated_at := str "2", sessions := [{ timestamp := str "2024-01-01T09:00:00", log := str "---" }] } : Task)], WFtask t) ∧
    (∃ t ∈ [({ id := str "a", title := str "T", description := str "before\n---\nafter", status := stDone, created_at := str "1", updated_at := str "2", sessions := [{ timestamp := str "2024-01-01T09:00:00", log := str "---" }] } : Task)], hasSepLine t.description = true ∨
      ∃ s ∈ t.sessions, hasSepLine s.log = true) ∧
    (md_load_tasks (md_save_tasks [({ id := str "a", title := str "T", description := str "before\n---\nafter", status := stDone, created_at := str "1", updated_at := str "2", sessions := [{ timestamp := str "2024-01-01T09:00:00", log := str "---" }] } : Task)])).length = ([({ id := str "a", title := str "T", description := str "before\n---\nafter", status := stDone, created_at := str "1", updated_at := str "2", sessions := [{ timestamp := str "2024-01-01T09:00:00", log := str "---" }] } : Task)] : List Task).length ∧
    md_load_tasks (md_save_tasks [({ id := str "a", title := str "T", description := str "before\n---\nafter", status := stDone, created_at := str "1", updated_at := str "2", sessions := [{ timestamp := str "2024-01-01T09:00:00", log := str "---" }] } : Task)]) = [({ id := str "a", title := str "T", description := str "before\n---\nafter", status := stDone, created_at := str "1", updated_at := str "2", sessions := [{ timestamp := str "2024-01-01T09:00:00", log := str "---" }] } : Task)] := by
  refine ⟨by decide, by decide, ?_, ?_⟩
  · exact (claim_C8 _ (by decide) (by decide)).1
  · exact (claim_C8 _ (by decide) (by decide)).2


end ReadyQ
